import Mathlib

/-!
# Waveform rendering and interaction core of glscopeclient

A shallow embedding of `WaveformArea_rendering.cpp` and `WaveformArea_events.cpp`.

Conventions of the embedding:

* `float` and `double` values are rationals (`ℚ`). On the horizontal axis, where values are
  converted to integer times and compared with integer columns, every conversion and every
  arithmetic result is rounded to its format (`roundF32` for `float`, `roundF64` for `double`:
  to nearest, ties to even), one operation at a time. Vertical values, which only the shader
  reads, are kept exact. Magnitudes of `2^128` and more (`2^1024` for `double`) are not turned
  into infinities, and an operation whose result is an infinity or not a number returns `none`.
* The C++ conversion of a floating-point value to an integer type is `truncToInt` (rounding
  toward zero).
* `int` and `int64_t` values are `Int`, `size_t` and `uint32_t` values are `Nat`; sample counts are
  taken to fit the 32-bit entries of the index buffer, and integer division is the C++ one
  (`Int.tdiv`).
* Pointers to channels are channel identities (`ChannelId`); a `std::map` keyed by such pointers is
  an association list in iteration order.
* A read past the end of a buffer makes the operation return `none`.
* OpenGL calls that launch or order GPU work are recorded as a list of `GLCmd` in program order;
  uploads are recorded in the state they fill. Timing counters and logging are left out.
-/

namespace WaveformArea

/-! ## Data model -/

/-- Identity of a channel (the pointer value in the source). -/
abbrev ChannelId := Nat

/-- Conversion of a floating-point value to an integer type: the fractional part is discarded. -/
def truncToInt (q : ℚ) : Int := Int.tdiv q.num (q.den : Int)

/-- Rounding of a rational to the nearest integer, a tie going to the even neighbour. -/
def roundHalfEven (x : ℚ) : Int :=
  if x - ⌊x⌋ < 1 / 2 then ⌊x⌋
  else if 1 / 2 < x - ⌊x⌋ then ⌊x⌋ + 1
  else if ⌊x⌋ % 2 = 0 then ⌊x⌋ else ⌊x⌋ + 1

/-- Exponent of the unit in the last place of `x` in a binary floating-point format with `p`
significand bits whose least positive value is `2 ^ emin`: the values of the format around `x`
are the integer multiples of `2 ^ ulpExponent p emin x`. -/
def ulpExponent (p : Nat) (emin : Int) (x : ℚ) : Int :=
  max emin (Int.log 2 |x| - ((p : Int) - 1))

/-- Rounding of `x` to the nearest value of the binary format with `p` significand bits and least
positive value `2 ^ emin`, ties to even (the default rounding of IEEE 754 arithmetic). -/
def roundBinary (p : Nat) (emin : Int) (x : ℚ) : ℚ :=
  (roundHalfEven (x / (2 : ℚ) ^ ulpExponent p emin x) : ℚ) * (2 : ℚ) ^ ulpExponent p emin x

/-- Rounding to `float` (binary32: 24 significand bits, least positive value `2^-149`). -/
def roundF32 (x : ℚ) : ℚ := roundBinary 24 (-149) x

/-- Rounding to `double` (binary64: 53 significand bits, least positive value `2^-1074`). -/
def roundF64 (x : ℚ) : ℚ := roundBinary 53 (-1074) x

/-- The sample buffer of a capture, by dynamic type. Every sample carries its start (`m_offset`,
in timescale ticks); analog samples carry a voltage and digital samples a level. -/
inductive CaptureSamples where
  | analog (samples : List (Int × ℚ))
  | digital (samples : List (Int × Bool))
  | eye
  | waterfall
  | other

/-- Fields of `CaptureChannelBase` read by the renderer: the timescale is an `int64_t`, the
trigger phase a `double` (a fraction of a time unit between the trigger and the sampling clock). -/
structure Capture where
  m_timescale : Int
  m_triggerPhase : ℚ
  samples : CaptureSamples

/-- Result of `OscilloscopeChannel::GetType`. -/
inductive ChannelType where
  | CHANNEL_TYPE_ANALOG
  | CHANNEL_TYPE_DIGITAL
  | CHANNEL_TYPE_COMPLEX
  deriving DecidableEq

/-- Dynamic class of a channel, as far as the `dynamic_cast`s of the source distinguish it. -/
inductive ChannelClass where
  | physical
  | eyeDecoder
  | waterfallDecoder
  | otherDecoder
  deriving DecidableEq

/-- Fields of an `OscilloscopeChannel` (or `ProtocolDecoder`) read or written by the area. -/
structure OscilloscopeChannel where
  id : ChannelId
  cls : ChannelClass
  type : ChannelType
  index : Nat
  data : Option Capture
  offset : ℚ
  voltageRange : ℚ
  uiWidth : Int
  decodeWidth : Int
  decodeHeight : Int

/-- Fields of the `Oscilloscope` used by the area: the trigger source and level. -/
structure Oscilloscope where
  triggerChannelIndex : Nat
  triggerVoltage : ℚ

/-- Values of `WaveformGroup::CursorConfig`. -/
inductive CursorConfig where
  | CURSOR_NONE
  | CURSOR_X_SINGLE
  | CURSOR_X_DUAL
  deriving DecidableEq

/-- Fields of the `WaveformGroup` shared by the areas of a group: the scale is a `float`, the
axis offset and the cursor positions are `int64_t`. -/
structure WaveformGroup where
  m_pixelsPerXUnit : ℚ
  m_xAxisOffset : Int
  m_cursorConfig : CursorConfig
  m_xCursorPos0 : Int
  m_xCursorPos1 : Int

/-- Values of `WaveformArea::ClickLocation`. -/
inductive ClickLocation where
  | LOC_PLOT
  | LOC_VSCALE
  | LOC_TRIGGER
  | LOC_CHAN_NAME
  deriving DecidableEq

/-- Values of `WaveformArea::DragState`. -/
inductive DragState where
  | DRAG_NONE
  | DRAG_TRIGGER
  | DRAG_CURSOR
  deriving DecidableEq

/-- A label bounding box, with integer pixel edges. -/
structure Rect where
  left : Int
  right : Int
  top : Int
  bottom : Int
  deriving DecidableEq

/-- Modelled from the spec: `Rect::HitTest` is declared outside these files; the spec speaks of the
pointer falling within the label bounding box, taken here with the edges included. -/
def Rect.HitTest (r : Rect) (x y : ℚ) : Bool :=
  decide ((r.left : ℚ) ≤ x) && decide (x ≤ (r.right : ℚ)) &&
    decide ((r.top : ℚ) ≤ y) && decide (y ≤ (r.bottom : ℚ))

/-- A point strictly inside a box, away from all four edges. -/
def Rect.StrictlyInside (r : Rect) (x y : ℚ) : Prop :=
  (r.left : ℚ) < x ∧ x < (r.right : ℚ) ∧ (r.top : ℚ) < y ∧ y < (r.bottom : ℚ)

/-- Per-channel GPU resources (`WaveformRenderData`): the channel, the validity flag, the size of
the intensity texture (`none` until `SetData` is first called) and the three storage buffers. -/
structure WaveformRenderData where
  m_channel : OscilloscopeChannel
  m_geometryOK : Bool
  m_waveformTexture : Option (Int × Int)
  m_waveformStorageBuffer : List ℚ
  m_waveformConfigBuffer : List Int
  m_waveformIndexBuffer : List Nat

/-- Render data as left by the constructor `WaveformRenderData(channel)`: nothing uploaded yet. -/
def WaveformRenderData.new (channel : OscilloscopeChannel) : WaveformRenderData :=
  { m_channel := channel, m_geometryOK := false, m_waveformTexture := none,
    m_waveformStorageBuffer := [], m_waveformConfigBuffer := [], m_waveformIndexBuffer := [] }

/-- The passes that end in `glDrawArrays(GL_TRIANGLE_FAN, 0, 4)`. -/
inductive DrawPass where
  | cairoUnderlay
  | traceColorCorrection (channel : ChannelId)
  | eye
  | waterfall
  | cairoOverlay
  deriving DecidableEq

/-- OpenGL commands that launch or order GPU work, as issued by the area. Uploads of buffers and
textures are not commands here: they are recorded in the render data they fill. -/
inductive GLCmd where
  | dispatchCompute (channel : ChannelId) (numGroups : Int)
  | memoryBarrier
  | bindWindowFramebuffer
  | drawArrays (pass : DrawPass)
  deriving DecidableEq

/-- The layout members of the area that the decoration routines write: the right edge of the plot,
the label boxes and the vertical positions of the overlays. -/
structure Layout where
  m_plotRight : Int
  m_infoBoxRect : Rect
  m_overlayBoxRects : List (ChannelId × Rect)
  m_overlayPositions : List (ChannelId × Int)

/-- Routines defined outside these files, taken as parameters: the library function `log10`, the
callbacks of the parent `OscilloscopeWindow`, the two configuration dialogs (each maps a channel to
the channel as configured, or to itself when cancelled), and the two decoration routines, which
draw on a Cairo surface and lay out the labels. -/
structure Collaborators where
  log10 : ℚ → ℚ
  GetTraceAlpha : ℚ
  OnZoomInHorizontal : WaveformGroup → WaveformGroup
  OnZoomOutHorizontal : WaveformGroup → WaveformGroup
  OnAutofitHorizontal : WaveformGroup → WaveformGroup
  ChannelPropertiesDialog : OscilloscopeChannel → OscilloscopeChannel
  ProtocolDecoderDialog : OscilloscopeChannel → OscilloscopeChannel
  DoRenderCairoUnderlays : Layout → Layout
  DoRenderCairoOverlays : Layout → Layout

/-- The members of `WaveformArea` used by rendering and event handling. `isAnalog`, `isFFT`,
`isEye` and `isWaterfall` are the results of the predicates `IsAnalog()`, `IsFFT()`, `IsEye()` and
`IsWaterfall()`, which are defined outside these files. -/
structure State where
  m_width : Int
  m_height : Int
  m_plotRight : Int
  m_padding : ℚ
  m_pixelsPerVolt : ℚ
  m_channel : OscilloscopeChannel
  isAnalog : Bool
  isFFT : Bool
  isEye : Bool
  isWaterfall : Bool
  m_scope : Option Oscilloscope
  m_group : WaveformGroup
  m_selectedChannel : ChannelId
  m_clickLocation : ClickLocation
  m_dragState : DragState
  m_infoBoxRect : Rect
  m_overlayBoxRects : List (ChannelId × Rect)
  m_overlayPositions : List (ChannelId × Int)
  m_overlays : List OscilloscopeChannel
  m_waveformRenderData : WaveformRenderData
  m_overlayRenderData : List (ChannelId × WaveformRenderData)
  m_firstFrame : Bool
  m_geometryDirty : Bool

/-! ## Coordinate mapper (`WaveformArea_rendering.cpp`, lines 532-576) -/

/-- Source function `int64_t PixelsToXAxisUnits(float pix)`: `return pix / m_group->m_pixelsPerXUnit;`.
The argument is converted to `float` on the call, the quotient of the two `float`s is a `float`,
and the return converts it to `int64_t`. -/
def PixelsToXAxisUnits (a : State) (pix : ℚ) : Int :=
  truncToInt (roundF32 (roundF32 pix / a.m_group.m_pixelsPerXUnit))

/-- Source function `XPositionToXAxisUnits`: `return m_group->m_xAxisOffset + PixelsToXAxisUnits(pix);` -/
def XPositionToXAxisUnits (a : State) (pix : ℚ) : Int :=
  a.m_group.m_xAxisOffset + PixelsToXAxisUnits a pix

/-- Source function `float XAxisUnitsToPixels(int64_t t)`: `return t * m_group->m_pixelsPerXUnit;`.
The time is converted to `float` and the product of the two `float`s is a `float`. -/
def XAxisUnitsToPixels (a : State) (t : Int) : ℚ :=
  roundF32 (roundF32 (t : ℚ) * a.m_group.m_pixelsPerXUnit)

/-- Source function `XAxisUnitsToXPosition`: `return XAxisUnitsToPixels(t - m_group->m_xAxisOffset);` -/
def XAxisUnitsToXPosition (a : State) (t : Int) : ℚ :=
  XAxisUnitsToPixels a (t - a.m_group.m_xAxisOffset)

/-- Source function `PixelsToVolts`: `return pix / m_pixelsPerVolt;` -/
def PixelsToVolts (a : State) (pix : ℚ) : ℚ :=
  pix / a.m_pixelsPerVolt

/-- Source function `VoltsToPixels`: `return volt * m_pixelsPerVolt;` -/
def VoltsToPixels (a : State) (volt : ℚ) : ℚ :=
  volt * a.m_pixelsPerVolt

/-- Source function `VoltsToYPosition`: `return m_height/2 - VoltsToPixels(volt + m_channel->GetOffset());` -/
def VoltsToYPosition (a : State) (volt : ℚ) : ℚ :=
  ((Int.tdiv a.m_height 2 : Int) : ℚ) - VoltsToPixels a (volt + a.m_channel.offset)

/-- Source function `DbToYPosition`: `plotheight = m_height - 2*m_padding; return m_padding - (db/70 * plotheight);` -/
def DbToYPosition (a : State) (db : ℚ) : ℚ :=
  a.m_padding - (db / 70 * ((a.m_height : ℚ) - 2 * a.m_padding))

/-- Source function `YPositionToVolts`:
`return PixelsToVolts(-1 * (y - m_height/2) ) - m_channel->GetOffset();` -/
def YPositionToVolts (a : State) (y : ℚ) : ℚ :=
  PixelsToVolts a (-1 * (y - ((Int.tdiv a.m_height 2 : Int) : ℚ))) - a.m_channel.offset

/-! ## Geometry builder (`WaveformArea_rendering.cpp`, lines 53-163) -/

/-- The vertex loop of `PrepareGeometry` (lines 92-108): sample `j` fills `traceBuffer[j*2]` with
its pixel x and `traceBuffer[j*2 + 1]` with its pixel y. -/
def vertexBuffer {α : Type} (x : Int → ℚ) (y : α → ℚ) : List (Int × α) → List ℚ
  | [] => []
  | (start, v) :: rest => x start :: y v :: vertexBuffer x y rest

/-- Pixel x of sample `n` in a trace buffer: the entry `traceBuffer[n*2]`. -/
def sampleX (traceBuffer : List ℚ) (n : Nat) : ℚ :=
  traceBuffer.getD (n * 2) 0

/-- The loop bound `count-1` of the index scan, in `size_t` arithmetic: it wraps around to
`2^64 - 1` when `count` is 0. -/
def lastSample (count : Nat) : Nat :=
  if count = 0 then 2 ^ 64 - 1 else count - 1

/-- The inner loop of the index scan (lines 125-135) for column `j`, entered with the sample
pointer `nsample`: `for(; nsample < count-1; nsample ++)` reads `end = traceBuffer[(nsample+1)*2]`
and, when `end >= j`, stores `nsample` and breaks. The result is the sample pointer on leaving the
loop and the value left in `indexBuffer[j]`, which is `count` when the loop runs out. -/
def advanceSample (traceBuffer : List ℚ) (count j nsample : Nat) : Option (Nat × Nat) :=
  if nsample < lastSample count then
    match traceBuffer[(nsample + 1) * 2]? with
    | none => none
    | some e =>
      if e ≥ (j : ℚ) then some (nsample, nsample)
      else advanceSample traceBuffer count j (nsample + 1)
  else some (nsample, count)
termination_by lastSample count - nsample

/-- The column loop of the index scan (lines 119-136): `cols` columns starting at column `j`,
entered with the sample pointer `nsample`, which is carried from one column to the next. -/
def indexLoop (traceBuffer : List ℚ) (count : Nat) : Nat → Nat → Nat → Option (List Nat)
  | 0, _, _ => some []
  | cols + 1, j, nsample =>
    match advanceSample traceBuffer count j nsample with
    | none => none
    | some (nsample', idx) =>
      match indexLoop traceBuffer count cols (j + 1) nsample' with
      | none => none
      | some rest => some (idx :: rest)

/-- The index scan of `PrepareGeometry` (lines 118-136): `size_t nsample = 0;` and then one pass
over the columns `0 .. m_width-1`. -/
def buildIndexBuffer (traceBuffer : List ℚ) (count width : Nat) : Option (List Nat) :=
  indexLoop traceBuffer count width 0 0

/-- The key `dynamic_cast<ProtocolDecoder*>(channel)`: the channel itself when it is a decoder and
the null pointer otherwise. -/
def decoderKey (channel : OscilloscopeChannel) : ChannelId :=
  if channel.cls = ChannelClass.physical then 0 else channel.id

/-- The value `m_overlayPositions[key]`: `operator[]` gives 0 for a key the map does not hold. -/
def overlayPosition (a : State) (channel : OscilloscopeChannel) : Int :=
  (a.m_overlayPositions.lookup (decoderKey channel)).getD 0

/-- The geometry built for a capture of `count` samples: the vertex buffer is uploaded, the config
block holds `m_height`, `m_plotRight`, `count` and the trace alpha times 256, and the index scan
fills the index buffer (lines 118-162). -/
def uploadGeometry (c : Collaborators) (a : State) (wdata : WaveformRenderData)
    (traceBuffer : List ℚ) (count : Nat) : Option WaveformRenderData :=
  match buildIndexBuffer traceBuffer count a.m_width.toNat with
  | none => none
  | some indexBuffer =>
    some { wdata with
      m_waveformStorageBuffer := traceBuffer
      m_waveformConfigBuffer :=
        [a.m_height, a.m_plotRight, (count : Int), truncToInt (c.GetTraceAlpha * 256)]
      m_waveformIndexBuffer := indexBuffer
      m_geometryOK := true }

/-- Source function `PrepareGeometry`. A capture that is neither a non-empty analog capture nor a
non-empty digital capture clears `m_geometryOK` and returns (lines 57-65). Otherwise every sample
gets the vertex `x = GetSampleStart(j) * xscale + xoff` and a `y` by kind of capture (lines 72-108),
and the index buffer is built and uploaded. The function returns the render data; the entry that
`m_overlayPositions[...]` inserts for a key the map does not hold yet is `insertOverlayPosition`,
which the callers of `PrepareGeometry` apply to the state. On the horizontal axis the arithmetic
is the one of the declared types: `double xscale` is the `float` product of the timescale,
converted to `float`, and the scale; `float xoff` is computed in `double` and then rounded; and
the `double` value `start * xscale + xoff` is rounded when it is stored in the `vector<float>`.
The vertical value `y` is kept exact. -/
def PrepareGeometry (c : Collaborators) (a : State) (wdata : WaveformRenderData) :
    Option WaveformRenderData :=
  let channel := wdata.m_channel
  match channel.data with
  | none => some { wdata with m_geometryOK := false }
  | some pdat =>
    let xscale : ℚ := roundF32 (roundF32 (pdat.m_timescale : ℚ) * a.m_group.m_pixelsPerXUnit)
    let xoff : ℚ :=
      roundF32 (roundF64
        (roundF64 (pdat.m_triggerPhase - roundF64 (a.m_group.m_xAxisOffset : ℚ)) *
          a.m_group.m_pixelsPerXUnit))
    let x : Int → ℚ := fun start =>
      roundF32 (roundF64 (roundF64 (roundF64 (start : ℚ) * xscale) + xoff))
    match pdat.samples with
    | CaptureSamples.analog samples =>
      if samples.length = 0 then some { wdata with m_geometryOK := false }
      else
        let ybase : ℚ := ((Int.tdiv a.m_height 2 : Int) : ℚ)
        let y : ℚ → ℚ := fun v =>
          if a.isFFT then DbToYPosition a (-70 - (20 * c.log10 v))
          else (a.m_pixelsPerVolt * (v + channel.offset)) + ybase
        uploadGeometry c a wdata (vertexBuffer x y samples) samples.length
    | CaptureSamples.digital samples =>
      if samples.length = 0 then some { wdata with m_geometryOK := false }
      else
        let ybase : ℚ := ((a.m_height - (overlayPosition a channel + 15) : Int) : ℚ)
        let y : Bool → ℚ := fun b => ybase + 5 + (if b then 20 else 0)
        uploadGeometry c a wdata (vertexBuffer x y samples) samples.length
    | _ => some { wdata with m_geometryOK := false }

/-! ## Rasterizer dispatch and compositing (`WaveformArea_rendering.cpp`, lines 267-530) -/

/-- Source function `RenderTrace`: nothing without valid geometry; otherwise the plot width is
rounded up to a multiple of `localSize = 2` and `numCols / localSize` groups are dispatched. -/
def RenderTrace (a : State) (data : WaveformRenderData) : List GLCmd :=
  if !data.m_geometryOK then []
  else
    let localSize : Int := 2
    let numCols : Int := a.m_plotRight
    let numCols : Int :=
      if 0 ≠ Int.tmod numCols localSize then Int.lor numCols (localSize - 1) + 1 else numCols
    let numGroups : Int := Int.tdiv numCols localSize
    [GLCmd.dispatchCompute data.m_channel.id numGroups]

/-- Source function `RenderTraceColorCorrection`: nothing without valid geometry; otherwise the
intensity texture is drawn as one textured quad in the channel's colour. -/
def RenderTraceColorCorrection (data : WaveformRenderData) : List GLCmd :=
  if !data.m_geometryOK then []
  else [GLCmd.drawArrays (DrawPass.traceColorCorrection data.m_channel.id)]

/-- Source function `RenderEye`: draws only when the channel is an `EyeDecoder2` holding an
`EyeCapture2`. -/
def RenderEye (a : State) : List GLCmd :=
  if a.m_channel.cls ≠ ChannelClass.eyeDecoder then []
  else
    match a.m_channel.data with
    | some { samples := CaptureSamples.eye, .. } => [GLCmd.drawArrays DrawPass.eye]
    | _ => []

/-- Source function `RenderWaterfall`: draws only when the channel is a `WaterfallDecoder` holding
a `WaterfallCapture`. The time base it hands to the decoder is not part of the state kept here. -/
def RenderWaterfall (a : State) : List GLCmd :=
  if a.m_channel.cls ≠ ChannelClass.waterfallDecoder then []
  else
    match a.m_channel.data with
    | some { samples := CaptureSamples.waterfall, .. } => [GLCmd.drawArrays DrawPass.waterfall]
    | _ => []

/-- Source function `RenderMainTrace`: the eye, the waterfall, or the colour-corrected trace. -/
def RenderMainTrace (a : State) : List GLCmd :=
  if a.isEye then RenderEye a
  else if a.isWaterfall then RenderWaterfall a
  else RenderTraceColorCorrection a.m_waveformRenderData

/-- The loop of `RenderOverlayTraces` over `m_overlayRenderData`. -/
def renderOverlayData : List (ChannelId × WaveformRenderData) → List GLCmd
  | [] => []
  | (_, data) :: rest => RenderTraceColorCorrection data ++ renderOverlayData rest

/-- Source function `RenderOverlayTraces`. -/
def RenderOverlayTraces (a : State) : List GLCmd :=
  renderOverlayData a.m_overlayRenderData

/-- Source function `RenderCairoUnderlays`: one quad, drawn without blending. -/
def RenderCairoUnderlays : List GLCmd :=
  [GLCmd.drawArrays DrawPass.cairoUnderlay]

/-- Source function `RenderCairoOverlays`: binds the window framebuffer and draws one quad. -/
def RenderCairoOverlays : List GLCmd :=
  [GLCmd.bindWindowFramebuffer, GLCmd.drawArrays DrawPass.cairoOverlay]

/-- The layout members of a state. -/
def State.layout (a : State) : Layout :=
  { m_plotRight := a.m_plotRight, m_infoBoxRect := a.m_infoBoxRect,
    m_overlayBoxRects := a.m_overlayBoxRects, m_overlayPositions := a.m_overlayPositions }

/-- A state with its layout members replaced. -/
def State.withLayout (a : State) (l : Layout) : State :=
  { a with m_plotRight := l.m_plotRight, m_infoBoxRect := l.m_infoBoxRect,
           m_overlayBoxRects := l.m_overlayBoxRects, m_overlayPositions := l.m_overlayPositions }

/-- Source function `ComputeAndDownloadCairoUnderlays`: runs the underlay decoration routine on a
fresh surface and uploads the image. -/
def ComputeAndDownloadCairoUnderlays (c : Collaborators) (a : State) : State :=
  a.withLayout (c.DoRenderCairoUnderlays a.layout)

/-- Source function `ComputeAndDownloadCairoOverlays`: runs the overlay decoration routine on a
fresh surface and uploads the image. -/
def ComputeAndDownloadCairoOverlays (c : Collaborators) (a : State) : State :=
  a.withLayout (c.DoRenderCairoOverlays a.layout)

/-! ## Frame orchestrator (`WaveformArea_rendering.cpp`, lines 174-265) and resize -/

/-- Assignment `m[key] = value` on a `std::map` keyed by channel pointer: the entry is replaced
when the key is present and inserted in key order otherwise. -/
def mapSet {β : Type} (key : ChannelId) (value : β) : List (ChannelId × β) → List (ChannelId × β)
  | [] => [(key, value)]
  | (k, v) :: rest =>
    if key < k then (key, value) :: (k, v) :: rest
    else if key = k then (key, value) :: rest
    else (k, v) :: mapSet key value rest

/-- The write that `m_overlayPositions[key]` makes in `PrepareGeometry` (line 82), which is
reached with a non-empty digital capture: `operator[]` inserts the key with position 0 when the
map does not hold it. -/
def insertOverlayPosition (a : State) (channel : OscilloscopeChannel) : List (ChannelId × Int) :=
  match channel.data with
  | none => a.m_overlayPositions
  | some pdat =>
    match pdat.samples with
    | CaptureSamples.digital samples =>
      if samples.length = 0 then a.m_overlayPositions
      else if (a.m_overlayPositions.lookup (decoderKey channel)).isSome then a.m_overlayPositions
      else mapSet (decoderKey channel) 0 a.m_overlayPositions
    | _ => a.m_overlayPositions

/-- The loop of `on_render` over `m_overlays` (lines 226-244). A digital overlay gets render data
on first appearance, its texture is set to `m_width x m_height`, and its geometry is prepared
and dispatched. The render data points to the overlay, so the overlay is the channel it reads.
The state takes the render data and the entry `PrepareGeometry` may insert into
`m_overlayPositions`. -/
def renderDigitalOverlays (c : Collaborators) :
    List OscilloscopeChannel → State → Option (State × List GLCmd)
  | [], a => some (a, [])
  | overlay :: rest, a =>
    if overlay.type ≠ ChannelType.CHANNEL_TYPE_DIGITAL then renderDigitalOverlays c rest a
    else
      let created : WaveformRenderData :=
        (a.m_overlayRenderData.lookup overlay.id).getD (WaveformRenderData.new overlay)
      let wdat : WaveformRenderData :=
        { created with m_channel := overlay, m_waveformTexture := some (a.m_width, a.m_height) }
      match PrepareGeometry c a wdat with
      | none => none
      | some wdat =>
        let stored : List (ChannelId × WaveformRenderData) :=
          mapSet overlay.id wdat a.m_overlayRenderData
        let a : State :=
          { a with m_overlayRenderData := stored,
                   m_overlayPositions := insertOverlayPosition a overlay }
        match renderDigitalOverlays c rest a with
        | none => none
        | some (a', cmds) => some (a', RenderTrace a wdat ++ cmds)

/-- The head of `on_render` (lines 190-201): the first-frame flag is cleared once the window
framebuffer is known, and the vertical scale is taken from the channel's voltage range. -/
def beginFrame (a : State) : State :=
  { a with m_firstFrame := false,
           m_pixelsPerVolt := (a.m_height : ℚ) / a.m_channel.voltageRange }

/-- The main trace of a frame (lines 215-219): prepared and dispatched when the channel is
analog. The state takes the render data and the entry `PrepareGeometry` may insert into
`m_overlayPositions`. -/
def renderMainGeometry (c : Collaborators) (a : State) : Option (State × List GLCmd) :=
  if a.isAnalog then
    match PrepareGeometry c a a.m_waveformRenderData with
    | none => none
    | some wdata =>
      let positions : List (ChannelId × Int) :=
        insertOverlayPosition a a.m_waveformRenderData.m_channel
      some ({ a with m_waveformRenderData := wdata, m_overlayPositions := positions },
        RenderTrace a wdata)
  else some (a, [])

/-- The two software rendering passes of a frame (lines 222-223). -/
def computeCairoLayers (c : Collaborators) (a : State) : State :=
  ComputeAndDownloadCairoOverlays c (ComputeAndDownloadCairoUnderlays c a)

/-- Source function `on_render`: one frame. The scale is recomputed, the main trace is prepared
and dispatched when the channel is analog, both decoration passes run, every digital overlay is
prepared and dispatched, and after the memory barrier the window framebuffer is bound and the four
compositing passes draw. -/
def on_render (c : Collaborators) (a : State) : Option (State × List GLCmd) :=
  match renderMainGeometry c (beginFrame a) with
  | none => none
  | some (a, mainCmds) =>
    match renderDigitalOverlays c (computeCairoLayers c a).m_overlays (computeCairoLayers c a) with
    | none => none
    | some (a, overlayCmds) =>
      some (a, mainCmds ++ overlayCmds ++ [GLCmd.memoryBarrier, GLCmd.bindWindowFramebuffer]
        ++ RenderCairoUnderlays ++ RenderMainTrace a ++ RenderOverlayTraces a
        ++ RenderCairoOverlays)

/-- Modelled from the spec: `SetGeometryDirty` is defined outside these files; the spec calls it
the geometry dirty notification that forces the next frame to rebuild the geometry. -/
def SetGeometryDirty (a : State) : State :=
  { a with m_geometryDirty := true }

/-- The loop of `on_resize` over `m_overlayRenderData` (lines 79-84). -/
def resizeOverlayData (width height : Int) :
    List (ChannelId × WaveformRenderData) → List (ChannelId × WaveformRenderData)
  | [] => []
  | (k, data) :: rest =>
    (k, { data with m_waveformTexture := some (width, height) }) ::
      resizeOverlayData width height rest

/-- Source function `on_resize` (`WaveformArea_events.cpp`, lines 54-108). -/
def on_resize (a : State) (width height : Int) : State :=
  let a : State := { a with m_width := width, m_height := height, m_plotRight := width }
  let main : WaveformRenderData :=
    { a.m_waveformRenderData with m_waveformTexture := some (width, height) }
  let a : State := { a with m_waveformRenderData := main }
  let overlays : List (ChannelId × WaveformRenderData) :=
    resizeOverlayData width height a.m_overlayRenderData
  let a : State := { a with m_overlayRenderData := overlays }
  let a : State := SetGeometryDirty a
  if a.isEye then
    let eye : OscilloscopeChannel :=
      { a.m_channel with decodeWidth := Int.tdiv a.m_width 4, decodeHeight := a.m_height }
    { a with m_channel := eye }
  else if a.isWaterfall then
    let waterfall : OscilloscopeChannel :=
      { a.m_channel with decodeWidth := a.m_width, decodeHeight := a.m_height }
    { a with m_channel := waterfall }
  else a

/-! ## Hit testing and button presses (`WaveformArea_events.cpp`) -/

/-- The loop of `HitTest` over `m_overlayBoxRects` (lines 599-606): the first box that contains
the point ends the search. -/
def hitOverlayBox (x y : ℚ) : List (ChannelId × Rect) → Option ChannelId
  | [] => none
  | (channel, box) :: rest =>
    if box.HitTest x y then some channel else hitOverlayBox x y rest

/-- The test of lines 611-619: the scope exists, the area's channel is its trigger source, and the
point is less than `radius = 20` from the trigger level and left of `m_plotRight + radius`. -/
def onTriggerHandle (a : State) (x y : ℚ) : Bool :=
  match a.m_scope with
  | none => false
  | some scope =>
    if a.m_channel.index = scope.triggerChannelIndex then
      let vy : ℚ := VoltsToYPosition a scope.triggerVoltage
      let radius : ℚ := 20
      decide (|y - vy| < radius) && decide (x < (a.m_plotRight : ℚ) + radius)
    else false

/-- Source function `HitTest` (lines 589-627): the location of the point, and the state with
`m_selectedChannel` set when a label box is hit. -/
def HitTest (a : State) (x y : ℚ) : ClickLocation × State :=
  if a.m_infoBoxRect.HitTest x y then
    (ClickLocation.LOC_CHAN_NAME, { a with m_selectedChannel := a.m_channel.id })
  else
    match hitOverlayBox x y a.m_overlayBoxRects with
    | some channel => (ClickLocation.LOC_CHAN_NAME, { a with m_selectedChannel := channel })
    | none =>
      if x > (a.m_plotRight : ℚ) then
        if onTriggerHandle a x y then (ClickLocation.LOC_TRIGGER, a)
        else (ClickLocation.LOC_VSCALE, a)
      else (ClickLocation.LOC_PLOT, a)

/-- Values of `GdkEventType` that a button event can carry. -/
inductive GdkEventType where
  | GDK_BUTTON_PRESS
  | GDK_2BUTTON_PRESS
  | GDK_3BUTTON_PRESS
  | GDK_BUTTON_RELEASE
  deriving DecidableEq

/-- Fields of `GdkEventButton` read by the handlers. -/
structure GdkEventButton where
  type : GdkEventType
  x : ℚ
  y : ℚ
  button : Nat

/-- The loop of `on_button_press_event` over `m_overlayPositions` (lines 178-184): every overlay
whose band `[position - 10, position + 10]` holds `y` is assigned in turn, and the loop does not
stop at a match. -/
def selectByPosition (y : ℚ) : List (ChannelId × Int) → ChannelId → ChannelId
  | [], selected => selected
  | (channel, position) :: rest, selected =>
    let top : Int := position - 10
    let bot : Int := position + 10
    selectByPosition y rest (if y ≥ (top : ℚ) ∧ y ≤ (bot : ℚ) then channel else selected)

/-- Source function `OnSingleClick` (lines 197-285). -/
def OnSingleClick (c : Collaborators) (a : State) (event : GdkEventButton) (timestamp : Int) :
    State :=
  match a.m_clickLocation with
  | ClickLocation.LOC_PLOT =>
    if event.button = 1 then
      let a : State :=
        if a.m_group.m_cursorConfig = CursorConfig.CURSOR_X_DUAL then
          { a with m_dragState := DragState.DRAG_CURSOR,
                   m_group := { a.m_group with m_xCursorPos1 := timestamp } }
        else a
      if a.m_group.m_cursorConfig = CursorConfig.CURSOR_X_DUAL ∨
          a.m_group.m_cursorConfig = CursorConfig.CURSOR_X_SINGLE then
        { a with m_group := { a.m_group with m_xCursorPos0 := timestamp } }
      else a
    else if event.button = 2 then
      { a with m_group := c.OnAutofitHorizontal a.m_group }
    else a
  | ClickLocation.LOC_VSCALE => a
  | ClickLocation.LOC_TRIGGER =>
    if event.button = 1 then { a with m_dragState := DragState.DRAG_TRIGGER } else a
  | ClickLocation.LOC_CHAN_NAME => a

/-- The channel `m_selectedChannel` points to, after a configuration dialog has run on it: the
dialog for physical channels or the one for decoders, by the channel's class. -/
def configureChannel (c : Collaborators) (selected : ChannelId) (channel : OscilloscopeChannel) :
    OscilloscopeChannel :=
  if channel.id = selected then
    if channel.cls = ChannelClass.physical then
      { c.ChannelPropertiesDialog channel with id := channel.id }
    else { c.ProtocolDecoderDialog channel with id := channel.id }
  else channel

/-- Source function `OnDoubleClick` (lines 287-322): a double click on a channel name runs the
configuration dialog of the selected channel. -/
def OnDoubleClick (c : Collaborators) (a : State) : State :=
  match a.m_clickLocation with
  | ClickLocation.LOC_CHAN_NAME =>
    { a with m_channel := configureChannel c a.m_selectedChannel a.m_channel,
             m_overlays := a.m_overlays.map (configureChannel c a.m_selectedChannel) }
  | _ => a

/-- Source function `on_button_press_event` (lines 171-195). -/
def on_button_press_event (c : Collaborators) (a : State) (event : GdkEventButton) : State :=
  let a : State := { a with m_selectedChannel := a.m_channel.id }
  let hit : ClickLocation × State := HitTest a event.x event.y
  let a : State := { hit.2 with m_clickLocation := hit.1 }
  let selected : ChannelId := selectByPosition event.y a.m_overlayPositions a.m_selectedChannel
  let a : State := { a with m_selectedChannel := selected }
  let timestamp : Int := XPositionToXAxisUnits a event.x
  match event.type with
  | GdkEventType.GDK_BUTTON_PRESS => OnSingleClick c a event timestamp
  | GdkEventType.GDK_2BUTTON_PRESS => OnDoubleClick c a
  | _ => a

/-! ## Scroll, release and data-ready handlers (`WaveformArea_events.cpp`) -/

/-- Values of `GdkScrollDirection`. -/
inductive GdkScrollDirection where
  | GDK_SCROLL_UP
  | GDK_SCROLL_DOWN
  | GDK_SCROLL_LEFT
  | GDK_SCROLL_RIGHT
  | GDK_SCROLL_SMOOTH
  deriving DecidableEq

/-- Fields of `GdkEventScroll` read by the handler. -/
structure GdkEventScroll where
  x : ℚ
  y : ℚ
  direction : GdkScrollDirection

/-- Source function `on_scroll_event` (lines 110-169). Over the plot, scrolling up or down zooms
the time axis through the parent window unless the channel is an eye pattern. Over the vertical
scale, scrolling up sets the voltage range to `vrange * 0.9` and scrolling down to `vrange / 0.9`,
each followed by `SetGeometryDirty()`. The literal `0.9` is the exact rational 9/10 here. -/
def on_scroll_event (c : Collaborators) (a : State) (ev : GdkEventScroll) : State :=
  let hit : ClickLocation × State := HitTest a ev.x ev.y
  let a : State := { hit.2 with m_clickLocation := hit.1 }
  match a.m_clickLocation with
  | ClickLocation.LOC_PLOT =>
    match ev.direction with
    | GdkScrollDirection.GDK_SCROLL_UP =>
      if !a.isEye then { a with m_group := c.OnZoomInHorizontal a.m_group } else a
    | GdkScrollDirection.GDK_SCROLL_DOWN =>
      if !a.isEye then { a with m_group := c.OnZoomOutHorizontal a.m_group } else a
    | _ => a
  | ClickLocation.LOC_VSCALE =>
    let vrange : ℚ := a.m_channel.voltageRange
    match ev.direction with
    | GdkScrollDirection.GDK_SCROLL_UP =>
      let channel : OscilloscopeChannel := { a.m_channel with voltageRange := vrange * (9 / 10) }
      SetGeometryDirty { a with m_channel := channel }
    | GdkScrollDirection.GDK_SCROLL_DOWN =>
      let channel : OscilloscopeChannel := { a.m_channel with voltageRange := vrange / (9 / 10) }
      SetGeometryDirty { a with m_channel := channel }
    | _ => a
  | _ => a

/-- The `switch(m_dragState)` of `on_button_release_event` (lines 328-347). Releasing the left
button while the trigger is dragged calls `m_scope->SetTriggerVoltage(YPositionToVolts(event->y))`,
which has no result when `m_scope` is null; releasing while a cursor is dragged in dual mode
sets the second cursor to the time of the pointer. -/
def finishDrag (a : State) (event : GdkEventButton) : Option State :=
  let timestamp : Int := XPositionToXAxisUnits a event.x
  match a.m_dragState with
  | DragState.DRAG_TRIGGER =>
    if event.button = 1 then
      match a.m_scope with
      | none => none
      | some scope =>
        let scope : Oscilloscope := { scope with triggerVoltage := YPositionToVolts a event.y }
        some { a with m_scope := some scope }
    else some a
  | DragState.DRAG_CURSOR =>
    if a.m_group.m_cursorConfig = CursorConfig.CURSOR_X_DUAL then
      some { a with m_group := { a.m_group with m_xCursorPos1 := timestamp } }
    else some a
  | DragState.DRAG_NONE => some a

/-- Source function `on_button_release_event` (lines 324-357): the drag is finished, and then
`if(m_dragState != DRAG_NONE) m_dragState = DRAG_NONE;`. -/
def on_button_release_event (a : State) (event : GdkEventButton) : Option State :=
  match finishDrag a event with
  | none => none
  | some a =>
    if a.m_dragState ≠ DragState.DRAG_NONE then some { a with m_dragState := DragState.DRAG_NONE }
    else some a

/-- The entry the column index should hold for column `j`: `v` is the least `n` with
`n < count - 1` and `x[n+1] >= j`, or `v` is the sentinel `count` and there is no such `n`. -/
def IsFirstCover (traceBuffer : List ℚ) (count j v : Nat) : Prop :=
  (v < count - 1 ∧ (j : ℚ) ≤ sampleX traceBuffer (v + 1) ∧
      ∀ m, m < v → sampleX traceBuffer (m + 1) < (j : ℚ)) ∨
    (v = count ∧ ∀ n, n < count - 1 → sampleX traceBuffer (n + 1) < (j : ℚ))

/-- Search of the candidates `n, n+1, ..` (`k` of them) for the first one whose next sample is
at or right of column `j`; the sentinel `count` when there is none. -/
def searchFrom (traceBuffer : List ℚ) (count j : Nat) : Nat → Nat → Nat
  | 0, _ => count
  | k + 1, n =>
    if (j : ℚ) ≤ sampleX traceBuffer (n + 1) then n
    else searchFrom traceBuffer count j k (n + 1)

/-- The per-column search of the spec, independent of every other column: it starts at sample 0
and looks through the samples `0 .. count-2`. -/
def columnSearch (traceBuffer : List ℚ) (count j : Nat) : Nat :=
  searchFrom traceBuffer count j (count - 1) 0

/-- The pixel x of the `count` samples of a trace buffer strictly increase with sample number. -/
def StrictlyIncreasingX (traceBuffer : List ℚ) (count : Nat) : Prop :=
  ∀ m n, m < n → n < count → sampleX traceBuffer m < sampleX traceBuffer n

/-! ## Specification of hit testing -/

/-- The registered label boxes with their channels, in the order `HitTest` tries them: the info
box of the main channel, then the overlay boxes in iteration order. -/
def labelBoxes (a : State) : List (ChannelId × Rect) :=
  (a.m_channel.id, a.m_infoBoxRect) :: a.m_overlayBoxRects

/-- The vertical band of an overlay at `position`, as `on_button_press_event` tests it:
`position - 10 <= y <= position + 10`. -/
def InBand (y : ℚ) (position : Int) : Prop :=
  y ≥ ((position - 10 : Int) : ℚ) ∧ y ≤ ((position + 10 : Int) : ℚ)

/-! ## Specification of empty geometry -/

/-- The capture of a channel has zero samples or is neither analog nor digital (a channel without
a capture included). -/
def CaptureEmptyOrUnsupported (channel : OscilloscopeChannel) : Prop :=
  match channel.data with
  | none => True
  | some pdat =>
    match pdat.samples with
    | CaptureSamples.analog samples => samples = []
    | CaptureSamples.digital samples => samples = []
    | _ => True

/-! ## Specification of the horizontal axis -/

/-- The time of a sample in axis units: its start in timescale ticks times `m_timescale`, plus the
trigger phase of the capture. -/
def sampleTime (pdat : Capture) (start : Int) : ℚ :=
  (start : ℚ) * (pdat.m_timescale : ℚ) + pdat.m_triggerPhase

/-- The pixel x that `PrepareGeometry` stores for a sample with start `start` (lines 72, 73 and
94): `xscale` is a `float` product, `xoff` a `double` expression rounded to `float`, and the
`double` value `start * xscale + xoff` is rounded to `float` by the store. -/
def vertexX (a : State) (pdat : Capture) (start : Int) : ℚ :=
  roundF32 (roundF64 (roundF64 (roundF64 (start : ℚ) *
      roundF32 (roundF32 (pdat.m_timescale : ℚ) * a.m_group.m_pixelsPerXUnit)) +
    roundF32 (roundF64 (roundF64 (pdat.m_triggerPhase - roundF64 (a.m_group.m_xAxisOffset : ℚ)) *
      a.m_group.m_pixelsPerXUnit))))

/-- The starts (`GetSampleStart`) of the samples of an analog or digital capture, in order. -/
def sampleStarts : CaptureSamples → List Int
  | CaptureSamples.analog samples => samples.map Prod.fst
  | CaptureSamples.digital samples => samples.map Prod.fst
  | _ => []

/-! ## Example scenes -/

/-- A physical analog channel with index 0, a 2 V range and a two-sample capture. -/
def sceneChannel : OscilloscopeChannel :=
  { id := 1, cls := ChannelClass.physical, type := ChannelType.CHANNEL_TYPE_ANALOG, index := 0,
    data := some { m_timescale := 1, m_triggerPhase := 0,
                   samples := CaptureSamples.analog [(0, 1), (100, -1)] },
    offset := 1 / 4, voltageRange := 2, uiWidth := 0, decodeWidth := 0, decodeHeight := 0 }

/-- A digital decoder overlay with identity `id` and a three-sample capture. -/
def sceneOverlay (id : ChannelId) : OscilloscopeChannel :=
  { id := id, cls := ChannelClass.otherDecoder, type := ChannelType.CHANNEL_TYPE_DIGITAL,
    index := 0,
    data := some { m_timescale := 2, m_triggerPhase := 0,
                   samples := CaptureSamples.digital [(0, true), (3, false), (5, true)] },
    offset := 0, voltageRange := 1, uiWidth := 0, decodeWidth := 0, decodeHeight := 0 }

/-- Collaborators that do nothing: dialogs are cancelled and the decoration leaves the layout. -/
def sceneCollaborators : Collaborators :=
  { log10 := fun v => v, GetTraceAlpha := 1 / 2,
    OnZoomInHorizontal := fun g => g, OnZoomOutHorizontal := fun g => g,
    OnAutofitHorizontal := fun g => g,
    ChannelPropertiesDialog := fun ch => ch, ProtocolDecoderDialog := fun ch => ch,
    DoRenderCairoUnderlays := fun l => l, DoRenderCairoOverlays := fun l => l }

/-- An 801 x 601 area on `sceneChannel`, which is the trigger source at 0 V; the plot ends at
x = 700, the name box of the main channel is `[0, 60] x [0, 20]`, and nothing is overlaid. -/
def scene : State :=
  { m_width := 801, m_height := 601, m_plotRight := 700, m_padding := 2,
    m_pixelsPerVolt := 300, m_channel := sceneChannel,
    isAnalog := true, isFFT := false, isEye := false, isWaterfall := false,
    m_scope := some { triggerChannelIndex := 0, triggerVoltage := 0 },
    m_group := { m_pixelsPerXUnit := 3 / 7, m_xAxisOffset := -40,
                 m_cursorConfig := CursorConfig.CURSOR_X_DUAL,
                 m_xCursorPos0 := 0, m_xCursorPos1 := 0 },
    m_selectedChannel := 1, m_clickLocation := ClickLocation.LOC_PLOT,
    m_dragState := DragState.DRAG_NONE,
    m_infoBoxRect := { left := 0, right := 60, top := 0, bottom := 20 },
    m_overlayBoxRects := [], m_overlayPositions := [], m_overlays := [],
    m_waveformRenderData := WaveformRenderData.new sceneChannel,
    m_overlayRenderData := [], m_firstFrame := true, m_geometryDirty := false }

/-- The scene with two overlays whose name boxes overlap between x = 150 and x = 200. -/
def sceneOverlappingBoxes : State :=
  { scene with
    m_overlays := [sceneOverlay 7, sceneOverlay 8],
    m_overlayBoxRects := [(7, { left := 100, right := 200, top := 30, bottom := 50 }),
                          (8, { left := 150, right := 250, top := 30, bottom := 50 })] }

/-- The scene with two overlays at vertical positions 100 and 105 and no overlay name box. -/
def sceneBands : State :=
  { scene with
    m_overlays := [sceneOverlay 7, sceneOverlay 8],
    m_overlayPositions := [(7, 100), (8, 105)] }

/-- Render data of an analog channel whose capture holds no sample, with geometry left valid by
an earlier frame. -/
def sceneEmptyRenderData : WaveformRenderData :=
  { WaveformRenderData.new
      { sceneChannel with
        data := some { m_timescale := 1, m_triggerPhase := 0,
                       samples := CaptureSamples.analog [] } } with
    m_geometryOK := true }

/-- The 801 x 601 scene with a digital overlay 7 that has no render data yet, a digital overlay 8
whose render data still has a 801 x 601 texture, and stale 801 x 601 render data of an overlay 9
that is no longer shown. -/
def sceneResize : State :=
  { scene with
    m_overlays := [sceneOverlay 7, sceneOverlay 8],
    m_waveformRenderData :=
      { WaveformRenderData.new sceneChannel with m_waveformTexture := some (801, 601) },
    m_overlayRenderData :=
      [(8, { WaveformRenderData.new (sceneOverlay 8) with m_waveformTexture := some (801, 601) }),
       (9, { WaveformRenderData.new (sceneOverlay 9) with m_waveformTexture := some (801, 601) })] }

/-- A single press of the left button at `(x, y)`. -/
def leftPress (x y : ℚ) : GdkEventButton :=
  { type := GdkEventType.GDK_BUTTON_PRESS, x := x, y := y, button := 1 }

/-- The pixel x of the `count` samples of a trace buffer never decrease with sample number. -/
def NondecreasingX (traceBuffer : List ℚ) (count : Nat) : Prop :=
  ∀ m n, m ≤ n → n < count → sampleX traceBuffer m ≤ sampleX traceBuffer n

/-- The channel of the 800 x 600 scenario: an analog channel with offset 0 and a 2 V range whose
capture, at timescale 1 and trigger phase 0, holds the samples `(t=0, v=1)` and `(t=100, v=-1)`. -/
def scenarioChannel : OscilloscopeChannel :=
  { id := 1, cls := ChannelClass.physical, type := ChannelType.CHANNEL_TYPE_ANALOG, index := 0,
    data := some { m_timescale := 1, m_triggerPhase := 0,
                   samples := CaptureSamples.analog [(0, 1), (100, -1)] },
    offset := 0, voltageRange := 2, uiWidth := 0, decodeWidth := 0, decodeHeight := 0 }

/-- The 800 x 600 scenario before its first frame: one pixel per time unit, axis offset 0, dual
cursors, no overlays and no scope; the vertical scale is still stale, the frame computes it from
the 2 V range. -/
def scenario : State :=
  { m_width := 800, m_height := 600, m_plotRight := 800, m_padding := 2,
    m_pixelsPerVolt := 1, m_channel := scenarioChannel,
    isAnalog := true, isFFT := false, isEye := false, isWaterfall := false,
    m_scope := none,
    m_group := { m_pixelsPerXUnit := 1, m_xAxisOffset := 0,
                 m_cursorConfig := CursorConfig.CURSOR_X_DUAL,
                 m_xCursorPos0 := 0, m_xCursorPos1 := 0 },
    m_selectedChannel := 1, m_clickLocation := ClickLocation.LOC_PLOT,
    m_dragState := DragState.DRAG_NONE,
    m_infoBoxRect := { left := 0, right := 60, top := 0, bottom := 20 },
    m_overlayBoxRects := [], m_overlayPositions := [], m_overlays := [],
    m_waveformRenderData := WaveformRenderData.new scenarioChannel,
    m_overlayRenderData := [], m_firstFrame := true, m_geometryDirty := false }

/-- The scene with a voltage range of 5 V. -/
def sceneRange5 : State :=
  { scene with m_channel := { sceneChannel with voltageRange := 5 } }

/-- A scroll at `(x, y)` in the given direction. -/
def scrollAt (x y : ℚ) (direction : GdkScrollDirection) : GdkEventScroll :=
  { x := x, y := y, direction := direction }

/-- The release of button `button` at `(x, y)`. -/
def releaseAt (x y : ℚ) (button : Nat) : GdkEventButton :=
  { type := GdkEventType.GDK_BUTTON_RELEASE, x := x, y := y, button := button }

/-- The scene while the trigger level is dragged. -/
def sceneDraggingTrigger : State :=
  { scene with m_dragState := DragState.DRAG_TRIGGER }

/-- The capture of `sceneChannel`. -/
def sceneCapture : Capture :=
  { m_timescale := 1, m_triggerPhase := 0,
    samples := CaptureSamples.analog [(0, 1), (100, -1)] }

/-- The capture of the scenario with a trigger phase of half a time unit. -/
def sceneHalfPhaseCapture : Capture :=
  { m_timescale := 1, m_triggerPhase := 1 / 2,
    samples := CaptureSamples.analog [(0, 1), (100, -1)] }

/-- Render data of the scenario channel holding `sceneHalfPhaseCapture`. -/
def sceneHalfPhaseRenderData : WaveformRenderData :=
  WaveformRenderData.new { scenarioChannel with data := some sceneHalfPhaseCapture }

/-- The scenario zoomed and panned: a quarter of a pixel per time unit, axis offset -40. -/
def scenePanZoom : State :=
  { scenario with
    m_group := { scenario.m_group with m_pixelsPerXUnit := 1 / 4, m_xAxisOffset := -40 } }

/-- A capture with one sample, at the time 1000000031 (timescale 1, whole trigger phase 0). -/
def sceneLateCapture : Capture :=
  { m_timescale := 1, m_triggerPhase := 0,
    samples := CaptureSamples.analog [(1000000031, 1)] }

/-- Render data of the scenario channel holding `sceneLateCapture`. -/
def sceneLateRenderData : WaveformRenderData :=
  WaveformRenderData.new { scenarioChannel with data := some sceneLateCapture }

/-- The scenario panned to the time 1000000031, at one pixel per time unit. -/
def sceneLargePan : State :=
  { scenario with m_group := { scenario.m_group with m_xAxisOffset := 1000000031 } }

/-- The scenario at the `float` nearest to 0.7 pixels per time unit, `11744051 / 2^24`. -/
def sceneScale07 : State :=
  { scenario with
    m_group := { scenario.m_group with m_pixelsPerXUnit := 11744051 / 16777216 } }

/-! ## Properties of the index scan -/

theorem getElem_sampleX_some (traceBuffer : List ℚ) (n : Nat) (h : n * 2 < traceBuffer.length) :
    traceBuffer[n * 2]? = some (sampleX traceBuffer n) := by
  simp [sampleX, List.getD_eq_getElem?_getD, List.getElem?_eq_getElem h]

theorem lastSample_pos (count : Nat) (hcount : 0 < count) : lastSample count = count - 1 := by
  simp [lastSample, Nat.ne_of_gt hcount]

/-- The inner loop returns, leaves the sample pointer at the first sample from `nsample` on whose
next sample is at or right of column `j`, and stores that sample; when there is none it leaves the
pointer at `count - 1` and stores the sentinel. -/
theorem advanceSample_spec (traceBuffer : List ℚ) (count j : Nat) (hcount : 0 < count)
    (hlen : 2 * count ≤ traceBuffer.length) (nsample : Nat) (hn : nsample ≤ count - 1) :
    ∃ n idx, advanceSample traceBuffer count j nsample = some (n, idx) ∧
      nsample ≤ n ∧ n ≤ count - 1 ∧
      (∀ m, nsample ≤ m → m < n → sampleX traceBuffer (m + 1) < (j : ℚ)) ∧
      ((n < count - 1 ∧ idx = n ∧ (j : ℚ) ≤ sampleX traceBuffer (n + 1)) ∨
        (n = count - 1 ∧ idx = count)) := by
  have hl := lastSample_pos count hcount
  induction nsample using advanceSample.induct traceBuffer count j with
  | case1 x hx hnone =>
    rw [hl] at hx
    have hlt : (x + 1) * 2 < traceBuffer.length := by omega
    rw [getElem_sampleX_some traceBuffer (x + 1) hlt] at hnone
    exact absurd hnone (by simp)
  | case2 x hx e he hge =>
    have hx' : x < count - 1 := hl ▸ hx
    have hlt : (x + 1) * 2 < traceBuffer.length := by omega
    rw [getElem_sampleX_some traceBuffer (x + 1) hlt] at he
    have hee : sampleX traceBuffer (x + 1) = e := by simpa using he
    refine ⟨x, x, ?_, le_refl _, hn, ?_, Or.inl ⟨hx', rfl, ?_⟩⟩
    · rw [advanceSample, if_pos hx, getElem_sampleX_some traceBuffer (x + 1) hlt, hee]
      simp [hge]
    · intro m h1 h2
      omega
    · rw [hee]
      exact hge
  | case3 x hx e he hlt' ih =>
    have hx' : x < count - 1 := hl ▸ hx
    have hlt : (x + 1) * 2 < traceBuffer.length := by omega
    rw [getElem_sampleX_some traceBuffer (x + 1) hlt] at he
    have hee : sampleX traceBuffer (x + 1) = e := by simpa using he
    obtain ⟨n, idx, heq, h1, h2, h3, h4⟩ := ih (by omega)
    refine ⟨n, idx, ?_, by omega, h2, ?_, h4⟩
    · rw [advanceSample, if_pos hx, getElem_sampleX_some traceBuffer (x + 1) hlt, hee]
      simp [hlt', heq]
    · intro m hm1 hm2
      rcases Nat.eq_or_lt_of_le hm1 with h | h
      · subst h
        rw [hee]
        exact lt_of_not_ge hlt'
      · exact h3 m h hm2
  | case4 x hx =>
    have hx' : ¬ x < count - 1 := hl ▸ hx
    refine ⟨x, count, ?_, le_refl _, hn, ?_, Or.inr ⟨by omega, rfl⟩⟩
    · rw [advanceSample, if_neg hx]
    · intro m h1 h2
      omega

/-- The column loop returns one entry per column, and the entry of each column is its first cover,
provided every sample before the pointer it is entered with lies left of the first column. -/
theorem indexLoop_spec (traceBuffer : List ℚ) (count : Nat) (hcount : 0 < count)
    (hlen : 2 * count ≤ traceBuffer.length) (cols : Nat) :
    ∀ j nsample : Nat, nsample ≤ count - 1 →
      (∀ m, m < nsample → sampleX traceBuffer (m + 1) < (j : ℚ)) →
      ∃ ib, indexLoop traceBuffer count cols j nsample = some ib ∧ ib.length = cols ∧
        ∀ k, k < cols → ∃ v, ib[k]? = some v ∧ IsFirstCover traceBuffer count (j + k) v := by
  induction cols with
  | zero =>
    intro j nsample _ _
    exact ⟨[], rfl, rfl, fun k hk => absurd hk (Nat.not_lt_zero k)⟩
  | succ cols ih =>
    intro j nsample hn hinv
    obtain ⟨n, idx, heq, h1, h2, h3, h4⟩ := advanceSample_spec traceBuffer count j hcount hlen nsample hn
    have hbelow : ∀ m, m < n → sampleX traceBuffer (m + 1) < (j : ℚ) := by
      intro m hm
      rcases Nat.lt_or_ge m nsample with h | h
      · exact hinv m h
      · exact h3 m h hm
    have hnext : ∀ m, m < n → sampleX traceBuffer (m + 1) < ((j + 1 : Nat) : ℚ) := by
      intro m hm
      have hj : (j : ℚ) < ((j + 1 : Nat) : ℚ) := by exact_mod_cast Nat.lt_succ_self j
      exact lt_trans (hbelow m hm) hj
    obtain ⟨rest, hrest, hlenr, hcov⟩ := ih (j + 1) n h2 hnext
    refine ⟨idx :: rest, ?_, by simp [hlenr], ?_⟩
    · simp [indexLoop, heq, hrest]
    · intro k hk
      cases k with
      | zero =>
        refine ⟨idx, by simp, ?_⟩
        rcases h4 with ⟨ha, hb, hc⟩ | ⟨ha, hb⟩
        · subst hb
          exact Or.inl ⟨ha, hc, hbelow⟩
        · subst hb
          refine Or.inr ⟨rfl, ?_⟩
          intro m hm
          exact hbelow m (by omega)
      | succ k =>
        obtain ⟨v, hv, hfc⟩ := hcov k (by omega)
        refine ⟨v, by simpa using hv, ?_⟩
        have : j + (k + 1) = j + 1 + k := by omega
        rw [this]
        exact hfc

/-- The index scan returns one entry per column, each the first cover of its column. -/
theorem buildIndexBuffer_spec (traceBuffer : List ℚ) (count width : Nat)
    (hcount : 0 < count) (hlen : traceBuffer.length = 2 * count) :
    ∃ ib, buildIndexBuffer traceBuffer count width = some ib ∧ ib.length = width ∧
      ∀ j, j < width → ∃ v, ib[j]? = some v ∧ IsFirstCover traceBuffer count j v := by
  obtain ⟨ib, h1, h2, h3⟩ := indexLoop_spec traceBuffer count hcount (by omega) width 0 0
    (Nat.zero_le _) (fun m hm => absurd hm (Nat.not_lt_zero m))
  refine ⟨ib, h1, h2, ?_⟩
  intro j hj
  obtain ⟨v, hv, hfc⟩ := h3 j hj
  exact ⟨v, hv, by simpa using hfc⟩

/-- A column has one first cover. -/
theorem IsFirstCover.unique {traceBuffer : List ℚ} {count j v w : Nat}
    (hv : IsFirstCover traceBuffer count j v) (hw : IsFirstCover traceBuffer count j w) :
    v = w := by
  rcases hv with ⟨a1, a2, a3⟩ | ⟨a1, a2⟩ <;> rcases hw with ⟨b1, b2, b3⟩ | ⟨b1, b2⟩
  · rcases Nat.lt_trichotomy v w with h | h | h
    · exact absurd a2 (not_le.mpr (b3 v h))
    · exact h
    · exact absurd b2 (not_le.mpr (a3 w h))
  · exact absurd a2 (not_le.mpr (b2 v a1))
  · exact absurd b2 (not_le.mpr (a2 w b1))
  · rw [a1, b1]

/-- The search over `k` candidates from `n` on finds the first cover of the column, provided the
candidates end at `count - 1` and every sample before `n` lies left of the column. -/
theorem searchFrom_spec (traceBuffer : List ℚ) (count j : Nat) (k : Nat) :
    ∀ n : Nat, n + k = count - 1 →
      (∀ m, m < n → sampleX traceBuffer (m + 1) < (j : ℚ)) →
      IsFirstCover traceBuffer count j (searchFrom traceBuffer count j k n) := by
  induction k with
  | zero =>
    intro n hn hinv
    refine Or.inr ⟨rfl, ?_⟩
    intro m hm
    exact hinv m (by omega)
  | succ k ih =>
    intro n hn hinv
    by_cases h : (j : ℚ) ≤ sampleX traceBuffer (n + 1)
    · simp only [searchFrom, if_pos h]
      exact Or.inl ⟨by omega, h, hinv⟩
    · simp only [searchFrom, if_neg h]
      apply ih (n + 1) (by omega)
      intro m hm
      rcases Nat.eq_or_lt_of_le (Nat.le_of_lt_succ hm) with h' | h'
      · subst h'
        exact lt_of_not_ge h
      · exact hinv m h'

/-- The per-column search returns the first cover of the column. -/
theorem columnSearch_spec (traceBuffer : List ℚ) (count j : Nat) :
    IsFirstCover traceBuffer count j (columnSearch traceBuffer count j) :=
  searchFrom_spec traceBuffer count j (count - 1) 0 (by omega)
    (fun m hm => absurd hm (Nat.not_lt_zero m))

theorem lt_length_of_entry {ib : List Nat} {j v : Nat} (h : ib[j]? = some v) :
    j < ib.length := by
  by_contra hge
  rw [List.getElem?_eq_none (by omega)] at h
  cases h

/-- First covers do not decrease from a column to a later one. -/
theorem IsFirstCover.mono {traceBuffer : List ℚ} {count i j v w : Nat} (hij : i ≤ j)
    (hv : IsFirstCover traceBuffer count i v) (hw : IsFirstCover traceBuffer count j w) :
    v ≤ w := by
  have hq : (i : ℚ) ≤ (j : ℚ) := by exact_mod_cast hij
  rcases hw with ⟨b1, b2, _⟩ | ⟨b1, _⟩
  · rcases hv with ⟨_, _, a3⟩ | ⟨_, a2⟩
    · by_contra hlt
      have := a3 w (by omega)
      exact absurd (le_trans hq b2) (not_le.mpr this)
    · exact absurd (le_trans hq b2) (not_le.mpr (a2 w b1))
  · rcases hv with ⟨a1, _, _⟩ | ⟨a1, _⟩ <;> omega

/-- A first cover other than sample 0 and the sentinel starts left of its column. -/
theorem IsFirstCover.start_lt {traceBuffer : List ℚ} {count j v : Nat}
    (hv : IsFirstCover traceBuffer count j v) (hs : v ≠ count) (h0 : v ≠ 0) :
    sampleX traceBuffer v < (j : ℚ) := by
  rcases hv with ⟨_, _, a3⟩ | ⟨a1, _⟩
  · have := a3 (v - 1) (by omega)
    rwa [Nat.sub_add_cancel (by omega)] at this
  · exact absurd a1 hs

/-- Claim C1, as amended. For a capture of at least one sample whose pixel x strictly increase, and
for every width, the index scan returns one entry per column; the entries never decrease with the
column (the sentinel `count` counted as a value); an entry for column `j` that is not the sentinel
names a sample whose pixel x is at most `j` whenever the first sample is not right of column `j`;
and the columns left of the first sample name sample 0 when they are not the sentinel. -/
theorem columnIndex_nondecreasing_and_started (traceBuffer : List ℚ) (count width : Nat)
    (hcount : 0 < count) (hlen : traceBuffer.length = 2 * count)
    (hinc : StrictlyIncreasingX traceBuffer count) :
    ∃ ib, buildIndexBuffer traceBuffer count width = some ib ∧ ib.length = width ∧
      (∀ i j v w : Nat, i ≤ j → ib[i]? = some v → ib[j]? = some w → v ≤ w) ∧
      (∀ j v : Nat, ib[j]? = some v → v ≠ count → sampleX traceBuffer 0 ≤ (j : ℚ) →
        sampleX traceBuffer v ≤ (j : ℚ)) ∧
      (∀ j v : Nat, ib[j]? = some v → v ≠ count → (j : ℚ) < sampleX traceBuffer 0 → v = 0) := by
  obtain ⟨ib, h1, h2, h3⟩ := buildIndexBuffer_spec traceBuffer count width hcount hlen
  have cover : ∀ j v : Nat, ib[j]? = some v → IsFirstCover traceBuffer count j v := by
    intro j v hv
    obtain ⟨v', hv', hfc⟩ := h3 j (h2 ▸ lt_length_of_entry hv)
    rw [hv] at hv'
    cases hv'
    exact hfc
  refine ⟨ib, h1, h2, ?_, ?_, ?_⟩
  · intro i j v w hij hv hw
    exact IsFirstCover.mono hij (cover i v hv) (cover j w hw)
  · intro j v hv hs h0
    by_cases hz : v = 0
    · rw [hz]
      exact h0
    · exact le_of_lt (IsFirstCover.start_lt (cover j v hv) hs hz)
  · intro j v hv hs h0
    by_contra hz
    have hlt := IsFirstCover.start_lt (cover j v hv) hs hz
    have hvc : v < count := by
      rcases cover j v hv with ⟨a1, _, _⟩ | ⟨a1, _⟩
      · omega
      · exact absurd a1 hs
    have := hinc 0 v (by omega) hvc
    exact absurd (lt_trans hlt h0) (not_lt.mpr (le_of_lt this))

/-- Witness for C1: a two-sample capture at pixel x 0 and 100, three columns wide. -/
theorem columnIndex_nondecreasing_and_started_witness :
    (0 < 2 ∧ ([0, 5, 100, 7] : List ℚ).length = 2 * 2 ∧ StrictlyIncreasingX [0, 5, 100, 7] 2) ∧
    ∃ ib, buildIndexBuffer [0, 5, 100, 7] 2 3 = some ib ∧ ib.length = 3 ∧
      (∀ i j v w : Nat, i ≤ j → ib[i]? = some v → ib[j]? = some w → v ≤ w) ∧
      (∀ j v : Nat, ib[j]? = some v → v ≠ 2 → sampleX [0, 5, 100, 7] 0 ≤ (j : ℚ) →
        sampleX [0, 5, 100, 7] v ≤ (j : ℚ)) ∧
      (∀ j v : Nat, ib[j]? = some v → v ≠ 2 → (j : ℚ) < sampleX [0, 5, 100, 7] 0 → v = 0) := by
  have hinc : StrictlyIncreasingX [0, 5, 100, 7] 2 := by
    intro m n hmn hn
    interval_cases n
    · omega
    · interval_cases m
      norm_num [sampleX]
  exact ⟨⟨by decide, rfl, hinc⟩,
    columnIndex_nondecreasing_and_started [0, 5, 100, 7] 2 3 (by decide) rfl hinc⟩

/-- Counterexample to C1 as stated: the capture with samples at pixel x 50 and 100 is strictly
increasing, yet column 0 holds sample 0, which is not the sentinel and whose pixel x is 50. -/
theorem columnIndex_first_sample_right_of_column :
    StrictlyIncreasingX [50, 0, 100, 0] 2 ∧
    buildIndexBuffer [50, 0, 100, 0] 2 1 = some [0] ∧
    (0 : Nat) ≠ 2 ∧ ¬ sampleX [50, 0, 100, 0] 0 ≤ ((0 : Nat) : ℚ) := by
  refine ⟨?_, ?_, by decide, ?_⟩
  · intro m n hmn hn
    interval_cases n
    · omega
    · interval_cases m
      norm_num [sampleX]
  · norm_num [buildIndexBuffer, indexLoop, advanceSample, lastSample]
  · norm_num [sampleX]

/-- Claim C2. For a capture of at least one sample and for every width, the single forward scan
returns one entry per column, and the entry of column `j` is what the independent search from
sample 0 returns: the least `n < count - 1` with `x[n+1] >= j`, or the sentinel `count` when no
such `n` exists. The equality needs no ordering of the pixel x, so it holds for the non-decreasing
captures of the claim. -/
theorem indexScan_eq_columnSearch (traceBuffer : List ℚ) (count width : Nat)
    (hcount : 0 < count) (hlen : traceBuffer.length = 2 * count) :
    ∃ ib, buildIndexBuffer traceBuffer count width = some ib ∧ ib.length = width ∧
      ∀ j, j < width →
        ib[j]? = some (columnSearch traceBuffer count j) ∧
        IsFirstCover traceBuffer count j (columnSearch traceBuffer count j) := by
  obtain ⟨ib, h1, h2, h3⟩ := buildIndexBuffer_spec traceBuffer count width hcount hlen
  refine ⟨ib, h1, h2, ?_⟩
  intro j hj
  obtain ⟨v, hv, hfc⟩ := h3 j hj
  have hs := columnSearch_spec traceBuffer count j
  rw [IsFirstCover.unique hfc hs] at hv
  exact ⟨hv, hs⟩

/-- Witness for C2: a four-sample capture over six columns. -/
theorem indexScan_eq_columnSearch_witness :
    (0 < 4 ∧ ([0, 5, 3 / 2, 7, 5 / 2, 1, 9 / 2, 1] : List ℚ).length = 2 * 4) ∧
    ∃ ib, buildIndexBuffer [0, 5, 3 / 2, 7, 5 / 2, 1, 9 / 2, 1] 4 6 = some ib ∧ ib.length = 6 ∧
      ∀ j, j < 6 →
        ib[j]? = some (columnSearch [0, 5, 3 / 2, 7, 5 / 2, 1, 9 / 2, 1] 4 j) ∧
        IsFirstCover [0, 5, 3 / 2, 7, 5 / 2, 1, 9 / 2, 1] 4 j
          (columnSearch [0, 5, 3 / 2, 7, 5 / 2, 1, 9 / 2, 1] 4 j) :=
  ⟨⟨by decide, rfl⟩,
    indexScan_eq_columnSearch [0, 5, 3 / 2, 7, 5 / 2, 1, 9 / 2, 1] 4 6 (by decide) rfl⟩

/-! ## Properties of binary rounding -/

/-- An integer rounds to itself. -/
theorem roundHalfEven_intCast (n : Int) : roundHalfEven (n : ℚ) = n := by
  simp [roundHalfEven]

/-- Rounding to the nearest integer moves a value by at most one half. -/
theorem abs_roundHalfEven_sub_le (x : ℚ) : |(roundHalfEven x : ℚ) - x| ≤ 1 / 2 := by
  have h0 := Int.floor_le x
  have h1 := Int.lt_floor_add_one x
  unfold roundHalfEven
  rw [abs_le]
  split_ifs <;> push_cast <;> constructor <;> linarith

/-- A value less than one half away from an integer rounds to that integer. -/
theorem roundHalfEven_eq_of_lt (x : ℚ) (n : Int) (h1 : (n : ℚ) - 1 / 2 < x)
    (h2 : x < (n : ℚ) + 1 / 2) : roundHalfEven x = n := by
  have h := abs_le.mp (abs_roundHalfEven_sub_le x)
  have ha : ((roundHalfEven x : Int) : ℚ) < ((n + 1 : Int) : ℚ) := by push_cast; linarith [h.2]
  have hb : ((n - 1 : Int) : ℚ) < ((roundHalfEven x : Int) : ℚ) := by push_cast; linarith [h.1]
  have ha' : roundHalfEven x < n + 1 := by exact_mod_cast ha
  have hb' : n - 1 < roundHalfEven x := by exact_mod_cast hb
  omega

/-- Rounding does not go below an integer lower bound. -/
theorem le_roundHalfEven (x : ℚ) (n : Int) (h : (n : ℚ) ≤ x) : n ≤ roundHalfEven x := by
  have hf : n ≤ ⌊x⌋ := Int.le_floor.mpr h
  unfold roundHalfEven
  split_ifs <;> omega

/-- Rounding does not go above an integer upper bound. -/
theorem roundHalfEven_le (x : ℚ) (n : Int) (h : x ≤ (n : ℚ)) : roundHalfEven x ≤ n := by
  have h0 := Int.floor_le x
  have hf : ⌊x⌋ ≤ n := by exact_mod_cast h0.trans h
  unfold roundHalfEven
  split_ifs with h1 h2 h3
  · exact hf
  · have : ((⌊x⌋ : Int) : ℚ) < (n : ℚ) := by linarith
    have : ⌊x⌋ < n := by exact_mod_cast this
    omega
  · exact hf
  · have : ((⌊x⌋ : Int) : ℚ) < (n : ℚ) := by linarith
    have : ⌊x⌋ < n := by exact_mod_cast this
    omega

/-- The exponent of the last place never goes below the least exponent of the format. -/
theorem ulpExponent_ge (p : Nat) (emin : Int) (x : ℚ) : emin ≤ ulpExponent p emin x :=
  le_max_left _ _

/-- The binary logarithm of a value between two consecutive powers of two. -/
theorem log_two_eq (x : ℚ) (k : Int) (h1 : (2 : ℚ) ^ k ≤ |x|) (h2 : |x| < (2 : ℚ) ^ (k + 1)) :
    Int.log 2 |x| = k := by
  have hpos : (0 : ℚ) < |x| := lt_of_lt_of_le (by positivity) h1
  have ha : k ≤ Int.log 2 |x| :=
    (Int.zpow_le_iff_le_log (by norm_num : 1 < 2) hpos).mp (by exact_mod_cast h1)
  have hb : Int.log 2 |x| < k + 1 :=
    (Int.lt_zpow_iff_log_lt (by norm_num : 1 < 2) hpos).mp (by exact_mod_cast h2)
  omega

/-- The exponent of the last place of a value whose binade is known. -/
theorem ulpExponent_eq (p : Nat) (emin : Int) (x : ℚ) (e : Int) (he : emin ≤ e)
    (h1 : (2 : ℚ) ^ (e + ((p : Int) - 1)) ≤ |x|) (h2 : |x| < (2 : ℚ) ^ (e + (p : Int))) :
    ulpExponent p emin x = e := by
  have hl : Int.log 2 |x| = e + ((p : Int) - 1) := by
    apply log_two_eq _ _ h1
    rw [show e + ((p : Int) - 1) + 1 = e + (p : Int) by ring]
    exact h2
  unfold ulpExponent
  rw [hl]
  simp [he]

/-- The unit in the last place of a nonzero value is the least step of the format or at most the
value divided by `2 ^ (p - 1)`. -/
theorem zpow_ulpExponent_le (p : Nat) (emin : Int) (x : ℚ) (hx : x ≠ 0) :
    (2 : ℚ) ^ ulpExponent p emin x ≤ max ((2 : ℚ) ^ emin) (|x| / (2 : ℚ) ^ ((p : Int) - 1)) := by
  have hpos : (0 : ℚ) < |x| := abs_pos.mpr hx
  unfold ulpExponent
  rcases le_total emin (Int.log 2 |x| - ((p : Int) - 1)) with h | h
  · rw [max_eq_right h]
    apply le_max_of_le_right
    rw [zpow_sub₀ (by norm_num : (2 : ℚ) ≠ 0)]
    apply div_le_div_of_nonneg_right _ (by positivity)
    have := Int.zpow_log_le_self (by norm_num : 1 < 2) hpos
    exact_mod_cast this
  · rw [max_eq_left h]
    exact le_max_left _ _

/-- A value is less than `2 ^ p` units in its last place. -/
theorem abs_lt_zpow_ulpExponent (p : Nat) (emin : Int) (x : ℚ) :
    |x| < (2 : ℚ) ^ (ulpExponent p emin x + (p : Int)) := by
  have h1 : |x| < (2 : ℚ) ^ (Int.log 2 |x| + 1) := by
    have := Int.lt_zpow_succ_log_self (by norm_num : 1 < 2) |x|
    exact_mod_cast this
  refine lt_of_lt_of_le h1 (zpow_le_zpow_right₀ (by norm_num) ?_)
  have : Int.log 2 |x| - ((p : Int) - 1) ≤ ulpExponent p emin x := le_max_right _ _
  omega

/-- Rounding to a binary format moves a value by at most half a unit in the last place. -/
theorem roundBinary_abs_error (p : Nat) (emin : Int) (x : ℚ) :
    |roundBinary p emin x - x| ≤ (2 : ℚ) ^ ulpExponent p emin x / 2 := by
  have hpos : (0 : ℚ) < (2 : ℚ) ^ ulpExponent p emin x := by positivity
  have h := abs_roundHalfEven_sub_le (x / (2 : ℚ) ^ ulpExponent p emin x)
  have hx : roundBinary p emin x - x =
      ((roundHalfEven (x / (2 : ℚ) ^ ulpExponent p emin x) : ℚ) -
        x / (2 : ℚ) ^ ulpExponent p emin x) * (2 : ℚ) ^ ulpExponent p emin x := by
    unfold roundBinary
    field_simp
  rw [hx, abs_mul, abs_of_pos hpos]
  calc _ ≤ 1 / 2 * (2 : ℚ) ^ ulpExponent p emin x := mul_le_mul_of_nonneg_right h hpos.le
    _ = _ := by ring

/-- Zero rounds to zero. -/
theorem roundBinary_zero (p : Nat) (emin : Int) : roundBinary p emin 0 = 0 := by
  simp [roundBinary, roundHalfEven]

/-- The error of rounding to a binary format: at most half the least step of the format, or at most
the value divided by `2 ^ p`. -/
theorem roundBinary_error_le (p : Nat) (emin : Int) (x : ℚ) :
    |roundBinary p emin x - x| ≤ max ((2 : ℚ) ^ emin / 2) (|x| / (2 : ℚ) ^ (p : Int)) := by
  rcases eq_or_ne x 0 with h0 | h0
  · subst h0
    rw [roundBinary_zero]
    simp
  refine (roundBinary_abs_error p emin x).trans ?_
  have h := zpow_ulpExponent_le p emin x h0
  have h2 : |x| / (2 : ℚ) ^ (p : Int) = |x| / (2 : ℚ) ^ ((p : Int) - 1) / 2 := by
    rw [zpow_sub₀ (by norm_num : (2 : ℚ) ≠ 0)]
    field_simp
    ring
  rw [h2]
  rcases le_max_iff.mp h with h | h
  · exact le_max_of_le_left (by linarith)
  · exact le_max_of_le_right (by linarith)

/-- A value `m * 2 ^ e` with `|m| < 2 ^ p` and `e` at least the least exponent belongs to the
format: rounding leaves it unchanged. -/
theorem roundBinary_exact (p : Nat) (emin : Int) (m e : Int) (hm : |m| < 2 ^ p)
    (he : emin ≤ e) : roundBinary p emin ((m : ℚ) * (2 : ℚ) ^ e) = (m : ℚ) * (2 : ℚ) ^ e := by
  rcases eq_or_ne m 0 with h0 | h0
  · subst h0
    simp [roundBinary_zero]
  have hxpos : (0 : ℚ) < |(m : ℚ) * (2 : ℚ) ^ e| := by
    apply abs_pos.mpr
    have : (m : ℚ) ≠ 0 := by exact_mod_cast h0
    positivity
  have hxlt : |(m : ℚ) * (2 : ℚ) ^ e| < (2 : ℚ) ^ (e + (p : Int)) := by
    rw [abs_mul, abs_of_pos (by positivity : (0 : ℚ) < (2 : ℚ) ^ e),
      zpow_add₀ (by norm_num : (2 : ℚ) ≠ 0), mul_comm ((2 : ℚ) ^ e)]
    apply mul_lt_mul_of_pos_right _ (by positivity)
    have : ((|m| : Int) : ℚ) < ((2 ^ p : Int) : ℚ) := by exact_mod_cast hm
    simpa using this
  have hu : ulpExponent p emin ((m : ℚ) * (2 : ℚ) ^ e) ≤ e := by
    unfold ulpExponent
    apply max_le he
    have hb : Int.log 2 |(m : ℚ) * (2 : ℚ) ^ e| < e + (p : Int) :=
      (Int.lt_zpow_iff_log_lt (by norm_num : 1 < 2) hxpos).mp (by exact_mod_cast hxlt)
    omega
  obtain ⟨k, hk⟩ := Int.le.dest hu
  unfold roundBinary
  generalize ulpExponent p emin ((m : ℚ) * (2 : ℚ) ^ e) = u at hk ⊢
  have hdiv : (m : ℚ) * (2 : ℚ) ^ e / (2 : ℚ) ^ u = ((m * 2 ^ k : Int) : ℚ) := by
    rw [← hk, zpow_add₀ (by norm_num : (2 : ℚ) ≠ 0), zpow_natCast]
    push_cast
    field_simp
    ring
  rw [hdiv, roundHalfEven_intCast, ← hk, zpow_add₀ (by norm_num : (2 : ℚ) ≠ 0), zpow_natCast]
  push_cast
  ring

/-- An integer of magnitude below `2 ^ p` belongs to the format. -/
theorem roundBinary_intCast (p : Nat) (emin : Int) (m : Int) (hm : |m| < 2 ^ p)
    (he : emin ≤ 0) : roundBinary p emin (m : ℚ) = (m : ℚ) := by
  have h := roundBinary_exact p emin m 0 hm he
  simpa using h

/-- A rounded value belongs to the format: rounding it again changes nothing. -/
theorem roundBinary_idem (p : Nat) (emin : Int) (hp : 1 ≤ p) (x : ℚ) :
    roundBinary p emin (roundBinary p emin x) = roundBinary p emin x := by
  have hu := ulpExponent_ge p emin x
  have hlt := abs_lt_zpow_ulpExponent p emin x
  have hpos : (0 : ℚ) < (2 : ℚ) ^ ulpExponent p emin x := by positivity
  have hq : |x / (2 : ℚ) ^ ulpExponent p emin x| < (2 : ℚ) ^ (p : Int) := by
    rw [abs_div, abs_of_pos hpos, div_lt_iff₀ hpos, ← zpow_add₀ (by norm_num : (2 : ℚ) ≠ 0),
      add_comm]
    exact hlt
  have hq' := abs_lt.mp hq
  have hn1 : roundHalfEven (x / (2 : ℚ) ^ ulpExponent p emin x) ≤ 2 ^ p := by
    apply roundHalfEven_le
    push_cast
    have := hq'.2
    rw [zpow_natCast] at this
    exact this.le
  have hn2 : -(2 ^ p) ≤ roundHalfEven (x / (2 : ℚ) ^ ulpExponent p emin x) := by
    apply le_roundHalfEven
    push_cast
    have := hq'.1
    rw [zpow_natCast] at this
    exact this.le
  have hdef : roundBinary p emin x =
      (roundHalfEven (x / (2 : ℚ) ^ ulpExponent p emin x) : ℚ) *
        (2 : ℚ) ^ ulpExponent p emin x := rfl
  generalize roundHalfEven (x / (2 : ℚ) ^ ulpExponent p emin x) = n at hn1 hn2 hdef
  generalize ulpExponent p emin x = u at hu hdef
  rw [hdef]
  obtain ⟨q, rfl⟩ : ∃ q, p = q + 1 := ⟨p - 1, by omega⟩
  have h2 : (2 : Int) ^ (q + 1) = 2 * 2 ^ q := by ring
  have hqpos : (0 : Int) < 2 ^ q := by positivity
  rcases eq_or_lt_of_le hn1 with h | h
  · have : (n : ℚ) * (2 : ℚ) ^ u = ((2 ^ q : Int) : ℚ) * (2 : ℚ) ^ (u + 1) := by
      rw [h, zpow_add₀ (by norm_num : (2 : ℚ) ≠ 0)]
      push_cast
      ring
    rw [this]
    apply roundBinary_exact
    · rw [abs_of_pos hqpos]; omega
    · omega
  rcases eq_or_lt_of_le hn2 with h' | h'
  · have : (n : ℚ) * (2 : ℚ) ^ u = ((-(2 ^ q) : Int) : ℚ) * (2 : ℚ) ^ (u + 1) := by
      rw [← h', zpow_add₀ (by norm_num : (2 : ℚ) ≠ 0)]
      push_cast
      ring
    rw [this]
    apply roundBinary_exact
    · rw [abs_neg, abs_of_pos hqpos]; omega
    · omega
  · apply roundBinary_exact _ _ _ _ _ hu
    rw [abs_lt]
    constructor <;> omega

/-- The conversion of a nonnegative value to an integer is its floor. -/
theorem truncToInt_of_nonneg (q : ℚ) (h : 0 ≤ q) : truncToInt q = ⌊q⌋ := by
  have hn : 0 ≤ q.num := Rat.num_nonneg.mpr h
  unfold truncToInt
  rw [Int.tdiv_eq_ediv hn (by exact_mod_cast Nat.zero_le _), Rat.floor_def]

/-- The conversion to an integer is odd: it rounds toward zero on both sides. -/
theorem truncToInt_neg (q : ℚ) : truncToInt (-q) = -truncToInt q := by
  unfold truncToInt
  rw [Rat.num_neg_eq_neg_num, Rat.den_neg_eq_den, Int.neg_tdiv]

/-- An integer of magnitude below `2^24` is a `float`. -/
theorem roundF32_intCast (m : Int) (hm : |m| < 2 ^ 24) : roundF32 (m : ℚ) = (m : ℚ) :=
  roundBinary_intCast 24 (-149) m hm (by norm_num)

/-- An integer of magnitude below `2^53` is a `double`. -/
theorem roundF64_intCast (m : Int) (hm : |m| < 2 ^ 53) : roundF64 (m : ℚ) = (m : ℚ) :=
  roundBinary_intCast 53 (-1074) m hm (by norm_num)

/-- A value `m * 2 ^ e` with `|m| < 2^24` and `e ≥ -149` is a `float`. -/
theorem roundF32_exact (m e : Int) (hm : |m| < 2 ^ 24) (he : -149 ≤ e) :
    roundF32 ((m : ℚ) * (2 : ℚ) ^ e) = (m : ℚ) * (2 : ℚ) ^ e :=
  roundBinary_exact 24 (-149) m e hm he

/-- A value `m * 2 ^ e` with `|m| < 2^53` and `e ≥ -1074` is a `double`. -/
theorem roundF64_exact (m e : Int) (hm : |m| < 2 ^ 53) (he : -1074 ≤ e) :
    roundF64 ((m : ℚ) * (2 : ℚ) ^ e) = (m : ℚ) * (2 : ℚ) ^ e :=
  roundBinary_exact 53 (-1074) m e hm he

/-- Converting a `float` to `float` changes nothing. -/
theorem roundF32_idem (x : ℚ) : roundF32 (roundF32 x) = roundF32 x :=
  roundBinary_idem 24 (-149) (by norm_num) x

/-- Zero is a `float`. -/
theorem roundF32_zero : roundF32 0 = 0 := roundBinary_zero 24 (-149)

/-- Zero is a `double`. -/
theorem roundF64_zero : roundF64 0 = 0 := roundBinary_zero 53 (-1074)

/-- The error of rounding to `float`: at most `2^-150`, or at most the value divided by `2^24`. -/
theorem roundF32_error_le (x : ℚ) :
    |roundF32 x - x| ≤ max ((2 : ℚ) ^ (-149 : Int) / 2) (|x| / 2 ^ 24) := by
  have h := roundBinary_error_le 24 (-149) x
  have h2 : (2 : ℚ) ^ ((24 : Nat) : Int) = 2 ^ 24 := by norm_num
  rw [h2] at h
  exact h

/-- The error of rounding to `double`: at most `2^-1075`, or at most the value divided by
`2^53`. -/
theorem roundF64_error_le (x : ℚ) :
    |roundF64 x - x| ≤ max ((2 : ℚ) ^ (-1074 : Int) / 2) (|x| / 2 ^ 53) := by
  have h := roundBinary_error_le 53 (-1074) x
  have h2 : (2 : ℚ) ^ ((53 : Nat) : Int) = 2 ^ 53 := by norm_num
  rw [h2] at h
  exact h

/-- The error of rounding to `float` a value of magnitude at most `m * P`, for a scale `P` of at
least `2^-100`: at most `m / 2^24 * P`. -/
theorem roundF32_error_of_le (y m P : ℚ) (hP : (2 : ℚ) ^ (-100 : Int) ≤ P)
    (hm : 1 / 2 ^ 26 ≤ m) (hy : |y| ≤ m * P) : |roundF32 y - y| ≤ m / 2 ^ 24 * P := by
  have hP0 : (0 : ℚ) < P := lt_of_lt_of_le (by positivity) hP
  have hm0 : (0 : ℚ) < m := lt_of_lt_of_le (by positivity) hm
  refine (roundF32_error_le y).trans (max_le ?_ ?_)
  · calc (2 : ℚ) ^ (-149 : Int) / 2 = 1 / 2 ^ 26 / 2 ^ 24 * (2 : ℚ) ^ (-100 : Int) := by norm_num
      _ ≤ m / 2 ^ 24 * P :=
        mul_le_mul (div_le_div_of_nonneg_right hm (by positivity)) hP (by positivity)
          (by positivity)
  · calc |y| / 2 ^ 24 ≤ m * P / 2 ^ 24 := div_le_div_of_nonneg_right hy (by positivity)
      _ = m / 2 ^ 24 * P := by ring

/-- The error of rounding to `double` a value of magnitude at most `m * P`, for a scale `P` of at
least `2^-100`: at most `m / 2^53 * P`. -/
theorem roundF64_error_of_le (y m P : ℚ) (hP : (2 : ℚ) ^ (-100 : Int) ≤ P)
    (hm : 1 / 2 ^ 26 ≤ m) (hy : |y| ≤ m * P) : |roundF64 y - y| ≤ m / 2 ^ 53 * P := by
  have hP0 : (0 : ℚ) < P := lt_of_lt_of_le (by positivity) hP
  have hm0 : (0 : ℚ) < m := lt_of_lt_of_le (by positivity) hm
  refine (roundF64_error_le y).trans (max_le ?_ ?_)
  · calc (2 : ℚ) ^ (-1074 : Int) / 2 ≤ 1 / 2 ^ 26 / 2 ^ 53 * (2 : ℚ) ^ (-100 : Int) := by
          norm_num
      _ ≤ m / 2 ^ 53 * P :=
        mul_le_mul (div_le_div_of_nonneg_right hm (by positivity)) hP (by positivity)
          (by positivity)
  · calc |y| / 2 ^ 53 ≤ m * P / 2 ^ 53 := div_le_div_of_nonneg_right hy (by positivity)
      _ = m / 2 ^ 53 * P := by ring

/-- Evaluation of a rounding to `float`: a value in the binade of exponent `e + 23` that is less
than half a step `2 ^ e` away from `n * 2 ^ e` rounds to `n * 2 ^ e`. -/
theorem roundF32_eq (x : ℚ) (e n : Int) (he : -149 ≤ e)
    (h1 : (2 : ℚ) ^ (e + 23) ≤ |x|) (h2 : |x| < (2 : ℚ) ^ (e + 24))
    (h3 : (n : ℚ) - 1 / 2 < x / (2 : ℚ) ^ e) (h4 : x / (2 : ℚ) ^ e < (n : ℚ) + 1 / 2) :
    roundF32 x = (n : ℚ) * (2 : ℚ) ^ e := by
  have hu : ulpExponent 24 (-149) x = e := by
    apply ulpExponent_eq 24 (-149) x e he
    · have : e + (((24 : Nat) : Int) - 1) = e + 23 := by norm_num
      rw [this]
      exact h1
    · have : e + ((24 : Nat) : Int) = e + 24 := by norm_num
      rw [this]
      exact h2
  unfold roundF32 roundBinary
  rw [hu, roundHalfEven_eq_of_lt _ n h3 h4]

/-! ## Properties of the coordinate mapper -/

/-- Converting an integer-valued pixel quotient to an integer loses nothing. -/
theorem truncToInt_intCast (z : Int) : truncToInt (z : ℚ) = z := by
  simp [truncToInt]

/-- The conversion to an integer of a value less than one away from an integer `d`, on the same
side of zero as `d`: it is `d` or the neighbour of `d` toward zero. -/
theorem truncToInt_near (q : ℚ) (d : Int) (h : |q - (d : ℚ)| < 1)
    (hs1 : 0 ≤ d → 0 ≤ q) (hs2 : d ≤ 0 → q ≤ 0) :
    (0 ≤ d → d - 1 ≤ truncToInt q ∧ truncToInt q ≤ d) ∧
    (d ≤ 0 → d ≤ truncToInt q ∧ truncToInt q ≤ d + 1) := by
  obtain ⟨hlo, hhi⟩ := abs_lt.mp h
  rcases le_total 0 q with hq | hq
  · have ht : truncToInt q = ⌊q⌋ := truncToInt_of_nonneg q hq
    have h1 : d - 1 ≤ ⌊q⌋ := Int.le_floor.mpr (by push_cast; linarith)
    have h2 : ⌊q⌋ < d + 1 := Int.floor_lt.mpr (by push_cast; linarith)
    rw [ht]
    refine ⟨fun _ => ⟨h1, by omega⟩, fun hd => ?_⟩
    have hq0 : q = 0 := le_antisymm (hs2 hd) hq
    have hd1 : ((-1 : Int) : ℚ) < (d : ℚ) := by push_cast; linarith
    have hd2 : -1 < d := by exact_mod_cast hd1
    have hd0 : d = 0 := by omega
    subst hd0
    rw [hq0]
    simp
  · have ht : truncToInt q = -⌊-q⌋ := by
      have := truncToInt_neg (-q)
      rw [neg_neg] at this
      rw [this, truncToInt_of_nonneg (-q) (by linarith)]
    have h1 : -d - 1 ≤ ⌊-q⌋ := Int.le_floor.mpr (by push_cast; linarith)
    have h2 : ⌊-q⌋ < -d + 1 := Int.floor_lt.mpr (by push_cast; linarith)
    rw [ht]
    refine ⟨fun hd => ?_, fun _ => ⟨by omega, by omega⟩⟩
    have hq0 : q = 0 := le_antisymm hq (hs1 hd)
    have hd1 : (d : ℚ) < ((1 : Int) : ℚ) := by push_cast; linarith
    have hd2 : d < 1 := by exact_mod_cast hd1
    have hd0 : d = 0 := by omega
    subst hd0
    rw [hq0]
    simp

/-- The `float` round trip of a time difference `d` of magnitude below `2^22` through a scale of
at least `2^-100`: the product is rounded, divided by the scale and rounded again, and the result
is less than one away from `d`. -/
theorem roundTrip_near (ppx : ℚ) (d : Int) (hlo : (2 : ℚ) ^ (-100 : Int) ≤ ppx)
    (hd : |d| < 2 ^ 22) :
    |roundF32 (roundF32 ((d : ℚ) * ppx) / ppx) - (d : ℚ)| < 1 := by
  have hppx : (0 : ℚ) < ppx := lt_of_lt_of_le (by positivity) hlo
  have hdq : |(d : ℚ)| < 2 ^ 22 := by
    have : ((|d| : Int) : ℚ) < ((2 ^ 22 : Int) : ℚ) := by exact_mod_cast hd
    simpa using this
  have h1 := roundF32_error_le ((d : ℚ) * ppx)
  have hz : |roundF32 ((d : ℚ) * ppx) / ppx - (d : ℚ)| ≤ 1 / 4 := by
    have heq : roundF32 ((d : ℚ) * ppx) / ppx - (d : ℚ) =
        (roundF32 ((d : ℚ) * ppx) - (d : ℚ) * ppx) / ppx := by
      field_simp
      ring
    rw [heq, abs_div, abs_of_pos hppx, div_le_iff₀ hppx]
    refine h1.trans (max_le ?_ ?_)
    · calc (2 : ℚ) ^ (-149 : Int) / 2 ≤ 1 / 4 * (2 : ℚ) ^ (-100 : Int) := by norm_num
        _ ≤ 1 / 4 * ppx := mul_le_mul_of_nonneg_left hlo (by norm_num)
    · rw [abs_mul, abs_of_pos hppx]
      have : |(d : ℚ)| * ppx / 2 ^ 24 = |(d : ℚ)| / 2 ^ 24 * ppx := by ring
      rw [this]
      apply mul_le_mul_of_nonneg_right _ hppx.le
      linarith
  have hzabs : |roundF32 ((d : ℚ) * ppx) / ppx| ≤ 2 ^ 22 + 1 / 4 := by
    have := abs_sub_abs_le_abs_sub (roundF32 ((d : ℚ) * ppx) / ppx) (d : ℚ)
    linarith
  have h2 := roundF32_error_le (roundF32 ((d : ℚ) * ppx) / ppx)
  have hq : |roundF32 (roundF32 ((d : ℚ) * ppx) / ppx) - roundF32 ((d : ℚ) * ppx) / ppx|
      ≤ 1 / 2 := by
    refine h2.trans (max_le (by norm_num) ?_)
    linarith
  have htri := abs_sub_le (roundF32 (roundF32 ((d : ℚ) * ppx) / ppx))
    (roundF32 ((d : ℚ) * ppx) / ppx) (d : ℚ)
  linarith

/-- Claim C3, as amended. For every integer time `t` less than `2^22` units away from the axis
offset and every `m_pixelsPerXUnit` between `2^-100` and `2^100`, the pixel position of `t` is a
finite `float`, and converting it back returns `t` or the integer next to `t` on the side of the
axis offset: `t - 1` or `t` for a time at or right of the offset, `t` or `t + 1` for a time at or
left of it. When `m_pixelsPerXUnit` is a power of two, it returns `t`. -/
theorem XPositionToXAxisUnits_XAxisUnitsToXPosition (a : State) (t : Int)
    (hlo : (2 : ℚ) ^ (-100 : Int) ≤ a.m_group.m_pixelsPerXUnit)
    (hhi : a.m_group.m_pixelsPerXUnit ≤ (2 : ℚ) ^ (100 : Int))
    (ht : |t - a.m_group.m_xAxisOffset| < 2 ^ 22) :
    |XAxisUnitsToXPosition a t| < 2 ^ 128 ∧
    (a.m_group.m_xAxisOffset ≤ t →
      t - 1 ≤ XPositionToXAxisUnits a (XAxisUnitsToXPosition a t) ∧
      XPositionToXAxisUnits a (XAxisUnitsToXPosition a t) ≤ t) ∧
    (t ≤ a.m_group.m_xAxisOffset →
      t ≤ XPositionToXAxisUnits a (XAxisUnitsToXPosition a t) ∧
      XPositionToXAxisUnits a (XAxisUnitsToXPosition a t) ≤ t + 1) ∧
    (∀ k : Int, a.m_group.m_pixelsPerXUnit = (2 : ℚ) ^ k →
      XPositionToXAxisUnits a (XAxisUnitsToXPosition a t) = t) := by
  have hppx : (0 : ℚ) < a.m_group.m_pixelsPerXUnit := lt_of_lt_of_le (by positivity) hlo
  have hd24 : |t - a.m_group.m_xAxisOffset| < 2 ^ 24 := by omega
  have hdq : |((t - a.m_group.m_xAxisOffset : Int) : ℚ)| < 2 ^ 22 := by
    have : ((|t - a.m_group.m_xAxisOffset| : Int) : ℚ) < ((2 ^ 22 : Int) : ℚ) := by
      exact_mod_cast ht
    simpa using this
  have hX : XAxisUnitsToXPosition a t =
      roundF32 (((t - a.m_group.m_xAxisOffset : Int) : ℚ) * a.m_group.m_pixelsPerXUnit) := by
    unfold XAxisUnitsToXPosition XAxisUnitsToPixels
    rw [roundF32_intCast _ hd24]
  have hR : XPositionToXAxisUnits a (XAxisUnitsToXPosition a t) =
      a.m_group.m_xAxisOffset + truncToInt (roundF32
        (roundF32 (((t - a.m_group.m_xAxisOffset : Int) : ℚ) * a.m_group.m_pixelsPerXUnit) /
          a.m_group.m_pixelsPerXUnit)) := by
    rw [hX]
    unfold XPositionToXAxisUnits PixelsToXAxisUnits
    rw [roundF32_idem]
  have hnear := roundTrip_near a.m_group.m_pixelsPerXUnit (t - a.m_group.m_xAxisOffset) hlo ht
  have hzero : t - a.m_group.m_xAxisOffset = 0 →
      roundF32 (roundF32 (((t - a.m_group.m_xAxisOffset : Int) : ℚ) *
        a.m_group.m_pixelsPerXUnit) / a.m_group.m_pixelsPerXUnit) = 0 := by
    intro h0
    rw [h0]
    simp [roundF32_zero]
  obtain ⟨hnlo, hnhi⟩ := abs_lt.mp hnear
  have hs1 : 0 ≤ t - a.m_group.m_xAxisOffset →
      0 ≤ roundF32 (roundF32 (((t - a.m_group.m_xAxisOffset : Int) : ℚ) *
        a.m_group.m_pixelsPerXUnit) / a.m_group.m_pixelsPerXUnit) := by
    intro h
    rcases eq_or_lt_of_le h with h0 | h1
    · rw [hzero h0.symm]
    · have : ((1 : Int) : ℚ) ≤ ((t - a.m_group.m_xAxisOffset : Int) : ℚ) := by
        exact_mod_cast (by omega : 1 ≤ t - a.m_group.m_xAxisOffset)
      push_cast at this hnlo ⊢
      linarith
  have hs2 : t - a.m_group.m_xAxisOffset ≤ 0 →
      roundF32 (roundF32 (((t - a.m_group.m_xAxisOffset : Int) : ℚ) *
        a.m_group.m_pixelsPerXUnit) / a.m_group.m_pixelsPerXUnit) ≤ 0 := by
    intro h
    rcases eq_or_lt_of_le h with h0 | h1
    · rw [hzero h0]
    · have : ((t - a.m_group.m_xAxisOffset : Int) : ℚ) ≤ ((-1 : Int) : ℚ) := by
        exact_mod_cast (by omega : t - a.m_group.m_xAxisOffset ≤ -1)
      push_cast at this hnhi ⊢
      linarith
  obtain ⟨htr1, htr2⟩ := truncToInt_near _ _ hnear hs1 hs2
  refine ⟨?_, ?_, ?_, ?_⟩
  · rw [hX]
    have herr := roundF32_error_le
      (((t - a.m_group.m_xAxisOffset : Int) : ℚ) * a.m_group.m_pixelsPerXUnit)
    have hy : |((t - a.m_group.m_xAxisOffset : Int) : ℚ) * a.m_group.m_pixelsPerXUnit|
        ≤ 2 ^ 22 * (2 : ℚ) ^ (100 : Int) := by
      rw [abs_mul, abs_of_pos hppx]
      exact mul_le_mul hdq.le hhi hppx.le (by norm_num)
    have hmax : max ((2 : ℚ) ^ (-149 : Int) / 2)
        (|((t - a.m_group.m_xAxisOffset : Int) : ℚ) * a.m_group.m_pixelsPerXUnit| / 2 ^ 24)
        ≤ 2 ^ 22 * (2 : ℚ) ^ (100 : Int) := by
      refine max_le (by norm_num) ?_
      have h0 := abs_nonneg
        (((t - a.m_group.m_xAxisOffset : Int) : ℚ) * a.m_group.m_pixelsPerXUnit)
      have : |((t - a.m_group.m_xAxisOffset : Int) : ℚ) * a.m_group.m_pixelsPerXUnit| / 2 ^ 24
          ≤ |((t - a.m_group.m_xAxisOffset : Int) : ℚ) * a.m_group.m_pixelsPerXUnit| :=
        div_le_self h0 (by norm_num)
      linarith
    have htri := abs_sub_abs_le_abs_sub
      (roundF32 (((t - a.m_group.m_xAxisOffset : Int) : ℚ) * a.m_group.m_pixelsPerXUnit))
      (((t - a.m_group.m_xAxisOffset : Int) : ℚ) * a.m_group.m_pixelsPerXUnit)
    have hfin : (2 : ℚ) ^ 22 * (2 : ℚ) ^ (100 : Int) + 2 ^ 22 * (2 : ℚ) ^ (100 : Int)
        < 2 ^ 128 := by norm_num
    linarith
  · intro h
    rw [hR]
    have := htr1 (by omega)
    omega
  · intro h
    rw [hR]
    have := htr2 (by omega)
    omega
  · intro k hk
    rw [hR, hk]
    have hk100 : -100 ≤ k := by
      by_contra hcon
      have hlt : (2 : ℚ) ^ k < (2 : ℚ) ^ (-100 : Int) :=
        zpow_lt_zpow_right₀ (by norm_num) (by omega)
      rw [hk] at hlo
      linarith
    rw [roundF32_exact _ k hd24 (by omega), mul_div_assoc,
      div_self (by positivity : (2 : ℚ) ^ k ≠ 0), mul_one, roundF32_intCast _ hd24,
      truncToInt_intCast]
    omega

/-- Witness for C3: time 13 at the `float` nearest to 0.7 pixels per time unit, axis offset 0. -/
theorem XPositionToXAxisUnits_XAxisUnitsToXPosition_witness :
    ((2 : ℚ) ^ (-100 : Int) ≤ sceneScale07.m_group.m_pixelsPerXUnit ∧
      sceneScale07.m_group.m_pixelsPerXUnit ≤ (2 : ℚ) ^ (100 : Int) ∧
      |(13 : Int) - sceneScale07.m_group.m_xAxisOffset| < 2 ^ 22) ∧
    |XAxisUnitsToXPosition sceneScale07 13| < 2 ^ 128 ∧
    (sceneScale07.m_group.m_xAxisOffset ≤ 13 →
      13 - 1 ≤ XPositionToXAxisUnits sceneScale07 (XAxisUnitsToXPosition sceneScale07 13) ∧
      XPositionToXAxisUnits sceneScale07 (XAxisUnitsToXPosition sceneScale07 13) ≤ 13) ∧
    (13 ≤ sceneScale07.m_group.m_xAxisOffset →
      13 ≤ XPositionToXAxisUnits sceneScale07 (XAxisUnitsToXPosition sceneScale07 13) ∧
      XPositionToXAxisUnits sceneScale07 (XAxisUnitsToXPosition sceneScale07 13) ≤ 13 + 1) ∧
    (∀ k : Int, sceneScale07.m_group.m_pixelsPerXUnit = (2 : ℚ) ^ k →
      XPositionToXAxisUnits sceneScale07 (XAxisUnitsToXPosition sceneScale07 13) = 13) :=
  ⟨⟨by norm_num [sceneScale07, scenario], by norm_num [sceneScale07, scenario],
      by norm_num [sceneScale07, scenario]⟩,
    XPositionToXAxisUnits_XAxisUnitsToXPosition sceneScale07 13
      (by norm_num [sceneScale07, scenario]) (by norm_num [sceneScale07, scenario])
      (by norm_num [sceneScale07, scenario])⟩

/-- Counterexample to C3 as stated: at the `float` nearest to 0.7 pixels per time unit
(`11744051 / 2^24`, strictly positive) and axis offset 0, the time 13 is drawn at the `float`
`9542041 / 2^20`, just below `13 * 0.7`, and converting that position back gives the `float`
`13631487 / 2^20`, just below 13, which the conversion to `int64_t` makes 12. -/
theorem round_trip_of_13_returns_12 :
    0 < sceneScale07.m_group.m_pixelsPerXUnit ∧
    XAxisUnitsToXPosition sceneScale07 13 = 9542041 / 1048576 ∧
    XPositionToXAxisUnits sceneScale07 (XAxisUnitsToXPosition sceneScale07 13) = 12 ∧
    XPositionToXAxisUnits sceneScale07 (XAxisUnitsToXPosition sceneScale07 13) ≠ 13 := by
  have h13 : roundF32 13 = 13 := by
    have h := roundF32_intCast 13 (by norm_num)
    norm_num at h
    exact h
  have hc1 : roundF32 (13 * (11744051 / 16777216)) = 9542041 / 1048576 := by
    have h := roundF32_eq (13 * (11744051 / 16777216)) (-20) 9542041 (by norm_num)
      (by norm_num [abs_of_pos]) (by norm_num [abs_of_pos]) (by norm_num) (by norm_num)
    rw [h]
    norm_num
  have hc2 : roundF32 (9542041 / 1048576) = 9542041 / 1048576 := by
    have h := roundF32_exact 9542041 (-20) (by norm_num) (by norm_num)
    norm_num at h
    exact h
  have hc3 : roundF32 (9542041 / 1048576 / (11744051 / 16777216)) = 13631487 / 1048576 := by
    have h := roundF32_eq (9542041 / 1048576 / (11744051 / 16777216)) (-20) 13631487
      (by norm_num) (by norm_num [abs_of_pos]) (by norm_num [abs_of_pos]) (by norm_num)
      (by norm_num)
    rw [h]
    norm_num
  have htr : truncToInt (13631487 / 1048576) = 12 := by
    rw [truncToInt_of_nonneg _ (by norm_num), Int.floor_eq_iff]
    constructor <;> norm_num
  have hX : XAxisUnitsToXPosition sceneScale07 13 = 9542041 / 1048576 := by
    have hc1' : roundF32 (152672663 / 16777216) = 9542041 / 1048576 := by
      have h := hc1
      norm_num at h
      exact h
    simp only [XAxisUnitsToXPosition, XAxisUnitsToPixels, sceneScale07, scenario]
    norm_num [h13, hc1']
  have hR : XPositionToXAxisUnits sceneScale07 (9542041 / 1048576) = 12 := by
    simp only [XPositionToXAxisUnits, PixelsToXAxisUnits, sceneScale07, scenario]
    rw [hc2, hc3, htr]
    norm_num
  refine ⟨by norm_num [sceneScale07, scenario], hX, ?_, ?_⟩
  · rw [hX, hR]
  · rw [hX, hR]
    norm_num

/-- Claim C4. For every voltage `v`, every channel offset, every viewport height (halved by
integer division) and every strictly positive `m_pixelsPerVolt`, the pixel row of `v` converts
back to `v`, over exact arithmetic. -/
theorem YPositionToVolts_VoltsToYPosition (a : State) (v : ℚ) (hpos : 0 < a.m_pixelsPerVolt) :
    YPositionToVolts a (VoltsToYPosition a v) = v := by
  have hne : a.m_pixelsPerVolt ≠ 0 := ne_of_gt hpos
  unfold YPositionToVolts PixelsToVolts VoltsToYPosition VoltsToPixels
  field_simp

/-- Witness for C4: 3/8 V in an area of odd height 601 at 300 pixels per volt, offset 1/4 V. -/
theorem YPositionToVolts_VoltsToYPosition_witness :
    0 < scene.m_pixelsPerVolt ∧ YPositionToVolts scene (VoltsToYPosition scene (3 / 8)) = 3 / 8 :=
  ⟨by norm_num [scene], YPositionToVolts_VoltsToYPosition scene (3 / 8) (by norm_num [scene])⟩

/-! ## Properties of hit testing -/

theorem Rect.HitTest_of_StrictlyInside {r : Rect} {x y : ℚ} (h : r.StrictlyInside x y) :
    r.HitTest x y = true := by
  obtain ⟨h1, h2, h3, h4⟩ := h
  simp [Rect.HitTest, le_of_lt h1, le_of_lt h2, le_of_lt h3, le_of_lt h4]

theorem hitOverlayBox_eq_none {x y : ℚ} {boxes : List (ChannelId × Rect)}
    (h : ∀ e ∈ boxes, e.2.HitTest x y = false) : hitOverlayBox x y boxes = none := by
  induction boxes with
  | nil => rfl
  | cons e rest ih =>
    obtain ⟨channel, box⟩ := e
    have h1 : box.HitTest x y = false := h (channel, box) (List.mem_cons_self _ _)
    simp only [hitOverlayBox, h1, Bool.false_eq_true, if_false]
    exact ih (fun e he => h e (List.mem_cons_of_mem _ he))

theorem hitOverlayBox_eq_none_iff {x y : ℚ} {boxes : List (ChannelId × Rect)} :
    hitOverlayBox x y boxes = none ↔ ∀ e ∈ boxes, e.2.HitTest x y = false := by
  refine ⟨?_, hitOverlayBox_eq_none⟩
  induction boxes with
  | nil =>
    intro _ e he
    cases he
  | cons e rest ih =>
    obtain ⟨channel, box⟩ := e
    intro h e he
    by_cases hb : box.HitTest x y = true
    · simp [hitOverlayBox, hb] at h
    · have hb' : box.HitTest x y = false := by simpa using hb
      simp only [hitOverlayBox, hb', Bool.false_eq_true, if_false] at h
      rcases List.mem_cons.mp he with rfl | hmem
      · exact hb'
      · exact ih h e hmem

/-- The search of the boxes returns the channel of the first box that contains the point. -/
theorem hitOverlayBox_eq_first {x y : ℚ} {channel : ChannelId} {box : Rect}
    (pre post : List (ChannelId × Rect)) (hpre : ∀ e ∈ pre, e.2.HitTest x y = false)
    (hbox : box.HitTest x y = true) :
    hitOverlayBox x y (pre ++ (channel, box) :: post) = some channel := by
  induction pre with
  | nil => simp [hitOverlayBox, hbox]
  | cons e rest ih =>
    obtain ⟨k, b⟩ := e
    have h1 : b.HitTest x y = false := hpre (k, b) (List.mem_cons_self _ _)
    simp only [List.cons_append, hitOverlayBox, h1, Bool.false_eq_true, if_false]
    exact ih (fun e he => hpre e (List.mem_cons_of_mem _ he))

/-- A point in a label box is on a channel name, and the channel of the first box that contains it
becomes the selected channel. -/
theorem HitTest_of_label {a : State} {x y : ℚ} {channel : ChannelId}
    (h : hitOverlayBox x y (labelBoxes a) = some channel) :
    HitTest a x y = (ClickLocation.LOC_CHAN_NAME, { a with m_selectedChannel := channel }) := by
  unfold labelBoxes at h
  by_cases hb : a.m_infoBoxRect.HitTest x y = true
  · simp only [hitOverlayBox, hb, if_true, Option.some.injEq] at h
    simp [HitTest, hb, h]
  · have hb' : a.m_infoBoxRect.HitTest x y = false := by simpa using hb
    have h' : hitOverlayBox x y a.m_overlayBoxRects = some channel := by
      simpa [hitOverlayBox, hb'] using h
    simp [HitTest, hb', h']

/-- A point in no label box leaves the selection alone and is in the plot, on the trigger handle
or on the vertical scale. -/
theorem HitTest_of_no_label {a : State} {x y : ℚ}
    (h : hitOverlayBox x y (labelBoxes a) = none) :
    HitTest a x y =
      (if x > (a.m_plotRight : ℚ) then
        (if onTriggerHandle a x y then ClickLocation.LOC_TRIGGER else ClickLocation.LOC_VSCALE)
       else ClickLocation.LOC_PLOT, a) := by
  unfold labelBoxes at h
  by_cases hb : a.m_infoBoxRect.HitTest x y = true
  · simp [hitOverlayBox, hb] at h
  · have hb' : a.m_infoBoxRect.HitTest x y = false := by simpa using hb
    have h' : hitOverlayBox x y a.m_overlayBoxRects = none := by
      simpa [hitOverlayBox, hb'] using h
    simp only [HitTest, hb', h', Bool.false_eq_true, if_false]
    split_ifs <;> rfl

/-- Claim C5, as amended. For every registered label box (the info box of the main channel or an
overlay box) and every point strictly inside it, `HitTest` returns `LOC_CHAN_NAME`; the selected
channel becomes the channel of that box when no box tried earlier contains the point; and in
every case it becomes the channel of the first box, in the order tried, that contains the
point. -/
theorem HitTest_label_box (a : State) (x y : ℚ) (pre post : List (ChannelId × Rect))
    (channel : ChannelId) (box : Rect)
    (hreg : labelBoxes a = pre ++ (channel, box) :: post) (hin : box.StrictlyInside x y) :
    (HitTest a x y).1 = ClickLocation.LOC_CHAN_NAME ∧
    ((∀ e ∈ pre, e.2.HitTest x y = false) → (HitTest a x y).2.m_selectedChannel = channel) ∧
    (∀ (pre' post' : List (ChannelId × Rect)) (channel' : ChannelId) (box' : Rect),
      labelBoxes a = pre' ++ (channel', box') :: post' →
      (∀ e ∈ pre', e.2.HitTest x y = false) → box'.HitTest x y = true →
      (HitTest a x y).2.m_selectedChannel = channel') := by
  have hhit : box.HitTest x y = true := Rect.HitTest_of_StrictlyInside hin
  have first : ∀ (pre' post' : List (ChannelId × Rect)) (channel' : ChannelId) (box' : Rect),
      labelBoxes a = pre' ++ (channel', box') :: post' →
      (∀ e ∈ pre', e.2.HitTest x y = false) → box'.HitTest x y = true →
      HitTest a x y =
        (ClickLocation.LOC_CHAN_NAME, { a with m_selectedChannel := channel' }) := by
    intro pre' post' channel' box' hreg' hpre' hbox'
    apply HitTest_of_label
    rw [hreg']
    exact hitOverlayBox_eq_first pre' post' hpre' hbox'
  refine ⟨?_, ?_, ?_⟩
  · cases hsome : hitOverlayBox x y (labelBoxes a) with
    | none =>
      have hall := hitOverlayBox_eq_none_iff.mp hsome
      have := hall (channel, box) (by rw [hreg]; simp)
      rw [hhit] at this
      cases this
    | some channel' => rw [HitTest_of_label hsome]
  · intro hpre
    rw [first pre post channel box hreg hpre hhit]
  · intro pre' post' channel' box' hreg' hpre' hbox'
    rw [first pre' post' channel' box' hreg' hpre' hbox']

/-- Witness for C5: the point (160, 40) strictly inside the first overlay box of the scene with
overlapping boxes. -/
theorem HitTest_label_box_witness :
    (labelBoxes sceneOverlappingBoxes =
        [(1, { left := 0, right := 60, top := 0, bottom := 20 })] ++
          (7, { left := 100, right := 200, top := 30, bottom := 50 }) ::
          [(8, { left := 150, right := 250, top := 30, bottom := 50 })] ∧
      Rect.StrictlyInside { left := 100, right := 200, top := 30, bottom := 50 } 160 40) ∧
    (HitTest sceneOverlappingBoxes 160 40).1 = ClickLocation.LOC_CHAN_NAME := by
  have hreg : labelBoxes sceneOverlappingBoxes =
      [(1, { left := 0, right := 60, top := 0, bottom := 20 })] ++
        (7, { left := 100, right := 200, top := 30, bottom := 50 }) ::
        [(8, { left := 150, right := 250, top := 30, bottom := 50 })] := rfl
  have hin : Rect.StrictlyInside { left := 100, right := 200, top := 30, bottom := 50 } 160 40 := by
    norm_num [Rect.StrictlyInside]
  exact ⟨⟨hreg, hin⟩, (HitTest_label_box sceneOverlappingBoxes 160 40 _ _ 7 _ hreg hin).1⟩

/-- Counterexample to C5 as stated: the point (160, 40) is strictly inside the registered box of
overlay 8, yet `HitTest` selects overlay 7, whose box is tried first and also contains it. -/
theorem HitTest_selects_earlier_overlapping_box :
    (8, ({ left := 150, right := 250, top := 30, bottom := 50 } : Rect)) ∈
      sceneOverlappingBoxes.m_overlayBoxRects ∧
    Rect.StrictlyInside { left := 150, right := 250, top := 30, bottom := 50 } 160 40 ∧
    (HitTest sceneOverlappingBoxes 160 40).1 = ClickLocation.LOC_CHAN_NAME ∧
    (HitTest sceneOverlappingBoxes 160 40).2.m_selectedChannel = 7 ∧ (7 : ChannelId) ≠ 8 := by
  refine ⟨by simp [sceneOverlappingBoxes], by norm_num [Rect.StrictlyInside], ?_, ?_, by decide⟩
  · norm_num [HitTest, sceneOverlappingBoxes, scene, Rect.HitTest, hitOverlayBox]
  · norm_num [HitTest, sceneOverlappingBoxes, scene, Rect.HitTest, hitOverlayBox]

/-- Claim C6. `HitTest` returns `LOC_PLOT` exactly for the points with `x <= m_plotRight` that lie
in no label box; so it never returns `LOC_PLOT` for a point with `x > m_plotRight`, whatever the
label boxes and the trigger state are. -/
theorem HitTest_LOC_PLOT_iff (a : State) (x y : ℚ) :
    ((HitTest a x y).1 = ClickLocation.LOC_PLOT ↔
      (x ≤ (a.m_plotRight : ℚ) ∧ ∀ e ∈ labelBoxes a, e.2.HitTest x y = false)) ∧
    ((a.m_plotRight : ℚ) < x → (HitTest a x y).1 ≠ ClickLocation.LOC_PLOT) := by
  have key : (HitTest a x y).1 = ClickLocation.LOC_PLOT ↔
      (x ≤ (a.m_plotRight : ℚ) ∧ ∀ e ∈ labelBoxes a, e.2.HitTest x y = false) := by
    cases hsome : hitOverlayBox x y (labelBoxes a) with
    | none =>
      have hall := hitOverlayBox_eq_none_iff.mp hsome
      rw [HitTest_of_no_label hsome]
      by_cases hx : x > (a.m_plotRight : ℚ)
      · simp only [if_pos hx]
        constructor
        · intro h
          split_ifs at h
        · intro h
          exact absurd h.1 (not_le.mpr hx)
      · simp only [if_neg hx]
        exact ⟨fun _ => ⟨not_lt.mp hx, hall⟩, fun _ => trivial⟩
    | some channel =>
      rw [HitTest_of_label hsome]
      constructor
      · intro h
        cases h
      · intro h
        rw [hitOverlayBox_eq_none h.2] at hsome
        cases hsome
  refine ⟨key, ?_⟩
  intro hx h
  exact absurd (key.mp h).1 (not_le.mpr hx)

/-- Claim C7, as amended. For a point with `x > m_plotRight` in no label box, `HitTest` returns
`LOC_TRIGGER` exactly when the scope exists, the area's channel is its trigger source, the point's
y is less than 20 pixels from `VoltsToYPosition` of the trigger voltage and its x is less than
`m_plotRight + 20`; it returns `LOC_VSCALE` otherwise; and it never returns `LOC_TRIGGER` for a
channel that is not the trigger source. -/
theorem HitTest_gutter (a : State) (x y : ℚ) (hx : (a.m_plotRight : ℚ) < x)
    (hbox : ∀ e ∈ labelBoxes a, e.2.HitTest x y = false) :
    ((HitTest a x y).1 = ClickLocation.LOC_TRIGGER ↔
      ∃ scope, a.m_scope = some scope ∧ a.m_channel.index = scope.triggerChannelIndex ∧
        |y - VoltsToYPosition a scope.triggerVoltage| < 20 ∧ x < (a.m_plotRight : ℚ) + 20) ∧
    ((HitTest a x y).1 ≠ ClickLocation.LOC_TRIGGER →
      (HitTest a x y).1 = ClickLocation.LOC_VSCALE) ∧
    ((∀ scope, a.m_scope = some scope → a.m_channel.index ≠ scope.triggerChannelIndex) →
      (HitTest a x y).1 ≠ ClickLocation.LOC_TRIGGER) := by
  have hnone := hitOverlayBox_eq_none hbox
  have hloc : (HitTest a x y).1 =
      if onTriggerHandle a x y then ClickLocation.LOC_TRIGGER else ClickLocation.LOC_VSCALE := by
    rw [HitTest_of_no_label hnone]
    simp [hx]
  have hhandle : onTriggerHandle a x y = true ↔
      ∃ scope, a.m_scope = some scope ∧ a.m_channel.index = scope.triggerChannelIndex ∧
        |y - VoltsToYPosition a scope.triggerVoltage| < 20 ∧ x < (a.m_plotRight : ℚ) + 20 := by
    unfold onTriggerHandle
    cases hs : a.m_scope with
    | none => simp
    | some scope =>
      by_cases hi : a.m_channel.index = scope.triggerChannelIndex
      · simp [hi]
      · simp [hi]
  have htrig : (HitTest a x y).1 = ClickLocation.LOC_TRIGGER ↔ onTriggerHandle a x y = true := by
    rw [hloc]
    by_cases h : onTriggerHandle a x y = true
    · simp [h]
    · simp [h]
  refine ⟨htrig.trans hhandle, ?_, ?_⟩
  · intro h
    rw [hloc] at h ⊢
    by_cases h' : onTriggerHandle a x y = true
    · simp [h'] at h
    · simp [h']
  · intro hsrc h
    obtain ⟨scope, hs, hi, _⟩ := (htrig.trans hhandle).mp h
    exact hsrc scope hs hi

/-- Witness for C7: the point (710, 230) in the gutter of the scene, 5 pixels from the trigger
level at y = 225. -/
theorem HitTest_gutter_witness :
    ((scene.m_plotRight : ℚ) < 710 ∧ ∀ e ∈ labelBoxes scene, e.2.HitTest 710 230 = false) ∧
    ((HitTest scene 710 230).1 = ClickLocation.LOC_TRIGGER ↔
      ∃ scope, scene.m_scope = some scope ∧ scene.m_channel.index = scope.triggerChannelIndex ∧
        |(230 : ℚ) - VoltsToYPosition scene scope.triggerVoltage| < 20 ∧
        (710 : ℚ) < (scene.m_plotRight : ℚ) + 20) := by
  have hx : (scene.m_plotRight : ℚ) < 710 := by norm_num [scene]
  have hbox : ∀ e ∈ labelBoxes scene, e.2.HitTest 710 230 = false := by
    intro e he
    simp only [labelBoxes, scene, List.mem_singleton] at he
    subst he
    norm_num [Rect.HitTest]
  exact ⟨⟨hx, hbox⟩, (HitTest_gutter scene 710 230 hx hbox).1⟩

/-- Counterexample to C7 as stated: the channel of the scene is the trigger source and the point
(730, 225) is in the gutter, in no label box and exactly at the trigger level, yet `HitTest`
returns `LOC_VSCALE`, because x is not less than `m_plotRight + 20 = 720`. -/
theorem trigger_level_beyond_radius_is_vscale :
    (scene.m_plotRight : ℚ) < 730 ∧
    (∀ e ∈ labelBoxes scene, e.2.HitTest 730 225 = false) ∧
    scene.m_scope = some { triggerChannelIndex := 0, triggerVoltage := 0 } ∧
    scene.m_channel.index = 0 ∧
    |(225 : ℚ) - VoltsToYPosition scene 0| ≤ 20 ∧
    (HitTest scene 730 225).1 = ClickLocation.LOC_VSCALE := by
  refine ⟨by norm_num [scene], ?_, rfl, rfl, ?_, ?_⟩
  · intro e he
    simp only [labelBoxes, scene, List.mem_singleton] at he
    subst he
    norm_num [Rect.HitTest]
  · norm_num [VoltsToYPosition, VoltsToPixels, scene, sceneChannel, Int.tdiv]
  · norm_num [HitTest, scene, Rect.HitTest, hitOverlayBox, onTriggerHandle, VoltsToYPosition,
      VoltsToPixels, sceneChannel, Int.tdiv]

/-! ## Properties of the button press -/

theorem OnSingleClick_selectedChannel (c : Collaborators) (a : State) (event : GdkEventButton)
    (timestamp : Int) :
    (OnSingleClick c a event timestamp).m_selectedChannel = a.m_selectedChannel := by
  unfold OnSingleClick
  cases a.m_clickLocation <;> simp only <;> split_ifs <;> rfl

theorem OnDoubleClick_selectedChannel (c : Collaborators) (a : State) :
    (OnDoubleClick c a).m_selectedChannel = a.m_selectedChannel := by
  unfold OnDoubleClick
  cases a.m_clickLocation <;> rfl

/-- The position loop keeps the selection when no band holds `y`. -/
theorem selectByPosition_of_no_band {y : ℚ} (positions : List (ChannelId × Int))
    (selected : ChannelId) (h : ∀ e ∈ positions, ¬ InBand y e.2) :
    selectByPosition y positions selected = selected := by
  induction positions generalizing selected with
  | nil => rfl
  | cons e rest ih =>
    obtain ⟨channel, position⟩ := e
    have h1 : ¬ InBand y position := h (channel, position) (List.mem_cons_self _ _)
    unfold InBand at h1
    simp only [selectByPosition, if_neg h1]
    exact ih selected (fun e he => h e (List.mem_cons_of_mem _ he))

/-- The position loop ends with the last overlay whose band holds `y`. -/
theorem selectByPosition_last {y : ℚ} (pre post : List (ChannelId × Int)) (channel : ChannelId)
    (position : Int) (selected : ChannelId) (hband : InBand y position)
    (hpost : ∀ e ∈ post, ¬ InBand y e.2) :
    selectByPosition y (pre ++ (channel, position) :: post) selected = channel := by
  induction pre generalizing selected with
  | nil =>
    unfold InBand at hband
    simp only [List.nil_append, selectByPosition, if_pos hband]
    exact selectByPosition_of_no_band post channel hpost
  | cons e rest ih =>
    obtain ⟨k, q⟩ := e
    simp only [List.cons_append, selectByPosition]
    exact ih _

/-- The selected channel after a button press, in terms of the two searches. -/
theorem on_button_press_event_selectedChannel (c : Collaborators) (a : State)
    (event : GdkEventButton) :
    (on_button_press_event c a event).m_selectedChannel =
      selectByPosition event.y a.m_overlayPositions
        ((hitOverlayBox event.x event.y (labelBoxes a)).getD a.m_channel.id) := by
  have hlab : labelBoxes { a with m_selectedChannel := a.m_channel.id } = labelBoxes a := rfl
  unfold on_button_press_event
  cases hsome : hitOverlayBox event.x event.y (labelBoxes a) with
  | none =>
    have h := @HitTest_of_no_label { a with m_selectedChannel := a.m_channel.id }
      event.x event.y (hlab ▸ hsome)
    simp only [h, Option.getD_none]
    cases event.type <;>
      simp only [OnSingleClick_selectedChannel, OnDoubleClick_selectedChannel]
  | some channel =>
    have h := @HitTest_of_label { a with m_selectedChannel := a.m_channel.id }
      event.x event.y channel (hlab ▸ hsome)
    simp only [h, Option.getD_some]
    cases event.type <;>
      simp only [OnSingleClick_selectedChannel, OnDoubleClick_selectedChannel]

/-- Claim C8, as amended. After every button press at `(x, y)` the selected channel is the last
overlay, in the iteration order of `m_overlayPositions`, whose band `[position - 10, position + 10]`
holds `y`; when no band holds `y` it is the channel of the first label box that contains the
pointer (the info box of the main channel first, then the overlay boxes in iteration order), and
the primary channel when no label box contains the pointer. -/
theorem on_button_press_event_selects (c : Collaborators) (a : State) (event : GdkEventButton) :
    (∀ (pre post : List (ChannelId × Int)) (channel : ChannelId) (position : Int),
      a.m_overlayPositions = pre ++ (channel, position) :: post →
      InBand event.y position → (∀ e ∈ post, ¬ InBand event.y e.2) →
      (on_button_press_event c a event).m_selectedChannel = channel) ∧
    ((∀ e ∈ a.m_overlayPositions, ¬ InBand event.y e.2) →
      (∀ (pre post : List (ChannelId × Rect)) (channel : ChannelId) (box : Rect),
        labelBoxes a = pre ++ (channel, box) :: post →
        (∀ e ∈ pre, e.2.HitTest event.x event.y = false) → box.HitTest event.x event.y = true →
        (on_button_press_event c a event).m_selectedChannel = channel) ∧
      ((∀ e ∈ labelBoxes a, e.2.HitTest event.x event.y = false) →
        (on_button_press_event c a event).m_selectedChannel = a.m_channel.id)) := by
  refine ⟨?_, ?_⟩
  · intro pre post channel position hpos hband hpost
    rw [on_button_press_event_selectedChannel, hpos]
    exact selectByPosition_last pre post channel position _ hband hpost
  · intro hno
    refine ⟨?_, ?_⟩
    · intro pre post channel box hreg hpre hbox
      rw [on_button_press_event_selectedChannel, selectByPosition_of_no_band _ _ hno, hreg,
        hitOverlayBox_eq_first pre post hpre hbox]
      rfl
    · intro hall
      rw [on_button_press_event_selectedChannel, selectByPosition_of_no_band _ _ hno,
        hitOverlayBox_eq_none hall]
      rfl

/-- Counterexample to C8 as stated: in the scene with overlays 7 and 8 at positions 100 and 105
and no overlay name box, a press at (300, 102) falls within no overlay label box, yet the selected
channel is overlay 8 and not the primary channel 1; overlay 8 comes later in the iteration and
replaces overlay 7, whose band also holds y = 102. -/
theorem button_press_later_band_wins :
    sceneBands.m_overlayBoxRects = [] ∧
    sceneBands.m_overlayPositions = [(7, 100), (8, 105)] ∧
    InBand 102 100 ∧ InBand 102 105 ∧
    sceneBands.m_channel.id = 1 ∧
    (on_button_press_event sceneCollaborators sceneBands (leftPress 300 102)).m_selectedChannel
      = 8 := by
  refine ⟨rfl, rfl, by norm_num [InBand], by norm_num [InBand], rfl, ?_⟩
  rw [on_button_press_event_selectedChannel]
  norm_num [sceneBands, scene, leftPress, selectByPosition, labelBoxes, hitOverlayBox,
    Rect.HitTest, sceneChannel]

/-! ## Properties of the geometry builder and of the frame -/

theorem vertexBuffer_length {α : Type} (x : Int → ℚ) (y : α → ℚ) (samples : List (Int × α)) :
    (vertexBuffer x y samples).length = 2 * samples.length := by
  induction samples with
  | nil => rfl
  | cons s rest ih =>
    obtain ⟨start, v⟩ := s
    simp only [vertexBuffer, List.length_cons, ih]
    omega

/-- Uploading the geometry of a non-empty capture succeeds: no read of the scan leaves the vertex
buffer. The render data keeps its channel and texture, becomes valid and holds the scanned
index. -/
theorem uploadGeometry_some (c : Collaborators) (a : State) (wdata : WaveformRenderData)
    (traceBuffer : List ℚ) (count : Nat) (hcount : 0 < count)
    (hlen : traceBuffer.length = 2 * count) :
    ∃ wd, uploadGeometry c a wdata traceBuffer count = some wd ∧
      wd.m_channel = wdata.m_channel ∧ wd.m_waveformTexture = wdata.m_waveformTexture ∧
      wd.m_geometryOK = true ∧ wd.m_waveformStorageBuffer = traceBuffer ∧
      buildIndexBuffer traceBuffer count a.m_width.toNat = some wd.m_waveformIndexBuffer := by
  obtain ⟨ib, hib, _, _⟩ := buildIndexBuffer_spec traceBuffer count a.m_width.toNat hcount hlen
  simp only [uploadGeometry, hib]
  exact ⟨_, rfl, rfl, rfl, rfl, rfl, rfl⟩

/-- Source function `PrepareGeometry` always returns, and leaves the channel and the texture of the
render data as they were. -/
theorem PrepareGeometry_some (c : Collaborators) (a : State) (wdata : WaveformRenderData) :
    ∃ wd, PrepareGeometry c a wdata = some wd ∧ wd.m_channel = wdata.m_channel ∧
      wd.m_waveformTexture = wdata.m_waveformTexture := by
  simp only [PrepareGeometry]
  split
  · exact ⟨_, rfl, rfl, rfl⟩
  · split
    · split
      · exact ⟨_, rfl, rfl, rfl⟩
      · rename_i hz
        obtain ⟨wd, h1, h2, h3, _⟩ := uploadGeometry_some c a wdata _ _
          (Nat.pos_of_ne_zero hz) (vertexBuffer_length _ _ _)
        exact ⟨wd, h1, h2, h3⟩
    · split
      · exact ⟨_, rfl, rfl, rfl⟩
      · rename_i hz
        obtain ⟨wd, h1, h2, h3, _⟩ := uploadGeometry_some c a wdata _ _
          (Nat.pos_of_ne_zero hz) (vertexBuffer_length _ _ _)
        exact ⟨wd, h1, h2, h3⟩
    · exact ⟨_, rfl, rfl, rfl⟩

/-- Whenever `PrepareGeometry` leaves valid geometry, the capture had `count > 0` samples, the
uploaded vertex buffer holds `2 * count` entries, and the uploaded index buffer is the index scan
of that vertex buffer over `m_width` columns. -/
theorem PrepareGeometry_index (c : Collaborators) (a : State) (wdata : WaveformRenderData) :
    ∃ wd, PrepareGeometry c a wdata = some wd ∧
      (wd.m_geometryOK = true → ∃ count, 0 < count ∧
        wd.m_waveformStorageBuffer.length = 2 * count ∧
        buildIndexBuffer wd.m_waveformStorageBuffer count a.m_width.toNat =
          some wd.m_waveformIndexBuffer) := by
  have hbad : ∃ wd, some { wdata with m_geometryOK := false } = some wd ∧
      (wd.m_geometryOK = true → ∃ count, 0 < count ∧
        wd.m_waveformStorageBuffer.length = 2 * count ∧
        buildIndexBuffer wd.m_waveformStorageBuffer count a.m_width.toNat =
          some wd.m_waveformIndexBuffer) :=
    ⟨_, rfl, fun h => absurd h (by simp)⟩
  simp only [PrepareGeometry]
  split
  · exact hbad
  · split
    · split
      · exact hbad
      · rename_i hz
        obtain ⟨wd, h1, _, _, _, h5, h6⟩ := uploadGeometry_some c a wdata _ _
          (Nat.pos_of_ne_zero hz) (vertexBuffer_length _ _ _)
        refine ⟨wd, h1, fun _ => ⟨_, Nat.pos_of_ne_zero hz, ?_, ?_⟩⟩
        · rw [h5]
          exact vertexBuffer_length _ _ _
        · rw [h5]
          exact h6
    · split
      · exact hbad
      · rename_i hz
        obtain ⟨wd, h1, _, _, _, h5, h6⟩ := uploadGeometry_some c a wdata _ _
          (Nat.pos_of_ne_zero hz) (vertexBuffer_length _ _ _)
        refine ⟨wd, h1, fun _ => ⟨_, Nat.pos_of_ne_zero hz, ?_, ?_⟩⟩
        · rw [h5]
          exact vertexBuffer_length _ _ _
        · rw [h5]
          exact h6
    · exact hbad

/-- Claim C9. For every channel whose capture has zero samples or is neither analog nor digital,
`PrepareGeometry` returns with `m_geometryOK` false, and then `RenderTrace` issues no command (so
no compute dispatch) and `RenderTraceColorCorrection` issues no command (so no draw call) for that
render data. -/
theorem PrepareGeometry_empty_capture (c : Collaborators) (a : State)
    (wdata : WaveformRenderData) (h : CaptureEmptyOrUnsupported wdata.m_channel) :
    ∃ wd, PrepareGeometry c a wdata = some wd ∧ wd.m_geometryOK = false ∧
      (∀ a' : State, RenderTrace a' wd = []) ∧ RenderTraceColorCorrection wd = [] := by
  have hdone : ∃ wd, some { wdata with m_geometryOK := false } = some wd ∧
      wd.m_geometryOK = false ∧
      (∀ a' : State, RenderTrace a' wd = []) ∧ RenderTraceColorCorrection wd = [] :=
    ⟨_, rfl, rfl, fun _ => rfl, rfl⟩
  simp only [CaptureEmptyOrUnsupported] at h
  simp only [PrepareGeometry]
  split
  · exact hdone
  · rename_i pdat hdata
    rw [hdata] at h
    simp only at h
    split
    · rename_i samples hs
      rw [hs] at h
      simp only at h
      subst h
      exact hdone
    · rename_i samples hs
      rw [hs] at h
      simp only at h
      subst h
      exact hdone
    · exact hdone

/-- Witness for C9: an analog capture without samples, in render data whose geometry was valid. -/
theorem PrepareGeometry_empty_capture_witness :
    CaptureEmptyOrUnsupported sceneEmptyRenderData.m_channel ∧
    ∃ wd, PrepareGeometry sceneCollaborators scene sceneEmptyRenderData = some wd ∧
      wd.m_geometryOK = false ∧
      (∀ a' : State, RenderTrace a' wd = []) ∧ RenderTraceColorCorrection wd = [] :=
  ⟨by simp [CaptureEmptyOrUnsupported, sceneEmptyRenderData, WaveformRenderData.new],
    PrepareGeometry_empty_capture sceneCollaborators scene sceneEmptyRenderData
      (by simp [CaptureEmptyOrUnsupported, sceneEmptyRenderData, WaveformRenderData.new])⟩

theorem mem_mapSet {β : Type} {key : ChannelId} {value : β} {m : List (ChannelId × β)}
    {e : ChannelId × β} (h : e ∈ mapSet key value m) : e = (key, value) ∨ e ∈ m := by
  induction m with
  | nil => exact Or.inl (by simpa [mapSet] using h)
  | cons kv rest ih =>
    obtain ⟨k, v⟩ := kv
    simp only [mapSet] at h
    split_ifs at h with h1 h2
    · rcases List.mem_cons.mp h with h | h
      · exact Or.inl h
      · exact Or.inr h
    · rcases List.mem_cons.mp h with h | h
      · exact Or.inl h
      · exact Or.inr (List.mem_cons_of_mem _ h)
    · rcases List.mem_cons.mp h with h | h
      · exact Or.inr (h ▸ List.mem_cons_self _ _)
      · rcases ih h with h | h
        · exact Or.inl h
        · exact Or.inr (List.mem_cons_of_mem _ h)

theorem mapSet_mem_self {β : Type} (key : ChannelId) (value : β) (m : List (ChannelId × β)) :
    (key, value) ∈ mapSet key value m := by
  induction m with
  | nil => simp [mapSet]
  | cons kv rest ih =>
    obtain ⟨k, v⟩ := kv
    simp only [mapSet]
    split_ifs
    · exact List.mem_cons_self _ _
    · exact List.mem_cons_self _ _
    · exact List.mem_cons_of_mem _ ih

theorem mapSet_key_kept {β : Type} (key : ChannelId) (value : β) (m : List (ChannelId × β))
    (k : ChannelId) (h : ∃ d, (k, d) ∈ m) : ∃ d, (k, d) ∈ mapSet key value m := by
  by_cases hk : k = key
  · exact ⟨value, hk ▸ mapSet_mem_self key value m⟩
  · obtain ⟨d, hd⟩ := h
    refine ⟨d, ?_⟩
    induction m with
    | nil => cases hd
    | cons kv rest ih =>
      obtain ⟨k', v'⟩ := kv
      simp only [mapSet]
      split_ifs with h1 h2
      · exact List.mem_cons_of_mem _ hd
      · rcases List.mem_cons.mp hd with h | h
        · exact absurd (by simpa using (congrArg Prod.fst h).trans h2.symm) hk
        · exact List.mem_cons_of_mem _ h
      · rcases List.mem_cons.mp hd with h | h
        · exact h ▸ List.mem_cons_self _ _
        · exact List.mem_cons_of_mem _ (ih h)

theorem resizeOverlayData_texture (width height : Int) (m : List (ChannelId × WaveformRenderData)) :
    ∀ e ∈ resizeOverlayData width height m, e.2.m_waveformTexture = some (width, height) := by
  induction m with
  | nil =>
    intro e he
    cases he
  | cons kv rest ih =>
    obtain ⟨k, data⟩ := kv
    intro e he
    simp only [resizeOverlayData] at he
    rcases List.mem_cons.mp he with h | h
    · rw [h]
    · exact ih e h

/-- The overlay loop of a frame returns; it leaves the size of the area and the main render data
alone, every overlay texture ends at the size of the area when all were before, every key stays,
and every digital overlay of the list has render data afterwards. -/
theorem renderDigitalOverlays_textures (c : Collaborators) (overlays : List OscilloscopeChannel) :
    ∀ a : State,
      (∀ e ∈ a.m_overlayRenderData, e.2.m_waveformTexture = some (a.m_width, a.m_height)) →
      ∃ a' cmds, renderDigitalOverlays c overlays a = some (a', cmds) ∧
        a'.m_width = a.m_width ∧ a'.m_height = a.m_height ∧
        a'.m_waveformRenderData = a.m_waveformRenderData ∧
        (∀ e ∈ a'.m_overlayRenderData,
          e.2.m_waveformTexture = some (a.m_width, a.m_height)) ∧
        (∀ k, (∃ d, (k, d) ∈ a.m_overlayRenderData) → ∃ d, (k, d) ∈ a'.m_overlayRenderData) ∧
        (∀ o ∈ overlays, o.type = ChannelType.CHANNEL_TYPE_DIGITAL →
          ∃ d, (o.id, d) ∈ a'.m_overlayRenderData) := by
  induction overlays with
  | nil =>
    intro a hinv
    exact ⟨a, [], rfl, rfl, rfl, rfl, hinv, fun _ h => h, fun o ho => absurd ho (List.not_mem_nil o)⟩
  | cons overlay rest ih =>
    intro a hinv
    by_cases ht : overlay.type = ChannelType.CHANNEL_TYPE_DIGITAL
    · obtain ⟨wd, hwd, _, htex⟩ := PrepareGeometry_some c a
        { (a.m_overlayRenderData.lookup overlay.id).getD (WaveformRenderData.new overlay) with
          m_channel := overlay, m_waveformTexture := some (a.m_width, a.m_height) }
      dsimp only at hwd htex
      have hinv' : ∀ e ∈ mapSet overlay.id wd a.m_overlayRenderData,
          e.2.m_waveformTexture = some (a.m_width, a.m_height) := by
        intro e he
        rcases mem_mapSet he with h | h
        · rw [h]
          exact htex
        · exact hinv e h
      obtain ⟨a', cmds, h1, h2, h3, h4, h5, h6, h7⟩ :=
        ih { a with m_overlayRenderData := mapSet overlay.id wd a.m_overlayRenderData,
                    m_overlayPositions := insertOverlayPosition a overlay } hinv'
      refine ⟨a', RenderTrace
        { a with m_overlayRenderData := mapSet overlay.id wd a.m_overlayRenderData,
                   m_overlayPositions := insertOverlayPosition a overlay } wd ++ cmds,
        ?_, h2, h3, h4, h5, ?_, ?_⟩
      · simp only [renderDigitalOverlays, ht, ne_eq, not_true_eq_false, if_false, hwd, h1]
      · intro k hk
        exact h6 k (mapSet_key_kept overlay.id wd a.m_overlayRenderData k hk)
      · intro o ho hd
        rcases List.mem_cons.mp ho with h | h
        · rw [h]
          exact h6 overlay.id ⟨wd, mapSet_mem_self overlay.id wd a.m_overlayRenderData⟩
        · exact h7 o h hd
    · obtain ⟨a', cmds, h1, h2, h3, h4, h5, h6, h7⟩ := ih a hinv
      refine ⟨a', cmds, ?_, h2, h3, h4, h5, h6, ?_⟩
      · simp only [renderDigitalOverlays, ne_eq, ht, not_false_eq_true, if_true, h1]
      · intro o ho hd
        rcases List.mem_cons.mp ho with h | h
        · rw [h] at hd
          exact absurd hd ht
        · exact h7 o h hd

/-- The main trace of a frame returns; it leaves the size of the area, the overlays and their
render data alone, and it leaves the texture of the main render data alone. -/
theorem renderMainGeometry_some (c : Collaborators) (a : State) :
    ∃ a' cmds, renderMainGeometry c a = some (a', cmds) ∧
      a'.m_width = a.m_width ∧ a'.m_height = a.m_height ∧ a'.m_overlays = a.m_overlays ∧
      a'.m_overlayRenderData = a.m_overlayRenderData ∧
      a'.m_waveformRenderData.m_waveformTexture = a.m_waveformRenderData.m_waveformTexture := by
  unfold renderMainGeometry
  by_cases han : a.isAnalog = true
  · obtain ⟨wd, hwd, _, htex⟩ := PrepareGeometry_some c a a.m_waveformRenderData
    rw [if_pos han, hwd]
    exact ⟨_, _, rfl, rfl, rfl, rfl, rfl, htex⟩
  · rw [if_neg han]
    exact ⟨_, _, rfl, rfl, rfl, rfl, rfl, rfl⟩

/-- A frame returns and keeps the size of the area; when every render-data texture has the size
of the area before the frame, every one has it after the frame, the render data created in the
frame included, and every digital overlay has render data after the frame. -/
theorem on_render_textures (c : Collaborators) (a : State)
    (hmain : a.m_waveformRenderData.m_waveformTexture = some (a.m_width, a.m_height))
    (hov : ∀ e ∈ a.m_overlayRenderData, e.2.m_waveformTexture = some (a.m_width, a.m_height)) :
    ∃ a' cmds, on_render c a = some (a', cmds) ∧
      a'.m_width = a.m_width ∧ a'.m_height = a.m_height ∧
      a'.m_waveformRenderData.m_waveformTexture = some (a.m_width, a.m_height) ∧
      (∀ e ∈ a'.m_overlayRenderData, e.2.m_waveformTexture = some (a.m_width, a.m_height)) ∧
      (∀ k, (∃ d, (k, d) ∈ a.m_overlayRenderData) → ∃ d, (k, d) ∈ a'.m_overlayRenderData) ∧
      (∀ o ∈ a.m_overlays, o.type = ChannelType.CHANNEL_TYPE_DIGITAL →
        ∃ d, (o.id, d) ∈ a'.m_overlayRenderData) := by
  obtain ⟨a1, cmds1, hm, hw1, hh1, ho1, hd1, ht1⟩ := renderMainGeometry_some c (beginFrame a)
  have hw : (computeCairoLayers c a1).m_width = a.m_width := hw1
  have hh : (computeCairoLayers c a1).m_height = a.m_height := hh1
  have hd : (computeCairoLayers c a1).m_overlayRenderData = a.m_overlayRenderData := hd1
  have hov' : ∀ e ∈ (computeCairoLayers c a1).m_overlayRenderData,
      e.2.m_waveformTexture =
        some ((computeCairoLayers c a1).m_width, (computeCairoLayers c a1).m_height) := by
    rw [hw, hh, hd]
    exact hov
  obtain ⟨a2, cmds2, h1, h2, h3, h4, h5, h6, h7⟩ :=
    renderDigitalOverlays_textures c (computeCairoLayers c a1).m_overlays
      (computeCairoLayers c a1) hov'
  rw [hw, hh] at h5
  rw [hd] at h6
  have hrun : ∃ cmds, on_render c a = some (a2, cmds) := by
    unfold on_render
    rw [hm]
    dsimp only
    rw [h1]
    exact ⟨_, rfl⟩
  obtain ⟨cmds, hrun⟩ := hrun
  refine ⟨a2, cmds, hrun, h2.trans hw, h3.trans hh, ?_, h5, h6, ?_⟩
  · rw [h4]
    exact (ht1.trans hmain)
  · intro o ho
    exact h7 o (by rw [show (computeCairoLayers c a1).m_overlays = a.m_overlays from ho1]; exact ho)

theorem resizeOverlayData_key_kept (width height : Int)
    (m : List (ChannelId × WaveformRenderData)) (k : ChannelId) (h : ∃ d, (k, d) ∈ m) :
    ∃ d, (k, d) ∈ resizeOverlayData width height m := by
  obtain ⟨d, hd⟩ := h
  induction m with
  | nil => cases hd
  | cons kv rest ih =>
    obtain ⟨k', data⟩ := kv
    simp only [resizeOverlayData]
    rcases List.mem_cons.mp hd with h | h
    · have hk : k = k' := congrArg Prod.fst h
      subst hk
      exact ⟨_, List.mem_cons_self _ _⟩
    · obtain ⟨d', hd'⟩ := ih h
      exact ⟨d', List.mem_cons_of_mem _ hd'⟩

/-- What `on_resize` leaves: the new size, the main texture and every overlay texture reallocated
at the new size, and the overlays as they were. -/
theorem on_resize_spec (a : State) (width height : Int) :
    (on_resize a width height).m_width = width ∧
    (on_resize a width height).m_height = height ∧
    (on_resize a width height).m_waveformRenderData.m_waveformTexture = some (width, height) ∧
    (on_resize a width height).m_overlayRenderData =
      resizeOverlayData width height a.m_overlayRenderData ∧
    (on_resize a width height).m_overlays = a.m_overlays := by
  unfold on_resize SetGeometryDirty
  dsimp only
  split_ifs <;> exact ⟨rfl, rfl, rfl, rfl, rfl⟩

/-- Claim C10. For every state of the area, with whatever render data it holds, and every new
size `(width, height)`: the frame after `on_resize width height` returns, and after it the area
has the new size, the texture of the main render data and the texture of every overlay render
data have exactly the new size, every overlay that had render data still has it, and every digital
overlay has render data, the render data created in that frame included. -/
theorem on_resize_on_render_textures (c : Collaborators) (a : State) (width height : Int) :
    ∃ a' cmds, on_render c (on_resize a width height) = some (a', cmds) ∧
      a'.m_width = width ∧ a'.m_height = height ∧
      a'.m_waveformRenderData.m_waveformTexture = some (width, height) ∧
      (∀ e ∈ a'.m_overlayRenderData, e.2.m_waveformTexture = some (width, height)) ∧
      (∀ k, (∃ d, (k, d) ∈ a.m_overlayRenderData) → ∃ d, (k, d) ∈ a'.m_overlayRenderData) ∧
      (∀ o ∈ a.m_overlays, o.type = ChannelType.CHANNEL_TYPE_DIGITAL →
        ∃ d, (o.id, d) ∈ a'.m_overlayRenderData) := by
  obtain ⟨hw, hh, hmain, hdata, hovl⟩ := on_resize_spec a width height
  have hov : ∀ e ∈ (on_resize a width height).m_overlayRenderData,
      e.2.m_waveformTexture =
        some ((on_resize a width height).m_width, (on_resize a width height).m_height) := by
    rw [hw, hh, hdata]
    exact resizeOverlayData_texture width height a.m_overlayRenderData
  have hmain' : (on_resize a width height).m_waveformRenderData.m_waveformTexture =
      some ((on_resize a width height).m_width, (on_resize a width height).m_height) := by
    rw [hw, hh]
    exact hmain
  obtain ⟨a', cmds, h1, h2, h3, h4, h5, h6, h7⟩ :=
    on_render_textures c (on_resize a width height) hmain' hov
  rw [hw, hh] at h4 h5
  refine ⟨a', cmds, h1, h2.trans hw, h3.trans hh, h4, h5, ?_, ?_⟩
  · intro k hk
    apply h6 k
    rw [hdata]
    exact resizeOverlayData_key_kept width height a.m_overlayRenderData k hk
  · intro o ho
    exact h7 o (by rw [hovl]; exact ho)

/-- Example for C10: the 801 x 601 scene resized to 1024 x 768. Overlay 7 gets its render data in
the frame, overlay 8 and the stale overlay 9 had 801 x 601 textures. -/
theorem on_resize_on_render_textures_scene :
    ∃ a' cmds, on_render sceneCollaborators (on_resize sceneResize 1024 768) = some (a', cmds) ∧
      a'.m_width = 1024 ∧ a'.m_height = 768 ∧
      a'.m_waveformRenderData.m_waveformTexture = some (1024, 768) ∧
      (∀ e ∈ a'.m_overlayRenderData, e.2.m_waveformTexture = some (1024, 768)) ∧
      (∀ k, (∃ d, (k, d) ∈ sceneResize.m_overlayRenderData) →
        ∃ d, (k, d) ∈ a'.m_overlayRenderData) ∧
      (∀ o ∈ sceneResize.m_overlays, o.type = ChannelType.CHANNEL_TYPE_DIGITAL →
        ∃ d, (o.id, d) ∈ a'.m_overlayRenderData) :=
  on_resize_on_render_textures sceneCollaborators sceneResize 1024 768

/-! ## Further properties of the index scan -/

/-- Whatever index the scan returns has one entry per column, each the first cover of its
column. -/
theorem buildIndexBuffer_cover (traceBuffer : List ℚ) (count width : Nat) (hcount : 0 < count)
    (hlen : traceBuffer.length = 2 * count) {ib : List Nat}
    (h : buildIndexBuffer traceBuffer count width = some ib) :
    ib.length = width ∧ ∀ j v : Nat, ib[j]? = some v → IsFirstCover traceBuffer count j v := by
  obtain ⟨ib', h1, h2, h3⟩ := buildIndexBuffer_spec traceBuffer count width hcount hlen
  rw [h] at h1
  cases h1
  refine ⟨h2, ?_⟩
  intro j v hv
  obtain ⟨v', hv', hfc⟩ := h3 j (h2 ▸ lt_length_of_entry hv)
  rw [hv] at hv'
  cases hv'
  exact hfc

/-- An entry of a list at a position below its length. -/
theorem entry_of_lt_length {ib : List Nat} {j : Nat} (h : j < ib.length) :
    ∃ v, ib[j]? = some v :=
  ⟨ib[j], List.getElem?_eq_getElem h⟩

/-- Claim C20. For every capture with at least one sample, every list of pixel x (ordered or not)
and every width, the scan returns (no read leaves the vertex buffer) with one entry per column;
each entry is the sentinel `count` or at most `count - 2`, so the last sample `count - 1` is never
stored; once a column holds the sentinel every later column holds it; and a one-sample capture
holds the sentinel in every column. -/
theorem columnIndex_entries_safe (traceBuffer : List ℚ) (count width : Nat)
    (hcount : 0 < count) (hlen : traceBuffer.length = 2 * count) :
    ∃ ib, buildIndexBuffer traceBuffer count width = some ib ∧ ib.length = width ∧
      (∀ j v : Nat, ib[j]? = some v → v = count ∨ v + 2 ≤ count) ∧
      (∀ j : Nat, ib[j]? ≠ some (count - 1)) ∧
      (∀ i j : Nat, i ≤ j → j < width → ib[i]? = some count → ib[j]? = some count) ∧
      (count = 1 → ∀ j : Nat, j < width → ib[j]? = some count) := by
  obtain ⟨ib, h1, h2, _⟩ := buildIndexBuffer_spec traceBuffer count width hcount hlen
  obtain ⟨_, cover⟩ := buildIndexBuffer_cover traceBuffer count width hcount hlen h1
  have range : ∀ j v : Nat, ib[j]? = some v → v = count ∨ v + 2 ≤ count := by
    intro j v hv
    rcases cover j v hv with ⟨a1, _, _⟩ | ⟨a1, _⟩
    · exact Or.inr (by omega)
    · exact Or.inl a1
  refine ⟨ib, h1, h2, range, ?_, ?_, ?_⟩
  · intro j hj
    rcases range j (count - 1) hj with h | h <;> omega
  · intro i j hij hj hi
    obtain ⟨w, hw⟩ := entry_of_lt_length (h2 ▸ hj : j < ib.length)
    have hle : count ≤ w := IsFirstCover.mono hij (cover i count hi) (cover j w hw)
    rcases range j w hw with h | h
    · rw [hw, h]
    · omega
  · intro hone j hj
    obtain ⟨w, hw⟩ := entry_of_lt_length (h2 ▸ hj : j < ib.length)
    rcases range j w hw with h | h
    · rw [hw, h]
    · omega

/-- Witness for C20: four samples whose pixel x are out of order, over twelve columns. -/
theorem columnIndex_entries_safe_witness :
    (0 < 4 ∧ ([5, 0, 1, 0, 9, 0, 2, 0] : List ℚ).length = 2 * 4) ∧
    ∃ ib, buildIndexBuffer [5, 0, 1, 0, 9, 0, 2, 0] 4 12 = some ib ∧ ib.length = 12 ∧
      (∀ j v : Nat, ib[j]? = some v → v = 4 ∨ v + 2 ≤ 4) ∧
      (∀ j : Nat, ib[j]? ≠ some (4 - 1)) ∧
      (∀ i j : Nat, i ≤ j → j < 12 → ib[i]? = some 4 → ib[j]? = some 4) ∧
      (4 = 1 → ∀ j : Nat, j < 12 → ib[j]? = some 4) :=
  ⟨⟨by decide, rfl⟩,
    columnIndex_entries_safe [5, 0, 1, 0, 9, 0, 2, 0] 4 12 (by decide) rfl⟩

/-- Claim C17, as amended. For every capture of at least one sample whose pixel x never decrease,
and for every width: a column `j` of the gap between two consecutive samples `n` and `n + 1`
(`x[n] < j <= x[n+1]`) holds the earlier sample `n`, not the sentinel; a column right of the last
sample holds the sentinel; a column holds the sentinel only if it is right of the last sample or
the capture has a single sample; and every column of a one-sample capture holds the sentinel. -/
theorem gap_columns_hold_earlier_sample (traceBuffer : List ℚ) (count width : Nat)
    (hcount : 0 < count) (hlen : traceBuffer.length = 2 * count)
    (hmono : NondecreasingX traceBuffer count) :
    ∃ ib, buildIndexBuffer traceBuffer count width = some ib ∧ ib.length = width ∧
      (∀ n j : Nat, n + 1 < count → j < width → sampleX traceBuffer n < (j : ℚ) →
        (j : ℚ) ≤ sampleX traceBuffer (n + 1) → ib[j]? = some n) ∧
      (∀ j : Nat, j < width → sampleX traceBuffer (count - 1) < (j : ℚ) →
        ib[j]? = some count) ∧
      (∀ j : Nat, ib[j]? = some count →
        count = 1 ∨ sampleX traceBuffer (count - 1) < (j : ℚ)) ∧
      (count = 1 → ∀ j : Nat, j < width → ib[j]? = some count) := by
  obtain ⟨ib, h1, h2, _⟩ := buildIndexBuffer_spec traceBuffer count width hcount hlen
  obtain ⟨_, cover⟩ := buildIndexBuffer_cover traceBuffer count width hcount hlen h1
  refine ⟨ib, h1, h2, ?_, ?_, ?_, ?_⟩
  · intro n j hn hj hlo hhi
    obtain ⟨w, hw⟩ := entry_of_lt_length (h2 ▸ hj : j < ib.length)
    have hfc : IsFirstCover traceBuffer count j n := by
      refine Or.inl ⟨by omega, hhi, ?_⟩
      intro m hm
      exact lt_of_le_of_lt (hmono (m + 1) n (by omega) (by omega)) hlo
    rw [hw, IsFirstCover.unique (cover j w hw) hfc]
  · intro j hj hlast
    obtain ⟨w, hw⟩ := entry_of_lt_length (h2 ▸ hj : j < ib.length)
    have hfc : IsFirstCover traceBuffer count j count := by
      refine Or.inr ⟨rfl, ?_⟩
      intro n hn
      exact lt_of_le_of_lt (hmono (n + 1) (count - 1) (by omega) (by omega)) hlast
    rw [hw, IsFirstCover.unique (cover j w hw) hfc]
  · intro j hj
    rcases cover j count hj with ⟨a1, _, _⟩ | ⟨_, a2⟩
    · omega
    · by_cases hone : count = 1
      · exact Or.inl hone
      · have := a2 (count - 2) (by omega)
        rw [show count - 2 + 1 = count - 1 by omega] at this
        exact Or.inr this
  · intro hone j hj
    obtain ⟨w, hw⟩ := entry_of_lt_length (h2 ▸ hj : j < ib.length)
    rcases cover j w hw with ⟨a1, _, _⟩ | ⟨a1, _⟩
    · omega
    · rw [hw, a1]

/-- Witness for C17: three samples at pixel x 0, 3 and 6 over nine columns. -/
theorem gap_columns_hold_earlier_sample_witness :
    (0 < 3 ∧ ([0, 0, 3, 0, 6, 0] : List ℚ).length = 2 * 3 ∧
      NondecreasingX [0, 0, 3, 0, 6, 0] 3) ∧
    ∃ ib, buildIndexBuffer [0, 0, 3, 0, 6, 0] 3 9 = some ib ∧ ib.length = 9 ∧
      (∀ n j : Nat, n + 1 < 3 → j < 9 → sampleX [0, 0, 3, 0, 6, 0] n < (j : ℚ) →
        (j : ℚ) ≤ sampleX [0, 0, 3, 0, 6, 0] (n + 1) → ib[j]? = some n) ∧
      (∀ j : Nat, j < 9 → sampleX [0, 0, 3, 0, 6, 0] (3 - 1) < (j : ℚ) → ib[j]? = some 3) ∧
      (∀ j : Nat, ib[j]? = some 3 → 3 = 1 ∨ sampleX [0, 0, 3, 0, 6, 0] (3 - 1) < (j : ℚ)) ∧
      (3 = 1 → ∀ j : Nat, j < 9 → ib[j]? = some 3) := by
  have hmono : NondecreasingX [0, 0, 3, 0, 6, 0] 3 := by
    intro m n hmn hn
    interval_cases n <;> interval_cases m <;> norm_num [sampleX]
  exact ⟨⟨by decide, rfl, hmono⟩,
    gap_columns_hold_earlier_sample [0, 0, 3, 0, 6, 0] 3 9 (by decide) rfl hmono⟩

/-- Counterexample to C17 as stated: the samples at pixel x 0 and 4 are four columns apart, yet
the columns 1, 2 and 3 strictly between them hold sample 0 and not the sentinel 2. -/
theorem gap_columns_are_not_sentinel :
    sampleX [0, 0, 4, 0] 0 + 1 < sampleX [0, 0, 4, 0] 1 ∧
    buildIndexBuffer [0, 0, 4, 0] 2 4 = some [0, 0, 0, 0] ∧ (0 : Nat) ≠ 2 := by
  refine ⟨by norm_num [sampleX], ?_, by decide⟩
  norm_num [buildIndexBuffer, indexLoop, advanceSample, lastSample]

/-! ## Further properties of the geometry builder and of the frame -/

/-- The geometry of a non-empty analog capture: the vertex buffer holds, for each sample, the
pixel x `vertexX` of its start and the pixel y of its voltage, and the index buffer is the scan
of that vertex buffer over `m_width` columns. -/
theorem PrepareGeometry_analog (c : Collaborators) (a : State) (wdata : WaveformRenderData)
    (pdat : Capture) (samples : List (Int × ℚ))
    (hdata : wdata.m_channel.data = some pdat)
    (hs : pdat.samples = CaptureSamples.analog samples) (hne : samples.length ≠ 0) :
    ∃ wd, PrepareGeometry c a wdata = some wd ∧ wd.m_geometryOK = true ∧
      wd.m_waveformStorageBuffer =
        vertexBuffer
          (vertexX a pdat)
          (fun v =>
            if a.isFFT then DbToYPosition a (-70 - (20 * c.log10 v))
            else (a.m_pixelsPerVolt * (v + wdata.m_channel.offset)) +
              ((Int.tdiv a.m_height 2 : Int) : ℚ))
          samples ∧
      buildIndexBuffer wd.m_waveformStorageBuffer samples.length a.m_width.toNat =
        some wd.m_waveformIndexBuffer := by
  obtain ⟨wd, h1, _, _, h4, h5, h6⟩ := uploadGeometry_some c a wdata
    (vertexBuffer
      (vertexX a pdat)
      (fun v =>
        if a.isFFT then DbToYPosition a (-70 - (20 * c.log10 v))
        else (a.m_pixelsPerVolt * (v + wdata.m_channel.offset)) +
          ((Int.tdiv a.m_height 2 : Int) : ℚ))
      samples)
    samples.length (Nat.pos_of_ne_zero hne) (vertexBuffer_length _ _ samples)
  refine ⟨wd, ?_, h4, h5, ?_⟩
  · simp only [PrepareGeometry, hdata, hs, hne, if_false]
    exact h1
  · rw [h5]
    exact h6

/-- Where nothing is rounded, the vertex x is the exact one: with a power-of-two scale `2 ^ k`, a
whole trigger phase `ph` and magnitudes within the exact integer range of the formats, the
stored x is `(start * timescale + ph - offset) * 2 ^ k`. -/
theorem vertexX_exact (a : State) (pdat : Capture) (start k ph : Int)
    (hppx : a.m_group.m_pixelsPerXUnit = (2 : ℚ) ^ k) (hk : -100 ≤ k)
    (hph : pdat.m_triggerPhase = (ph : ℚ))
    (hts : |pdat.m_timescale| < 2 ^ 24) (hstart : |start| < 2 ^ 53)
    (hoff : |a.m_group.m_xAxisOffset| < 2 ^ 53)
    (hpo : |ph - a.m_group.m_xAxisOffset| < 2 ^ 24)
    (htot : |start * pdat.m_timescale + ph - a.m_group.m_xAxisOffset| < 2 ^ 24) :
    vertexX a pdat start =
      ((start * pdat.m_timescale + ph - a.m_group.m_xAxisOffset : Int) : ℚ) * (2 : ℚ) ^ k := by
  have hst : |start * pdat.m_timescale| < 2 ^ 53 := by
    rw [abs_lt] at hpo htot ⊢
    constructor <;> omega
  have hpo53 : |ph - a.m_group.m_xAxisOffset| < 2 ^ 53 := by omega
  have htot53 : |start * pdat.m_timescale + ph - a.m_group.m_xAxisOffset| < 2 ^ 53 := by omega
  have e4 : (start : ℚ) * ((pdat.m_timescale : ℚ) * (2 : ℚ) ^ k) =
      ((start * pdat.m_timescale : Int) : ℚ) * (2 : ℚ) ^ k := by
    push_cast
    ring
  have e6 : (ph : ℚ) - (a.m_group.m_xAxisOffset : ℚ) =
      ((ph - a.m_group.m_xAxisOffset : Int) : ℚ) := by
    push_cast
    ring
  have e9 : ((start * pdat.m_timescale : Int) : ℚ) * (2 : ℚ) ^ k +
      ((ph - a.m_group.m_xAxisOffset : Int) : ℚ) * (2 : ℚ) ^ k =
      ((start * pdat.m_timescale + ph - a.m_group.m_xAxisOffset : Int) : ℚ) * (2 : ℚ) ^ k := by
    push_cast
    ring
  unfold vertexX
  rw [hppx, hph, roundF32_intCast _ hts, roundF32_exact _ k hts (by omega),
    roundF64_intCast _ hstart, e4, roundF64_exact _ k hst (by omega),
    roundF64_intCast _ hoff, e6, roundF64_intCast _ hpo53, roundF64_exact _ k hpo53 (by omega),
    roundF32_exact _ k hpo (by omega), e9, roundF64_exact _ k htot53 (by omega),
    roundF32_exact _ k htot (by omega)]

/-- Where nothing is rounded, the pixel position of a time is the exact one: with a power-of-two
scale `2 ^ k`, the position of a time `t` less than `2^24` away from the axis offset is
`(t - offset) * 2 ^ k`. -/
theorem XAxisUnitsToXPosition_exact (a : State) (t k : Int)
    (hppx : a.m_group.m_pixelsPerXUnit = (2 : ℚ) ^ k) (hk : -100 ≤ k)
    (ht : |t - a.m_group.m_xAxisOffset| < 2 ^ 24) :
    XAxisUnitsToXPosition a t = ((t - a.m_group.m_xAxisOffset : Int) : ℚ) * (2 : ℚ) ^ k := by
  unfold XAxisUnitsToXPosition XAxisUnitsToPixels
  rw [hppx, roundF32_intCast _ ht, roundF32_exact _ k ht (by omega)]

/-- At any scale of at least `2^-100` the vertex x is close to the exact one: with a whole trigger
phase `ph`, a timescale below `2^24`, a start and an offset below `2^53` and the magnitudes of
`start * timescale`, `ph - offset` and their sum at most `2^20`, the stored x is within a quarter
of the scale of `(start * timescale + ph - offset) * m_pixelsPerXUnit`. -/
theorem vertexX_near (a : State) (pdat : Capture) (start ph : Int)
    (hlo : (2 : ℚ) ^ (-100 : Int) ≤ a.m_group.m_pixelsPerXUnit)
    (hph : pdat.m_triggerPhase = (ph : ℚ))
    (hts : |pdat.m_timescale| < 2 ^ 24) (hstart : |start| < 2 ^ 53)
    (hoff : |a.m_group.m_xAxisOffset| < 2 ^ 53)
    (hst : |start * pdat.m_timescale| ≤ 2 ^ 20)
    (hpo : |ph - a.m_group.m_xAxisOffset| ≤ 2 ^ 20)
    (htot : |start * pdat.m_timescale + ph - a.m_group.m_xAxisOffset| ≤ 2 ^ 20) :
    |vertexX a pdat start -
        ((start * pdat.m_timescale + ph - a.m_group.m_xAxisOffset : Int) : ℚ) *
          a.m_group.m_pixelsPerXUnit| ≤ 1 / 4 * a.m_group.m_pixelsPerXUnit := by
  have hP0 : (0 : ℚ) < a.m_group.m_pixelsPerXUnit := lt_of_lt_of_le (by positivity) hlo
  have hpo53 : |ph - a.m_group.m_xAxisOffset| < 2 ^ 53 := by omega
  have e6 : (ph : ℚ) - (a.m_group.m_xAxisOffset : ℚ) =
      ((ph - a.m_group.m_xAxisOffset : Int) : ℚ) := by
    push_cast
    ring
  have hstq : |((start * pdat.m_timescale : Int) : ℚ)| ≤ 2 ^ 20 := by
    have : ((|start * pdat.m_timescale| : Int) : ℚ) ≤ ((2 ^ 20 : Int) : ℚ) := by
      exact_mod_cast hst
    simpa using this
  have hpoq : |((ph - a.m_group.m_xAxisOffset : Int) : ℚ)| ≤ 2 ^ 20 := by
    have : ((|ph - a.m_group.m_xAxisOffset| : Int) : ℚ) ≤ ((2 ^ 20 : Int) : ℚ) := by
      exact_mod_cast hpo
    simpa using this
  have htotq : |((start * pdat.m_timescale + ph - a.m_group.m_xAxisOffset : Int) : ℚ)|
      ≤ 2 ^ 20 := by
    have : ((|start * pdat.m_timescale + ph - a.m_group.m_xAxisOffset| : Int) : ℚ) ≤
        ((2 ^ 20 : Int) : ℚ) := by exact_mod_cast htot
    simpa using this
  have hsplit : ((start * pdat.m_timescale + ph - a.m_group.m_xAxisOffset : Int) : ℚ) =
      ((start * pdat.m_timescale : Int) : ℚ) + ((ph - a.m_group.m_xAxisOffset : Int) : ℚ) := by
    push_cast
    ring
  unfold vertexX
  rw [hph, roundF32_intCast _ hts, roundF64_intCast _ hstart, roundF64_intCast _ hoff, e6,
    roundF64_intCast _ hpo53]
  generalize a.m_group.m_pixelsPerXUnit = P at hlo hP0 ⊢
  -- the product of the start and the rounded scale
  have hA : |(start : ℚ) * roundF32 ((pdat.m_timescale : ℚ) * P) -
      ((start * pdat.m_timescale : Int) : ℚ) * P| ≤ 1 / 16 * P := by
    rcases eq_or_ne pdat.m_timescale 0 with h0 | h0
    · rw [h0]
      simp [roundF32_zero]
      positivity
    · have hts1 : (1 : ℚ) ≤ |(pdat.m_timescale : ℚ)| := by
        have : (1 : Int) ≤ |pdat.m_timescale| := Int.one_le_abs h0
        have : ((1 : Int) : ℚ) ≤ ((|pdat.m_timescale| : Int) : ℚ) := by exact_mod_cast this
        simpa using this
      have herr := roundF32_error_of_le ((pdat.m_timescale : ℚ) * P) |(pdat.m_timescale : ℚ)| P
        hlo (le_trans (by norm_num) hts1) (by rw [abs_mul, abs_of_pos hP0])
      have heq : (start : ℚ) * roundF32 ((pdat.m_timescale : ℚ) * P) -
          ((start * pdat.m_timescale : Int) : ℚ) * P =
          (start : ℚ) * (roundF32 ((pdat.m_timescale : ℚ) * P) - (pdat.m_timescale : ℚ) * P) := by
        push_cast
        ring
      rw [heq, abs_mul]
      calc |(start : ℚ)| * |roundF32 ((pdat.m_timescale : ℚ) * P) - (pdat.m_timescale : ℚ) * P|
          ≤ |(start : ℚ)| * (|(pdat.m_timescale : ℚ)| / 2 ^ 24 * P) :=
            mul_le_mul_of_nonneg_left herr (abs_nonneg _)
        _ = |((start * pdat.m_timescale : Int) : ℚ)| / 2 ^ 24 * P := by
            push_cast
            rw [abs_mul]
            ring
        _ ≤ 2 ^ 20 / 2 ^ 24 * P :=
            mul_le_mul_of_nonneg_right (div_le_div_of_nonneg_right hstq (by positivity)) hP0.le
        _ = 1 / 16 * P := by norm_num
  have hσ : |((start * pdat.m_timescale : Int) : ℚ) * P| ≤ 2 ^ 20 * P := by
    rw [abs_mul, abs_of_pos hP0]
    exact mul_le_mul_of_nonneg_right hstq hP0.le
  have hg : |((ph - a.m_group.m_xAxisOffset : Int) : ℚ) * P| ≤ 2 ^ 20 * P := by
    rw [abs_mul, abs_of_pos hP0]
    exact mul_le_mul_of_nonneg_right hpoq hP0.le
  have hd : |((start * pdat.m_timescale + ph - a.m_group.m_xAxisOffset : Int) : ℚ) * P|
      ≤ 2 ^ 20 * P := by
    rw [abs_mul, abs_of_pos hP0]
    exact mul_le_mul_of_nonneg_right htotq hP0.le
  rw [hsplit, add_mul] at hd ⊢
  generalize ((start * pdat.m_timescale : Int) : ℚ) * P = σP at hA hσ hd ⊢
  generalize ((ph - a.m_group.m_xAxisOffset : Int) : ℚ) * P = gP at hg hd ⊢
  generalize (start : ℚ) * roundF32 ((pdat.m_timescale : ℚ) * P) = sA at hA ⊢
  obtain ⟨hA1, hA2⟩ := abs_le.mp hA
  obtain ⟨hσ1, hσ2⟩ := abs_le.mp hσ
  obtain ⟨hg1, hg2⟩ := abs_le.mp hg
  obtain ⟨hd1, hd2⟩ := abs_le.mp hd
  -- `double` product of the start and the scale
  have hsA : |sA| ≤ (2 ^ 20 + 1) * P := abs_le.mpr ⟨by linarith, by linarith⟩
  have hB := roundF64_error_of_le sA (2 ^ 20 + 1) P hlo (by norm_num) hsA
  obtain ⟨hB1, hB2⟩ := abs_le.mp hB
  -- `xoff`: the `double` product rounded to `float`
  have hC := roundF64_error_of_le gP (2 ^ 20) P hlo (by norm_num) hg
  obtain ⟨hC1, hC2⟩ := abs_le.mp hC
  have hCabs : |roundF64 gP| ≤ (2 ^ 20 + 1) * P := abs_le.mpr ⟨by linarith, by linarith⟩
  have hD := roundF32_error_of_le (roundF64 gP) (2 ^ 20 + 1) P hlo (by norm_num) hCabs
  obtain ⟨hD1, hD2⟩ := abs_le.mp hD
  -- the `double` sum and its store as `float`
  have hsum : |roundF64 sA + roundF32 (roundF64 gP)| ≤ (2 ^ 20 + 1) * P :=
    abs_le.mpr ⟨by linarith, by linarith⟩
  have hS := roundF64_error_of_le (roundF64 sA + roundF32 (roundF64 gP)) (2 ^ 20 + 1) P hlo
    (by norm_num) hsum
  obtain ⟨hS1, hS2⟩ := abs_le.mp hS
  obtain ⟨hsum1, hsum2⟩ := abs_le.mp hsum
  have hSabs : |roundF64 (roundF64 sA + roundF32 (roundF64 gP))| ≤ (2 ^ 20 + 2) * P :=
    abs_le.mpr ⟨by linarith, by linarith⟩
  have hV := roundF32_error_of_le (roundF64 (roundF64 sA + roundF32 (roundF64 gP)))
    (2 ^ 20 + 2) P hlo (by norm_num) hSabs
  obtain ⟨hV1, hV2⟩ := abs_le.mp hV
  exact abs_le.mpr ⟨by linarith, by linarith⟩

/-- At any scale of at least `2^-100` the pixel position of a time `t` at most `2^20` away from
the axis offset is within a sixteenth of the scale of `(t - offset) * m_pixelsPerXUnit`. -/
theorem XAxisUnitsToXPosition_near (a : State) (t : Int)
    (hlo : (2 : ℚ) ^ (-100 : Int) ≤ a.m_group.m_pixelsPerXUnit)
    (ht : |t - a.m_group.m_xAxisOffset| ≤ 2 ^ 20) :
    |XAxisUnitsToXPosition a t -
        ((t - a.m_group.m_xAxisOffset : Int) : ℚ) * a.m_group.m_pixelsPerXUnit|
      ≤ 1 / 16 * a.m_group.m_pixelsPerXUnit := by
  have hP0 : (0 : ℚ) < a.m_group.m_pixelsPerXUnit := lt_of_lt_of_le (by positivity) hlo
  have htq : |((t - a.m_group.m_xAxisOffset : Int) : ℚ)| ≤ 2 ^ 20 := by
    have : ((|t - a.m_group.m_xAxisOffset| : Int) : ℚ) ≤ ((2 ^ 20 : Int) : ℚ) := by
      exact_mod_cast ht
    simpa using this
  unfold XAxisUnitsToXPosition XAxisUnitsToPixels
  rw [roundF32_intCast _ (by omega)]
  have herr := roundF32_error_of_le
    (((t - a.m_group.m_xAxisOffset : Int) : ℚ) * a.m_group.m_pixelsPerXUnit) (2 ^ 20)
    a.m_group.m_pixelsPerXUnit hlo (by norm_num)
    (by rw [abs_mul, abs_of_pos hP0]; exact mul_le_mul_of_nonneg_right htq hP0.le)
  calc _ ≤ (2 : ℚ) ^ 20 / 2 ^ 24 * a.m_group.m_pixelsPerXUnit := herr
    _ = 1 / 16 * a.m_group.m_pixelsPerXUnit := by norm_num

/-- Source function `RenderTrace` issues nothing but compute dispatches. -/
theorem RenderTrace_dispatch (a : State) (data : WaveformRenderData) :
    ∀ x ∈ RenderTrace a data, ∃ channel numGroups, x = GLCmd.dispatchCompute channel numGroups := by
  intro x hx
  unfold RenderTrace at hx
  split_ifs at hx
  · cases hx
  · simp only [List.mem_singleton] at hx
    exact ⟨_, _, hx⟩

/-- The overlay loop of a frame returns, whatever the state; it leaves the main render data alone
and issues nothing but compute dispatches. -/
theorem renderDigitalOverlays_some (c : Collaborators) (overlays : List OscilloscopeChannel) :
    ∀ a : State, ∃ a' cmds, renderDigitalOverlays c overlays a = some (a', cmds) ∧
      a'.m_waveformRenderData = a.m_waveformRenderData ∧
      (∀ x ∈ cmds, ∃ channel numGroups, x = GLCmd.dispatchCompute channel numGroups) := by
  induction overlays with
  | nil =>
    intro a
    exact ⟨a, [], rfl, rfl, fun x hx => absurd hx (List.not_mem_nil x)⟩
  | cons overlay rest ih =>
    intro a
    by_cases ht : overlay.type = ChannelType.CHANNEL_TYPE_DIGITAL
    · obtain ⟨wd, hwd, _, _⟩ := PrepareGeometry_some c a
        { (a.m_overlayRenderData.lookup overlay.id).getD (WaveformRenderData.new overlay) with
          m_channel := overlay, m_waveformTexture := some (a.m_width, a.m_height) }
      dsimp only at hwd
      obtain ⟨a', cmds, h1, h2, h3⟩ :=
        ih { a with m_overlayRenderData := mapSet overlay.id wd a.m_overlayRenderData,
                    m_overlayPositions := insertOverlayPosition a overlay }
      refine ⟨a', RenderTrace
        { a with m_overlayRenderData := mapSet overlay.id wd a.m_overlayRenderData,
                   m_overlayPositions := insertOverlayPosition a overlay } wd ++ cmds,
        ?_, h2, ?_⟩
      · simp only [renderDigitalOverlays, ht, ne_eq, not_true_eq_false, if_false, hwd, h1]
      · intro x hx
        rcases List.mem_append.mp hx with h | h
        · exact RenderTrace_dispatch _ _ x h
        · exact h3 x h
    · obtain ⟨a', cmds, h1, h2, h3⟩ := ih a
      refine ⟨a', cmds, ?_, h2, h3⟩
      simp only [renderDigitalOverlays, ne_eq, ht, not_false_eq_true, if_true, h1]

/-- The main trace of a frame issues nothing but compute dispatches. -/
theorem renderMainGeometry_dispatch (c : Collaborators) (a a' : State) (cmds : List GLCmd)
    (h : renderMainGeometry c a = some (a', cmds)) :
    ∀ x ∈ cmds, ∃ channel numGroups, x = GLCmd.dispatchCompute channel numGroups := by
  unfold renderMainGeometry at h
  split_ifs at h
  · split at h
    · cases h
    · cases h
      exact RenderTrace_dispatch _ _
  · cases h
    intro x hx
    cases hx

/-- The shape of a frame: it returns, its commands are those of the main trace, those of the
overlay loop, the memory barrier, the binding of the window framebuffer and the four compositing
passes in program order, and the main render data is the one the main trace left. -/
theorem on_render_frame (c : Collaborators) (a : State) :
    ∃ a1 mainCmds a2 overlayCmds,
      renderMainGeometry c (beginFrame a) = some (a1, mainCmds) ∧
      on_render c a = some (a2,
        mainCmds ++ overlayCmds ++ [GLCmd.memoryBarrier, GLCmd.bindWindowFramebuffer]
          ++ RenderCairoUnderlays ++ RenderMainTrace a2 ++ RenderOverlayTraces a2
          ++ RenderCairoOverlays) ∧
      a2.m_waveformRenderData = a1.m_waveformRenderData ∧
      (∀ x ∈ mainCmds ++ overlayCmds,
        ∃ channel numGroups, x = GLCmd.dispatchCompute channel numGroups) := by
  obtain ⟨a1, mainCmds, hm, _⟩ := renderMainGeometry_some c (beginFrame a)
  obtain ⟨a2, overlayCmds, h1, h2, h3⟩ :=
    renderDigitalOverlays_some c (computeCairoLayers c a1).m_overlays (computeCairoLayers c a1)
  refine ⟨a1, mainCmds, a2, overlayCmds, hm, ?_, h2, ?_⟩
  · unfold on_render
    rw [hm]
    dsimp only
    rw [h1]
  · intro x hx
    rcases List.mem_append.mp hx with h | h
    · exact renderMainGeometry_dispatch c _ _ _ hm x h
    · exact h3 x h

/-- On an analog channel the main render data after a frame is what `PrepareGeometry` returns
for the state at the head of the frame. -/
theorem on_render_main_geometry (c : Collaborators) (a : State) (han : a.isAnalog = true) :
    ∃ wd a' cmds, PrepareGeometry c (beginFrame a) a.m_waveformRenderData = some wd ∧
      on_render c a = some (a', cmds) ∧ a'.m_waveformRenderData = wd := by
  obtain ⟨wd, hwd, _, _⟩ := PrepareGeometry_some c (beginFrame a) a.m_waveformRenderData
  obtain ⟨a1, mainCmds, a2, overlayCmds, hm, hrun, hdata, _⟩ := on_render_frame c a
  refine ⟨wd, a2, _, hwd, hrun, ?_⟩
  have han' : (beginFrame a).isAnalog = true := han
  have hwd' : PrepareGeometry c (beginFrame a) (beginFrame a).m_waveformRenderData = some wd :=
    hwd
  unfold renderMainGeometry at hm
  rw [if_pos han', hwd'] at hm
  cases hm
  exact hdata

/-- The vertex buffer of the scenario, as `PrepareGeometry` computes it at 300 pixels per volt. -/
theorem scenario_geometry (c : Collaborators) :
    ∃ a' cmds, on_render c scenario = some (a', cmds) ∧
      a'.m_waveformRenderData.m_waveformStorageBuffer = [0, 600, 100, 0] ∧
      buildIndexBuffer [0, 600, 100, 0] 2 800 =
        some a'.m_waveformRenderData.m_waveformIndexBuffer := by
  obtain ⟨wd, a', cmds, hwd, hrun, hmain⟩ := on_render_main_geometry c scenario rfl
  obtain ⟨wd', hwd', _, hbuf, hidx⟩ := PrepareGeometry_analog c (beginFrame scenario)
    scenario.m_waveformRenderData sceneCapture [(0, 1), (100, -1)] rfl rfl (by decide)
  rw [hwd] at hwd'
  cases hwd'
  have hppx : (beginFrame scenario).m_group.m_pixelsPerXUnit = (2 : ℚ) ^ (0 : Int) := by
    norm_num [beginFrame, scenario]
  have hx0 : vertexX (beginFrame scenario) sceneCapture 0 = 0 := by
    rw [vertexX_exact (beginFrame scenario) sceneCapture 0 0 0 hppx (by norm_num)
      (by norm_num [sceneCapture]) (by norm_num [sceneCapture]) (by norm_num)
      (by norm_num [beginFrame, scenario]) (by norm_num [beginFrame, scenario])
      (by norm_num [beginFrame, scenario, sceneCapture])]
    norm_num [beginFrame, scenario, sceneCapture]
  have hx100 : vertexX (beginFrame scenario) sceneCapture 100 = 100 := by
    rw [vertexX_exact (beginFrame scenario) sceneCapture 100 0 0 hppx (by norm_num)
      (by norm_num [sceneCapture]) (by norm_num [sceneCapture]) (by norm_num)
      (by norm_num [beginFrame, scenario]) (by norm_num [beginFrame, scenario])
      (by norm_num [beginFrame, scenario, sceneCapture])]
    norm_num [beginFrame, scenario, sceneCapture]
  have hvb : wd.m_waveformStorageBuffer = [0, 600, 100, 0] := by
    rw [hbuf]
    simp only [vertexBuffer, hx0, hx100]
    norm_num [beginFrame, scenario, scenarioChannel, WaveformRenderData.new, Int.tdiv]
  refine ⟨a', cmds, hrun, by rw [hmain, hvb], ?_⟩
  rw [hmain, ← hvb]
  exact hidx

/-- Claim C11, as amended. In the scenario (viewport 800 x 600, one pixel per time unit, axis
offset 0, timescale 1, trigger phase 0, channel offset 0, voltage range 2 V) the frame sets
`m_pixelsPerVolt` to 300 and the vertex buffer built by `PrepareGeometry` for the capture
`[(t=0, v=1), (t=100, v=-1)]` places sample 0 at pixel x = 0, y = 600 and sample 1 at pixel
x = 100, y = 0. -/
theorem scenario_vertices (c : Collaborators) :
    (beginFrame scenario).m_pixelsPerVolt = 300 ∧
    ∃ a' cmds, on_render c scenario = some (a', cmds) ∧
      a'.m_waveformRenderData.m_waveformStorageBuffer = [0, 600, 100, 0] ∧
      sampleX a'.m_waveformRenderData.m_waveformStorageBuffer 0 = 0 ∧
      a'.m_waveformRenderData.m_waveformStorageBuffer[1]? = some 600 ∧
      sampleX a'.m_waveformRenderData.m_waveformStorageBuffer 1 = 100 ∧
      a'.m_waveformRenderData.m_waveformStorageBuffer[3]? = some 0 := by
  refine ⟨by norm_num [beginFrame, scenario, scenarioChannel], ?_⟩
  obtain ⟨a', cmds, hrun, hbuf, _⟩ := scenario_geometry c
  refine ⟨a', cmds, hrun, hbuf, ?_, ?_, ?_, ?_⟩ <;> rw [hbuf] <;> norm_num [sampleX]

/-- Counterexample to C11 as stated: in the scenario the vertex of sample 0 has y = 600, the
baseline 300 plus 300 times 1 V, and not y = 300. -/
theorem scenario_sample0_y_is_600 :
    ∃ a' cmds, on_render sceneCollaborators scenario = some (a', cmds) ∧
      a'.m_waveformRenderData.m_waveformStorageBuffer[1]? = some 600 ∧ (600 : ℚ) ≠ 300 := by
  obtain ⟨a', cmds, hrun, hbuf, _⟩ := scenario_geometry sceneCollaborators
  refine ⟨a', cmds, hrun, ?_, by norm_num⟩
  rw [hbuf]
  rfl

/-- Claim C12, as amended. In the scenario the column index built by `PrepareGeometry` has 800
entries; it holds sample 0 for the columns 0 to 100 and the sentinel 2 for the columns 101 to
799; no column holds sample 1. -/
theorem scenario_column_index (c : Collaborators) :
    ∃ a' cmds, on_render c scenario = some (a', cmds) ∧
      a'.m_waveformRenderData.m_waveformIndexBuffer.length = 800 ∧
      (∀ j : Nat, j ≤ 100 → a'.m_waveformRenderData.m_waveformIndexBuffer[j]? = some 0) ∧
      (∀ j : Nat, 100 < j → j < 800 →
        a'.m_waveformRenderData.m_waveformIndexBuffer[j]? = some 2) ∧
      (∀ j : Nat, a'.m_waveformRenderData.m_waveformIndexBuffer[j]? ≠ some 1) := by
  obtain ⟨a', cmds, hrun, _, hidx⟩ := scenario_geometry c
  obtain ⟨hlen, cover⟩ := buildIndexBuffer_cover [0, 600, 100, 0] 2 800 (by decide) rfl hidx
  have hx1 : sampleX [0, 600, 100, 0] 1 = 100 := by norm_num [sampleX]
  have low : ∀ j : Nat, j ≤ 100 → IsFirstCover [0, 600, 100, 0] 2 j 0 := by
    intro j hj
    refine Or.inl ⟨by decide, ?_, fun m hm => absurd hm (Nat.not_lt_zero m)⟩
    rw [hx1]
    exact_mod_cast hj
  have high : ∀ j : Nat, 100 < j → IsFirstCover [0, 600, 100, 0] 2 j 2 := by
    intro j hj
    refine Or.inr ⟨rfl, ?_⟩
    intro n hn
    have hn0 : n = 0 := by omega
    rw [hn0, hx1]
    exact_mod_cast hj
  refine ⟨a', cmds, hrun, hlen, ?_, ?_, ?_⟩
  · intro j hj
    obtain ⟨w, hw⟩ := entry_of_lt_length
      (by omega : j < a'.m_waveformRenderData.m_waveformIndexBuffer.length)
    rw [hw, IsFirstCover.unique (cover j w hw) (low j hj)]
  · intro j hlo hhi
    obtain ⟨w, hw⟩ := entry_of_lt_length
      (by omega : j < a'.m_waveformRenderData.m_waveformIndexBuffer.length)
    rw [hw, IsFirstCover.unique (cover j w hw) (high j hlo)]
  · intro j hj
    rcases cover j 1 hj with ⟨h, _, _⟩ | ⟨h, _⟩ <;> omega

/-- Counterexample to C12 as stated: in the scenario column 100 holds sample 0 and column 799
holds the sentinel 2; neither holds sample 1. -/
theorem scenario_column_100_and_799 :
    ∃ a' cmds, on_render sceneCollaborators scenario = some (a', cmds) ∧
      a'.m_waveformRenderData.m_waveformIndexBuffer[100]? = some 0 ∧
      a'.m_waveformRenderData.m_waveformIndexBuffer[799]? = some 2 ∧
      (0 : Nat) ≠ 1 ∧ (2 : Nat) ≠ 1 := by
  obtain ⟨a', cmds, hrun, _, hidx⟩ := scenario_geometry sceneCollaborators
  obtain ⟨hlen, cover⟩ := buildIndexBuffer_cover [0, 600, 100, 0] 2 800 (by decide) rfl hidx
  have hx1 : sampleX [0, 600, 100, 0] 1 = 100 := by norm_num [sampleX]
  refine ⟨a', cmds, hrun, ?_, ?_, by decide, by decide⟩
  · obtain ⟨w, hw⟩ := entry_of_lt_length
      (by omega : 100 < a'.m_waveformRenderData.m_waveformIndexBuffer.length)
    have hfc : IsFirstCover [0, 600, 100, 0] 2 100 0 := by
      refine Or.inl ⟨by decide, ?_, fun m hm => absurd hm (Nat.not_lt_zero m)⟩
      rw [hx1]
      norm_num
    rw [hw, IsFirstCover.unique (cover 100 w hw) hfc]
  · obtain ⟨w, hw⟩ := entry_of_lt_length
      (by omega : 799 < a'.m_waveformRenderData.m_waveformIndexBuffer.length)
    have hfc : IsFirstCover [0, 600, 100, 0] 2 799 2 := by
      refine Or.inr ⟨rfl, ?_⟩
      intro n hn
      have hn0 : n = 0 := by omega
      rw [hn0, hx1]
      norm_num
    rw [hw, IsFirstCover.unique (cover 799 w hw) hfc]

/-- Source function `RenderTraceColorCorrection` issues nothing but the draw of its channel. -/
theorem RenderTraceColorCorrection_draw (data : WaveformRenderData) :
    ∀ x ∈ RenderTraceColorCorrection data,
      x = GLCmd.drawArrays (DrawPass.traceColorCorrection data.m_channel.id) := by
  intro x hx
  unfold RenderTraceColorCorrection at hx
  split_ifs at hx
  · cases hx
  · simpa using hx

/-- Source function `RenderMainTrace` issues nothing but the draw of the main trace, of the eye
or of the waterfall. -/
theorem RenderMainTrace_draw (a : State) :
    ∀ x ∈ RenderMainTrace a,
      x = GLCmd.drawArrays (DrawPass.traceColorCorrection a.m_waveformRenderData.m_channel.id) ∨
      x = GLCmd.drawArrays DrawPass.eye ∨ x = GLCmd.drawArrays DrawPass.waterfall := by
  intro x hx
  unfold RenderMainTrace at hx
  split_ifs at hx
  · unfold RenderEye at hx
    split_ifs at hx
    · cases hx
    · split at hx
      · exact Or.inr (Or.inl (by simpa using hx))
      · cases hx
  · unfold RenderWaterfall at hx
    split_ifs at hx
    · cases hx
    · split at hx
      · exact Or.inr (Or.inr (by simpa using hx))
      · cases hx
  · exact Or.inl (RenderTraceColorCorrection_draw _ x hx)

/-- Source function `RenderOverlayTraces` issues nothing but draws of overlay traces. -/
theorem renderOverlayData_draw (m : List (ChannelId × WaveformRenderData)) :
    ∀ x ∈ renderOverlayData m,
      ∃ channel, x = GLCmd.drawArrays (DrawPass.traceColorCorrection channel) := by
  induction m with
  | nil =>
    intro x hx
    cases hx
  | cons kv rest ih =>
    obtain ⟨k, data⟩ := kv
    intro x hx
    simp only [renderOverlayData] at hx
    rcases List.mem_append.mp hx with h | h
    · exact ⟨_, RenderTraceColorCorrection_draw data x h⟩
    · exact ih x h

/-- Claim C18. Every frame returns, and its command sequence is: compute dispatches only (those
of `RenderTrace` for the main trace and for the digital overlays), then the memory barrier, then
the binding of the window framebuffer and the compositing draws in the order underlay, main trace
(or eye or waterfall), overlay traces, overlay decoration. So every compute dispatch comes before
the memory barrier and every compositing draw after it. -/
theorem on_render_command_order (c : Collaborators) (a : State) :
    ∃ a' dispatches main overlays,
      on_render c a = some (a',
        dispatches ++ [GLCmd.memoryBarrier, GLCmd.bindWindowFramebuffer]
          ++ [GLCmd.drawArrays DrawPass.cairoUnderlay] ++ main ++ overlays
          ++ [GLCmd.bindWindowFramebuffer, GLCmd.drawArrays DrawPass.cairoOverlay]) ∧
      (∀ x ∈ dispatches, ∃ channel numGroups, x = GLCmd.dispatchCompute channel numGroups) ∧
      main = RenderMainTrace a' ∧
      (∀ x ∈ main,
        x = GLCmd.drawArrays
          (DrawPass.traceColorCorrection a'.m_waveformRenderData.m_channel.id) ∨
        x = GLCmd.drawArrays DrawPass.eye ∨ x = GLCmd.drawArrays DrawPass.waterfall) ∧
      overlays = RenderOverlayTraces a' ∧
      (∀ x ∈ overlays, ∃ channel, x = GLCmd.drawArrays (DrawPass.traceColorCorrection channel)) := by
  obtain ⟨a1, mainCmds, a2, overlayCmds, _, hrun, _, hdisp⟩ := on_render_frame c a
  exact ⟨a2, mainCmds ++ overlayCmds, RenderMainTrace a2, RenderOverlayTraces a2, hrun, hdisp,
    rfl, RenderMainTrace_draw a2, rfl, renderOverlayData_draw a2.m_overlayRenderData⟩

/-- Example for C18: the frame of the scene with two digital overlays, resized to 1024 x 768. -/
theorem on_render_command_order_scene :
    ∃ a' dispatches main overlays,
      on_render sceneCollaborators (on_resize sceneResize 1024 768) = some (a',
        dispatches ++ [GLCmd.memoryBarrier, GLCmd.bindWindowFramebuffer]
          ++ [GLCmd.drawArrays DrawPass.cairoUnderlay] ++ main ++ overlays
          ++ [GLCmd.bindWindowFramebuffer, GLCmd.drawArrays DrawPass.cairoOverlay]) ∧
      (∀ x ∈ dispatches, ∃ channel numGroups, x = GLCmd.dispatchCompute channel numGroups) ∧
      main = RenderMainTrace a' ∧
      (∀ x ∈ main,
        x = GLCmd.drawArrays
          (DrawPass.traceColorCorrection a'.m_waveformRenderData.m_channel.id) ∨
        x = GLCmd.drawArrays DrawPass.eye ∨ x = GLCmd.drawArrays DrawPass.waterfall) ∧
      overlays = RenderOverlayTraces a' ∧
      (∀ x ∈ overlays, ∃ channel, x = GLCmd.drawArrays (DrawPass.traceColorCorrection channel)) :=
  on_render_command_order sceneCollaborators (on_resize sceneResize 1024 768)

/-- The bitwise or of an odd natural number with 1 is the number. -/
theorem odd_lor_one (n : Nat) (h : n % 2 = 1) : n ||| 1 = n := by
  apply Nat.eq_of_testBit_eq
  intro i
  rw [Nat.testBit_or]
  cases i with
  | zero => simp [Nat.testBit_zero, h]
  | succ i => simp [Nat.testBit_succ]

/-- Claim C19. For every non-negative plot width `w`, `RenderTrace` with valid geometry issues
one dispatch of `n = ceil(w / 2)` work groups: `n * 2` is at least `w`, exceeds it by less than
one block of 2, and is the least multiple of 2 that is at least `w`. -/
theorem RenderTrace_numGroups (a : State) (data : WaveformRenderData)
    (hok : data.m_geometryOK = true) (hw : 0 ≤ a.m_plotRight) :
    ∃ n : Int, RenderTrace a data = [GLCmd.dispatchCompute data.m_channel.id n] ∧
      n = (a.m_plotRight + 1) / 2 ∧
      a.m_plotRight ≤ n * 2 ∧ n * 2 < a.m_plotRight + 2 ∧
      ∀ k : Int, a.m_plotRight ≤ k * 2 → n * 2 ≤ k * 2 := by
  obtain ⟨m, hm⟩ : ∃ m : Nat, a.m_plotRight = (m : Int) :=
    ⟨a.m_plotRight.toNat, (Int.toNat_of_nonneg hw).symm⟩
  have hmod : Int.tmod (m : Int) 2 = ((m % 2 : Nat) : Int) := (Int.ofNat_tmod m 2).symm
  have htd : ∀ k : Nat, Int.tdiv (k : Int) 2 = ((k / 2 : Nat) : Int) :=
    fun k => (Int.ofNat_tdiv k 2).symm
  rcases Nat.mod_two_eq_zero_or_one m with h0 | h1
  · refine ⟨((m / 2 : Nat) : Int), ?_, ?_, ?_, ?_, ?_⟩
    · simp only [RenderTrace, hok, hm, hmod, h0, htd]
      simp only [Bool.not_true, Bool.false_eq_true, if_false, Nat.cast_zero, ne_eq,
        not_true_eq_false]
      rw [htd]
    all_goals rw [hm]
    all_goals omega
  · refine ⟨(((m + 1) / 2 : Nat) : Int), ?_, ?_, ?_, ?_, ?_⟩
    · have hlor : Int.lor (m : Int) (2 - 1) = (m : Int) := by
        show ((m ||| 1 : Nat) : Int) = (m : Int)
        rw [odd_lor_one m h1]
      have hsucc : (m : Int) + 1 = ((m + 1 : Nat) : Int) := by push_cast; rfl
      simp only [RenderTrace, hok, hm, hmod, h1, hlor, hsucc, htd]
      simp only [Bool.not_true, Bool.false_eq_true, if_false, Nat.cast_one, ne_eq]
      rw [if_pos (by decide), htd]
    all_goals rw [hm]
    all_goals omega

/-- Witness for C19: a plot 7 columns wide gets 4 work groups. -/
theorem RenderTrace_numGroups_witness :
    ((sceneEmptyRenderData.m_geometryOK = true) ∧
      (0 : Int) ≤ ({ scene with m_plotRight := 7 } : State).m_plotRight) ∧
    ∃ n : Int, RenderTrace { scene with m_plotRight := 7 } sceneEmptyRenderData =
        [GLCmd.dispatchCompute sceneEmptyRenderData.m_channel.id n] ∧
      n = (({ scene with m_plotRight := 7 } : State).m_plotRight + 1) / 2 ∧
      ({ scene with m_plotRight := 7 } : State).m_plotRight ≤ n * 2 ∧
      n * 2 < ({ scene with m_plotRight := 7 } : State).m_plotRight + 2 ∧
      ∀ k : Int, ({ scene with m_plotRight := 7 } : State).m_plotRight ≤ k * 2 → n * 2 ≤ k * 2 :=
  ⟨⟨rfl, by decide⟩,
    RenderTrace_numGroups { scene with m_plotRight := 7 } sceneEmptyRenderData rfl (by decide)⟩

/-! ## Properties of scrolling, cursors, release and the eye time scale -/

/-- A hit test that lands outside every channel name leaves the state as it was. -/
theorem HitTest_state_of_not_name (a : State) (x y : ℚ)
    (h : (HitTest a x y).1 ≠ ClickLocation.LOC_CHAN_NAME) : (HitTest a x y).2 = a := by
  cases hsome : hitOverlayBox x y (labelBoxes a) with
  | none => rw [HitTest_of_no_label hsome]
  | some channel =>
    rw [HitTest_of_label hsome] at h
    exact absurd rfl h

/-- The location a hit test returns does not depend on the channel selected before. -/
theorem HitTest_location_selected (a : State) (selected : ChannelId) (x y : ℚ) :
    (HitTest { a with m_selectedChannel := selected } x y).1 = (HitTest a x y).1 := by
  have hlab : labelBoxes { a with m_selectedChannel := selected } = labelBoxes a := rfl
  cases hsome : hitOverlayBox x y (labelBoxes a) with
  | none =>
    rw [HitTest_of_no_label hsome,
      @HitTest_of_no_label { a with m_selectedChannel := selected } x y (hlab ▸ hsome)]
    rfl
  | some channel =>
    rw [HitTest_of_label hsome,
      @HitTest_of_label { a with m_selectedChannel := selected } x y channel (hlab ▸ hsome)]

/-- Claim C13. For every state, whatever the voltage range `r` of its channel, and every scroll
event whose position hit-tests as the vertical scale: scrolling up sets the range to `r * 9/10`
and scrolling down to `r / (9/10)`, both leave the geometry dirty, and every other direction
leaves the range as it was. -/
theorem on_scroll_event_vscale (c : Collaborators) (a : State) (ev : GdkEventScroll)
    (hloc : (HitTest a ev.x ev.y).1 = ClickLocation.LOC_VSCALE) :
    (ev.direction = GdkScrollDirection.GDK_SCROLL_UP →
      (on_scroll_event c a ev).m_channel.voltageRange = a.m_channel.voltageRange * (9 / 10) ∧
      (on_scroll_event c a ev).m_geometryDirty = true) ∧
    (ev.direction = GdkScrollDirection.GDK_SCROLL_DOWN →
      (on_scroll_event c a ev).m_channel.voltageRange = a.m_channel.voltageRange / (9 / 10) ∧
      (on_scroll_event c a ev).m_geometryDirty = true) ∧
    (ev.direction ≠ GdkScrollDirection.GDK_SCROLL_UP →
      ev.direction ≠ GdkScrollDirection.GDK_SCROLL_DOWN →
      (on_scroll_event c a ev).m_channel.voltageRange = a.m_channel.voltageRange) := by
  have hstate : (HitTest a ev.x ev.y).2 = a :=
    HitTest_state_of_not_name a ev.x ev.y (by rw [hloc]; decide)
  refine ⟨?_, ?_, ?_⟩
  · intro hdir
    simp [on_scroll_event, hloc, hstate, hdir, SetGeometryDirty]
  · intro hdir
    simp [on_scroll_event, hloc, hstate, hdir, SetGeometryDirty]
  · intro hup hdown
    cases hd : ev.direction
    · exact absurd hd hup
    · exact absurd hd hdown
    all_goals simp [on_scroll_event, hloc, hstate, hd]

/-- Witness for C13: in the scene with a 5 V range, scrolling at (750, 400) in the gutter gives
4.5 V upward and 50/9 V downward. -/
theorem on_scroll_event_vscale_witness :
    (HitTest sceneRange5 750 400).1 = ClickLocation.LOC_VSCALE ∧
    sceneRange5.m_channel.voltageRange = 5 ∧
    (on_scroll_event sceneCollaborators sceneRange5
      (scrollAt 750 400 GdkScrollDirection.GDK_SCROLL_UP)).m_channel.voltageRange = 9 / 2 ∧
    (on_scroll_event sceneCollaborators sceneRange5
      (scrollAt 750 400 GdkScrollDirection.GDK_SCROLL_DOWN)).m_channel.voltageRange = 50 / 9 := by
  have hloc : (HitTest sceneRange5 750 400).1 = ClickLocation.LOC_VSCALE := by
    norm_num [HitTest, sceneRange5, scene, Rect.HitTest, hitOverlayBox, onTriggerHandle,
      VoltsToYPosition, VoltsToPixels, sceneChannel, Int.tdiv]
  have hr : sceneRange5.m_channel.voltageRange = 5 := rfl
  have hup := ((on_scroll_event_vscale sceneCollaborators sceneRange5
    (scrollAt 750 400 GdkScrollDirection.GDK_SCROLL_UP) hloc).1 rfl).1
  have hdown := ((on_scroll_event_vscale sceneCollaborators sceneRange5
    (scrollAt 750 400 GdkScrollDirection.GDK_SCROLL_DOWN) hloc).2.1 rfl).1
  rw [hr] at hup hdown
  exact ⟨hloc, hr, by rw [hup]; norm_num, by rw [hdown]; norm_num⟩

/-- Claim C14. For every state and every single press of the left button that hit-tests as the
plot while the cursor mode of the group is dual, both cursors are set to the time `t` of the
pointer, `XPositionToXAxisUnits(event->x)`, and the drag state becomes `DRAG_CURSOR`. -/
theorem on_button_press_event_dual_cursor (c : Collaborators) (a : State)
    (event : GdkEventButton) (htype : event.type = GdkEventType.GDK_BUTTON_PRESS)
    (hbutton : event.button = 1)
    (hloc : (HitTest a event.x event.y).1 = ClickLocation.LOC_PLOT)
    (hdual : a.m_group.m_cursorConfig = CursorConfig.CURSOR_X_DUAL) :
    (on_button_press_event c a event).m_group.m_xCursorPos0 = XPositionToXAxisUnits a event.x ∧
    (on_button_press_event c a event).m_group.m_xCursorPos1 = XPositionToXAxisUnits a event.x ∧
    (on_button_press_event c a event).m_dragState = DragState.DRAG_CURSOR := by
  have hloc' : (HitTest { a with m_selectedChannel := a.m_channel.id } event.x event.y).1 =
      ClickLocation.LOC_PLOT := by
    rw [HitTest_location_selected, hloc]
  have hstate := HitTest_state_of_not_name { a with m_selectedChannel := a.m_channel.id }
    event.x event.y (by rw [hloc']; decide)
  simp [on_button_press_event, hloc', hstate, htype, OnSingleClick, hbutton, hdual,
    XPositionToXAxisUnits, PixelsToXAxisUnits]

/-- Witness for C14: in the scenario a left press at pixel (500, 300) is at time 500. -/
theorem on_button_press_event_dual_cursor_witness :
    ((leftPress 500 300).type = GdkEventType.GDK_BUTTON_PRESS ∧ (leftPress 500 300).button = 1 ∧
      (HitTest scenario (leftPress 500 300).x (leftPress 500 300).y).1 = ClickLocation.LOC_PLOT ∧
      scenario.m_group.m_cursorConfig = CursorConfig.CURSOR_X_DUAL ∧
      XPositionToXAxisUnits scenario (leftPress 500 300).x = 500) ∧
    (on_button_press_event sceneCollaborators scenario (leftPress 500 300)).m_group.m_xCursorPos0
      = 500 ∧
    (on_button_press_event sceneCollaborators scenario (leftPress 500 300)).m_group.m_xCursorPos1
      = 500 ∧
    (on_button_press_event sceneCollaborators scenario (leftPress 500 300)).m_dragState
      = DragState.DRAG_CURSOR := by
  have hloc : (HitTest scenario (leftPress 500 300).x (leftPress 500 300).y).1 =
      ClickLocation.LOC_PLOT := by
    norm_num [HitTest, scenario, leftPress, Rect.HitTest, hitOverlayBox]
  have ht : XPositionToXAxisUnits scenario (leftPress 500 300).x = 500 := by
    have h := truncToInt_intCast 500
    norm_num at h
    have h500 : roundF32 500 = 500 := by
      have h' := roundF32_intCast 500 (by norm_num)
      norm_num at h'
      exact h'
    norm_num [XPositionToXAxisUnits, PixelsToXAxisUnits, scenario, leftPress, h500, h]
  obtain ⟨h0, h1, h2⟩ := on_button_press_event_dual_cursor sceneCollaborators scenario
    (leftPress 500 300) rfl rfl hloc rfl
  exact ⟨⟨rfl, rfl, hloc, rfl, ht⟩, h0.trans ht, h1.trans ht, h2⟩

/-- The handle of the trigger is only ever hit when the area has a scope. -/
theorem onTriggerHandle_scope (a : State) (x y : ℚ) (h : onTriggerHandle a x y = true) :
    a.m_scope ≠ none := by
  unfold onTriggerHandle at h
  cases hs : a.m_scope with
  | none =>
    rw [hs] at h
    cases h
  | some scope => simp

/-- A hit test leaves the scope and the drag state alone, and returns `LOC_TRIGGER` only when the
area has a scope. -/
theorem HitTest_scope_drag (a : State) (x y : ℚ) :
    (HitTest a x y).2.m_scope = a.m_scope ∧ (HitTest a x y).2.m_dragState = a.m_dragState ∧
    ((HitTest a x y).1 = ClickLocation.LOC_TRIGGER → a.m_scope ≠ none) := by
  cases hsome : hitOverlayBox x y (labelBoxes a) with
  | none =>
    rw [HitTest_of_no_label hsome]
    refine ⟨rfl, rfl, ?_⟩
    intro h
    by_cases hh : onTriggerHandle a x y = true
    · exact onTriggerHandle_scope a x y hh
    · split_ifs at h
  | some channel =>
    rw [HitTest_of_label hsome]
    refine ⟨rfl, rfl, ?_⟩
    intro h
    cases h

/-- A press never starts a trigger drag in an area without a scope: when every trigger drag had
a scope before the press, every trigger drag has one after it. -/
theorem on_button_press_event_trigger_drag_has_scope (c : Collaborators) (a : State)
    (event : GdkEventButton) (hinv : a.m_dragState = DragState.DRAG_TRIGGER → a.m_scope ≠ none) :
    (on_button_press_event c a event).m_dragState = DragState.DRAG_TRIGGER →
      (on_button_press_event c a event).m_scope ≠ none := by
  obtain ⟨hs, hd, ht⟩ :=
    HitTest_scope_drag { a with m_selectedChannel := a.m_channel.id } event.x event.y
  have hs' : (HitTest { a with m_selectedChannel := a.m_channel.id } event.x event.y).2.m_scope
      = a.m_scope := hs
  have hd' : (HitTest { a with m_selectedChannel := a.m_channel.id }
      event.x event.y).2.m_dragState = a.m_dragState := hd
  have ht' : (HitTest { a with m_selectedChannel := a.m_channel.id } event.x event.y).1 =
      ClickLocation.LOC_TRIGGER → a.m_scope ≠ none := ht
  unfold on_button_press_event
  dsimp only
  cases event.type
  · dsimp only
    unfold OnSingleClick
    dsimp only
    cases hloc : (HitTest { a with m_selectedChannel := a.m_channel.id } event.x event.y).1
    · dsimp only
      split_ifs <;> dsimp only <;> intro h <;> first
        | (rw [hs']; exact hinv (hd' ▸ h))
        | cases h
    · dsimp only
      intro h
      rw [hs']
      exact hinv (hd' ▸ h)
    · dsimp only
      split_ifs <;> dsimp only <;> intro h <;> rw [hs']
      · exact ht' hloc
      · exact hinv (hd' ▸ h)
    · dsimp only
      intro h
      rw [hs']
      exact hinv (hd' ▸ h)
  · dsimp only
    unfold OnDoubleClick
    dsimp only
    cases hloc : (HitTest { a with m_selectedChannel := a.m_channel.id } event.x event.y).1 <;>
      dsimp only <;> intro h <;> rw [hs'] <;> exact hinv (hd' ▸ h)
  · dsimp only
    intro h
    rw [hs']
    exact hinv (hd' ▸ h)
  · dsimp only
    intro h
    rw [hs']
    exact hinv (hd' ▸ h)

/-- Finishing a drag returns unless the left button is released on a trigger drag in an area
without a scope. -/
theorem finishDrag_some (a : State) (event : GdkEventButton)
    (hscope : a.m_dragState = DragState.DRAG_TRIGGER → event.button = 1 → a.m_scope ≠ none) :
    ∃ a', finishDrag a event = some a' := by
  unfold finishDrag
  dsimp only
  cases hd : a.m_dragState with
  | DRAG_NONE => exact ⟨_, rfl⟩
  | DRAG_TRIGGER =>
    dsimp only
    by_cases hb : event.button = 1
    · rw [if_pos hb]
      cases hs : a.m_scope with
      | none => exact absurd hs (hscope hd hb)
      | some scope => exact ⟨_, rfl⟩
    · rw [if_neg hb]
      exact ⟨_, rfl⟩
  | DRAG_CURSOR =>
    dsimp only
    split_ifs
    · exact ⟨_, rfl⟩
    · exact ⟨_, rfl⟩

/-- Claim C15. For every state (every drag state and cursor mode) and every button-release event
(any button, any position): whenever `on_button_release_event` returns, the drag state is
`DRAG_NONE`; and it returns in every state in which a trigger drag has a scope to set, which are
the only trigger drags a press starts. -/
theorem on_button_release_event_idle (a : State) (event : GdkEventButton) :
    (∀ a', on_button_release_event a event = some a' → a'.m_dragState = DragState.DRAG_NONE) ∧
    ((a.m_dragState = DragState.DRAG_TRIGGER → event.button = 1 → a.m_scope ≠ none) →
      ∃ a', on_button_release_event a event = some a' ∧
        a'.m_dragState = DragState.DRAG_NONE) := by
  have idle : ∀ a', on_button_release_event a event = some a' →
      a'.m_dragState = DragState.DRAG_NONE := by
    intro a' h
    unfold on_button_release_event at h
    cases hf : finishDrag a event with
    | none =>
      rw [hf] at h
      cases h
    | some b =>
      rw [hf] at h
      dsimp only at h
      by_cases hb : b.m_dragState ≠ DragState.DRAG_NONE
      · rw [if_pos hb] at h
        cases h
        rfl
      · rw [if_neg hb] at h
        cases h
        exact not_not.mp hb
  refine ⟨idle, ?_⟩
  intro hscope
  obtain ⟨b, hb⟩ := finishDrag_some a event hscope
  have hrun : ∃ a', on_button_release_event a event = some a' := by
    unfold on_button_release_event
    rw [hb]
    dsimp only
    split_ifs
    · exact ⟨_, rfl⟩
    · exact ⟨_, rfl⟩
  obtain ⟨a', ha'⟩ := hrun
  exact ⟨a', ha', idle a' ha'⟩

/-- Example for C15: releasing the left button at (710, 100) while the trigger of the scene is
dragged sets the trigger to 5/12 V and ends the drag. -/
theorem on_button_release_event_idle_scene :
    sceneDraggingTrigger.m_dragState = DragState.DRAG_TRIGGER ∧
    ∃ a', on_button_release_event sceneDraggingTrigger (releaseAt 710 100 1) = some a' ∧
      a'.m_dragState = DragState.DRAG_NONE :=
  ⟨rfl, (on_button_release_event_idle sceneDraggingTrigger (releaseAt 710 100 1)).2
    (fun _ _ => by simp [sceneDraggingTrigger, scene])⟩

/-- The pixel x of sample `n` in a vertex buffer is the x computed from the start of sample `n`. -/
theorem sampleX_vertexBuffer {α : Type} (x : Int → ℚ) (y : α → ℚ) (samples : List (Int × α)) :
    ∀ (n : Nat) (start : Int), (samples.map Prod.fst)[n]? = some start →
      sampleX (vertexBuffer x y samples) n = x start := by
  induction samples with
  | nil =>
    intro n start h
    simp at h
  | cons s rest ih =>
    obtain ⟨s0, v0⟩ := s
    intro n start h
    cases n with
    | zero =>
      simp only [List.map_cons, List.getElem?_cons_zero, Option.some.injEq] at h
      simp [sampleX, vertexBuffer, h]
    | succ n =>
      simp only [List.map_cons, List.getElem?_cons_succ] at h
      have hrest := ih n start h
      unfold sampleX at hrest ⊢
      rw [show (n + 1) * 2 = n * 2 + 1 + 1 by ring]
      simpa [vertexBuffer, List.getD_cons_succ] using hrest

/-- The geometry of a non-empty digital capture: the vertex buffer holds, for each sample, the
pixel x `vertexX` of its start and the pixel y of its level. -/
theorem PrepareGeometry_digital (c : Collaborators) (a : State) (wdata : WaveformRenderData)
    (pdat : Capture) (samples : List (Int × Bool))
    (hdata : wdata.m_channel.data = some pdat)
    (hs : pdat.samples = CaptureSamples.digital samples) (hne : samples.length ≠ 0) :
    ∃ wd, PrepareGeometry c a wdata = some wd ∧ wd.m_geometryOK = true ∧
      wd.m_waveformStorageBuffer =
        vertexBuffer
          (vertexX a pdat)
          (fun b =>
            ((a.m_height - (overlayPosition a wdata.m_channel + 15) : Int) : ℚ) + 5 +
              (if b then 20 else 0))
          samples := by
  obtain ⟨wd, h1, _, _, h4, h5, _⟩ := uploadGeometry_some c a wdata
    (vertexBuffer
      (vertexX a pdat)
      (fun b =>
        ((a.m_height - (overlayPosition a wdata.m_channel + 15) : Int) : ℚ) + 5 +
          (if b then 20 else 0))
      samples)
    samples.length (Nat.pos_of_ne_zero hne) (vertexBuffer_length _ _ samples)
  refine ⟨wd, ?_, h4, h5⟩
  simp only [PrepareGeometry, hdata, hs, hne, if_false]
  exact h1

/-- For every sample of an analog or digital capture, `PrepareGeometry` returns valid geometry
whose vertex x for that sample is the `vertexX` of its start. -/
theorem PrepareGeometry_vertex_x (c : Collaborators) (a : State) (wdata : WaveformRenderData)
    (pdat : Capture) (n : Nat) (start : Int)
    (hdata : wdata.m_channel.data = some pdat)
    (hstart : (sampleStarts pdat.samples)[n]? = some start) :
    ∃ wd, PrepareGeometry c a wdata = some wd ∧ wd.m_geometryOK = true ∧
      sampleX wd.m_waveformStorageBuffer n = vertexX a pdat start := by
  cases hs : pdat.samples with
  | analog samples =>
    rw [hs] at hstart
    simp only [sampleStarts] at hstart
    have hne : samples.length ≠ 0 := by
      intro h0
      rw [List.length_eq_zero.mp h0] at hstart
      simp at hstart
    obtain ⟨wd, h1, h2, h3, _⟩ := PrepareGeometry_analog c a wdata pdat samples hdata hs hne
    refine ⟨wd, h1, h2, ?_⟩
    rw [h3]
    exact sampleX_vertexBuffer _ _ samples n start hstart
  | digital samples =>
    rw [hs] at hstart
    simp only [sampleStarts] at hstart
    have hne : samples.length ≠ 0 := by
      intro h0
      rw [List.length_eq_zero.mp h0] at hstart
      simp at hstart
    obtain ⟨wd, h1, h2, h3⟩ := PrepareGeometry_digital c a wdata pdat samples hdata hs hne
    refine ⟨wd, h1, h2, ?_⟩
    rw [h3]
    exact sampleX_vertexBuffer _ _ samples n start hstart
  | eye =>
    rw [hs] at hstart
    simp [sampleStarts] at hstart
  | waterfall =>
    rw [hs] at hstart
    simp [sampleStarts] at hstart
  | other =>
    rw [hs] at hstart
    simp [sampleStarts] at hstart

/-- Converting a value in `[0, 1)` to an integer gives 0. -/
theorem truncToInt_of_lt_one (q : ℚ) (h0 : 0 ≤ q) (h1 : q < 1) : truncToInt q = 0 := by
  have hn : 0 ≤ q.num := Rat.num_nonneg.mpr h0
  have hlt : q.num < (q.den : Int) := Rat.lt_one_iff_num_lt_denom.mp h1
  unfold truncToInt
  rw [Int.tdiv_eq_ediv hn (by exact_mod_cast Nat.zero_le _)]
  exact Int.ediv_eq_zero_of_lt hn hlt

/-- Claim C21, as amended. The geometry builder and the coordinate mapper agree on the horizontal
axis up to the rounding of `float` and `double` arithmetic: for every sample `n` of an analog or
digital capture, with start `s`, timescale `ts` and a whole trigger phase `ph`, under every
`m_pixelsPerXUnit` between `2^-100` and `2^100` and every axis offset, with `|ts| < 2^24`,
`|s| < 2^53`, `|offset| < 2^53` and `|s * ts|`, `|ph - offset|` and `|s * ts + ph - offset|` at
most `2^20`, `PrepareGeometry` returns valid geometry whose vertex x for that sample is finite and
differs from `XAxisUnitsToXPosition (s * ts + ph)` by at most 5/16 of `m_pixelsPerXUnit`, where
`s * ts + ph` is the time of the sample. When `m_pixelsPerXUnit` is a power of two nothing is
rounded, and the two are equal: both are `(s * ts + ph - offset) * m_pixelsPerXUnit`. -/
theorem vertex_x_eq_XAxisUnitsToXPosition (c : Collaborators) (a : State)
    (wdata : WaveformRenderData) (pdat : Capture) (n : Nat) (start ph : Int)
    (hdata : wdata.m_channel.data = some pdat)
    (hsample : (sampleStarts pdat.samples)[n]? = some start)
    (hlo : (2 : ℚ) ^ (-100 : Int) ≤ a.m_group.m_pixelsPerXUnit)
    (hhi : a.m_group.m_pixelsPerXUnit ≤ (2 : ℚ) ^ (100 : Int))
    (hph : pdat.m_triggerPhase = (ph : ℚ))
    (hts : |pdat.m_timescale| < 2 ^ 24) (hstart : |start| < 2 ^ 53)
    (hoff : |a.m_group.m_xAxisOffset| < 2 ^ 53)
    (hst : |start * pdat.m_timescale| ≤ 2 ^ 20)
    (hpo : |ph - a.m_group.m_xAxisOffset| ≤ 2 ^ 20)
    (htot : |start * pdat.m_timescale + ph - a.m_group.m_xAxisOffset| ≤ 2 ^ 20) :
    ∃ wd, PrepareGeometry c a wdata = some wd ∧ wd.m_geometryOK = true ∧
      sampleTime pdat start = ((start * pdat.m_timescale + ph : Int) : ℚ) ∧
      |sampleX wd.m_waveformStorageBuffer n| < 2 ^ 128 ∧
      |sampleX wd.m_waveformStorageBuffer n -
          XAxisUnitsToXPosition a (start * pdat.m_timescale + ph)|
        ≤ 5 / 16 * a.m_group.m_pixelsPerXUnit ∧
      (∀ k : Int, a.m_group.m_pixelsPerXUnit = (2 : ℚ) ^ k →
        sampleX wd.m_waveformStorageBuffer n =
          XAxisUnitsToXPosition a (start * pdat.m_timescale + ph) ∧
        sampleX wd.m_waveformStorageBuffer n =
          ((start * pdat.m_timescale + ph - a.m_group.m_xAxisOffset : Int) : ℚ) *
            a.m_group.m_pixelsPerXUnit) := by
  obtain ⟨wd, h1, h2, h3⟩ := PrepareGeometry_vertex_x c a wdata pdat n start hdata hsample
  have hP0 : (0 : ℚ) < a.m_group.m_pixelsPerXUnit := lt_of_lt_of_le (by positivity) hlo
  have hv := vertexX_near a pdat start ph hlo hph hts hstart hoff hst hpo htot
  have hx := XAxisUnitsToXPosition_near a (start * pdat.m_timescale + ph) hlo htot
  have hdq : |((start * pdat.m_timescale + ph - a.m_group.m_xAxisOffset : Int) : ℚ)|
      ≤ 2 ^ 20 := by
    have : ((|start * pdat.m_timescale + ph - a.m_group.m_xAxisOffset| : Int) : ℚ) ≤
        ((2 ^ 20 : Int) : ℚ) := by exact_mod_cast htot
    simpa using this
  have hd : |((start * pdat.m_timescale + ph - a.m_group.m_xAxisOffset : Int) : ℚ) *
      a.m_group.m_pixelsPerXUnit| ≤ 2 ^ 20 * a.m_group.m_pixelsPerXUnit := by
    rw [abs_mul, abs_of_pos hP0]
    exact mul_le_mul_of_nonneg_right hdq hP0.le
  obtain ⟨hv1, hv2⟩ := abs_le.mp hv
  obtain ⟨hx1, hx2⟩ := abs_le.mp hx
  obtain ⟨hd1, hd2⟩ := abs_le.mp hd
  refine ⟨wd, h1, h2, ?_, ?_, ?_, ?_⟩
  · unfold sampleTime
    rw [hph]
    push_cast
    ring
  · rw [h3]
    have hfin : (2 ^ 20 + 1 / 4) * (2 : ℚ) ^ (100 : Int) < 2 ^ 128 := by norm_num
    have hmul : (2 ^ 20 + 1 / 4) * a.m_group.m_pixelsPerXUnit ≤
        (2 ^ 20 + 1 / 4) * (2 : ℚ) ^ (100 : Int) :=
      mul_le_mul_of_nonneg_left hhi (by norm_num)
    exact abs_lt.mpr ⟨by linarith, by linarith⟩
  · rw [h3]
    exact abs_le.mpr ⟨by linarith, by linarith⟩
  · intro k hk
    have hk100 : -100 ≤ k := by
      by_contra hcon
      have hlt : (2 : ℚ) ^ k < (2 : ℚ) ^ (-100 : Int) :=
        zpow_lt_zpow_right₀ (by norm_num) (by omega)
      rw [hk] at hlo
      linarith
    have hve := vertexX_exact a pdat start k ph hk hk100 hph hts hstart hoff (by omega)
      (by omega)
    have hxe := XAxisUnitsToXPosition_exact a (start * pdat.m_timescale + ph) k hk hk100
      (by omega)
    exact ⟨by rw [h3, hve, hxe], by rw [h3, hve, hk]⟩

/-- Witness for C21: the second sample of the scenario, at start 100 with timescale 1 and trigger
phase 0, under a quarter of a pixel per time unit and an axis offset of -40. -/
theorem vertex_x_eq_XAxisUnitsToXPosition_witness :
    (scenario.m_waveformRenderData.m_channel.data = some sceneCapture ∧
      (sampleStarts sceneCapture.samples)[1]? = some 100 ∧
      (2 : ℚ) ^ (-100 : Int) ≤ scenePanZoom.m_group.m_pixelsPerXUnit ∧
      scenePanZoom.m_group.m_pixelsPerXUnit ≤ (2 : ℚ) ^ (100 : Int) ∧
      sceneCapture.m_triggerPhase = ((0 : Int) : ℚ) ∧
      |(100 : Int) * sceneCapture.m_timescale + 0 - scenePanZoom.m_group.m_xAxisOffset|
        ≤ 2 ^ 20) ∧
    ∃ wd, PrepareGeometry sceneCollaborators scenePanZoom scenario.m_waveformRenderData =
        some wd ∧ wd.m_geometryOK = true ∧
      sampleTime sceneCapture 100 = ((100 * sceneCapture.m_timescale + 0 : Int) : ℚ) ∧
      |sampleX wd.m_waveformStorageBuffer 1| < 2 ^ 128 ∧
      |sampleX wd.m_waveformStorageBuffer 1 -
          XAxisUnitsToXPosition scenePanZoom (100 * sceneCapture.m_timescale + 0)|
        ≤ 5 / 16 * scenePanZoom.m_group.m_pixelsPerXUnit ∧
      (∀ k : Int, scenePanZoom.m_group.m_pixelsPerXUnit = (2 : ℚ) ^ k →
        sampleX wd.m_waveformStorageBuffer 1 =
          XAxisUnitsToXPosition scenePanZoom (100 * sceneCapture.m_timescale + 0) ∧
        sampleX wd.m_waveformStorageBuffer 1 =
          ((100 * sceneCapture.m_timescale + 0 - scenePanZoom.m_group.m_xAxisOffset : Int) : ℚ) *
            scenePanZoom.m_group.m_pixelsPerXUnit) :=
  ⟨⟨rfl, rfl, by norm_num [scenePanZoom, scenario], by norm_num [scenePanZoom, scenario],
      by norm_num [sceneCapture], by norm_num [scenePanZoom, scenario, sceneCapture]⟩,
    vertex_x_eq_XAxisUnitsToXPosition sceneCollaborators scenePanZoom
      scenario.m_waveformRenderData sceneCapture 1 100 0 rfl rfl
      (by norm_num [scenePanZoom, scenario]) (by norm_num [scenePanZoom, scenario])
      (by norm_num [sceneCapture]) (by norm_num [sceneCapture]) (by norm_num)
      (by norm_num [scenePanZoom, scenario]) (by norm_num [sceneCapture])
      (by norm_num [scenePanZoom, scenario])
      (by norm_num [scenePanZoom, scenario, sceneCapture])⟩

/-- Counterexample to C21 as stated. First, a fractional trigger phase: with one pixel per time
unit, axis offset 0, timescale 1 and a trigger phase of half a time unit, the vertex of the sample
with start 0 is at x = 1/2; its time 0 * 1 + 1/2 becomes the integer 0 when it is passed to
`XAxisUnitsToXPosition`, which returns x = 0, and the next time, 1, is at x = 1. Second, a large
pan with a whole trigger phase: at one pixel per time unit and axis offset 1000000031, `float xoff`
is rounded from -1000000031 to -1000000000, so the vertex of the sample at time 1000000031 is at
x = 31 while `XAxisUnitsToXPosition 1000000031` is 0. -/
theorem half_phase_vertex_off_cursor :
    (∃ wd, PrepareGeometry sceneCollaborators scenario sceneHalfPhaseRenderData = some wd ∧
      wd.m_geometryOK = true ∧
      sampleX wd.m_waveformStorageBuffer 0 = 1 / 2 ∧
      sampleTime sceneHalfPhaseCapture 0 = 1 / 2 ∧
      XAxisUnitsToXPosition scenario (truncToInt (sampleTime sceneHalfPhaseCapture 0)) = 0 ∧
      XAxisUnitsToXPosition scenario 1 = 1 ∧
      sampleX wd.m_waveformStorageBuffer 0 ≠
        XAxisUnitsToXPosition scenario (truncToInt (sampleTime sceneHalfPhaseCapture 0))) ∧
    (∃ wd, PrepareGeometry sceneCollaborators sceneLargePan sceneLateRenderData = some wd ∧
      wd.m_geometryOK = true ∧
      sampleTime sceneLateCapture 1000000031 = 1000000031 ∧
      sampleX wd.m_waveformStorageBuffer 0 = 31 ∧
      XAxisUnitsToXPosition sceneLargePan 1000000031 = 0 ∧
      sampleX wd.m_waveformStorageBuffer 0 ≠ XAxisUnitsToXPosition sceneLargePan 1000000031) := by
  have h1 : roundF32 1 = 1 := by
    have h := roundF32_intCast 1 (by norm_num)
    norm_num at h
    exact h
  have hh64 : roundF64 (1 / 2) = 1 / 2 := by
    have h := roundF64_exact 1 (-1) (by norm_num) (by norm_num)
    norm_num at h
    exact h
  have hh32 : roundF32 (1 / 2) = 1 / 2 := by
    have h := roundF32_exact 1 (-1) (by norm_num) (by norm_num)
    norm_num at h
    exact h
  have hA : roundF64 1000000031 = 1000000031 := by
    have h := roundF64_intCast 1000000031 (by norm_num)
    norm_num at h
    exact h
  have hB : roundF64 (-1000000031) = -1000000031 := by
    have h := roundF64_intCast (-1000000031) (by norm_num)
    norm_num at h
    exact h
  have hC : roundF32 (-1000000031) = -1000000000 := by
    have h := roundF32_eq (-1000000031) 6 (-15625000) (by norm_num)
      (by norm_num [abs_of_neg]) (by norm_num [abs_of_neg]) (by norm_num) (by norm_num)
    rw [h]
    norm_num
  have h31a : roundF64 31 = 31 := by
    have h := roundF64_intCast 31 (by norm_num)
    norm_num at h
    exact h
  have h31b : roundF32 31 = 31 := by
    have h := roundF32_intCast 31 (by norm_num)
    norm_num at h
    exact h
  constructor
  · obtain ⟨wd, hp1, hp2, hp3⟩ := PrepareGeometry_vertex_x sceneCollaborators scenario
      sceneHalfPhaseRenderData sceneHalfPhaseCapture 0 0 rfl rfl
    have hx : sampleX wd.m_waveformStorageBuffer 0 = 1 / 2 := by
      rw [hp3]
      norm_num [vertexX, sceneHalfPhaseCapture, scenario, h1, roundF64_zero, hh64, hh32]
    have ht : sampleTime sceneHalfPhaseCapture 0 = 1 / 2 := by
      norm_num [sampleTime, sceneHalfPhaseCapture]
    have htr : truncToInt (sampleTime sceneHalfPhaseCapture 0) = 0 := by
      rw [ht]
      exact truncToInt_of_lt_one _ (by norm_num) (by norm_num)
    have hp0 : XAxisUnitsToXPosition scenario 0 = 0 := by
      norm_num [XAxisUnitsToXPosition, XAxisUnitsToPixels, scenario, roundF32_zero]
    have hp1' : XAxisUnitsToXPosition scenario 1 = 1 := by
      norm_num [XAxisUnitsToXPosition, XAxisUnitsToPixels, scenario, h1]
    refine ⟨wd, hp1, hp2, hx, ht, ?_, hp1', ?_⟩
    · rw [htr, hp0]
    · rw [htr, hp0, hx]
      norm_num
  · obtain ⟨wd, hp1, hp2, hp3⟩ := PrepareGeometry_vertex_x sceneCollaborators sceneLargePan
      sceneLateRenderData sceneLateCapture 0 1000000031 rfl rfl
    have hx : sampleX wd.m_waveformStorageBuffer 0 = 31 := by
      rw [hp3]
      norm_num [vertexX, sceneLateCapture, sceneLargePan, scenario, h1, hA, hB, hC, h31a, h31b]
    have hp : XAxisUnitsToXPosition sceneLargePan 1000000031 = 0 := by
      norm_num [XAxisUnitsToXPosition, XAxisUnitsToPixels, sceneLargePan, scenario, roundF32_zero]
    refine ⟨wd, hp1, hp2, ?_, hx, hp, ?_⟩
    · norm_num [sampleTime, sceneLateCapture]
    · rw [hx, hp]
      norm_num

end WaveformArea
